import Mathlib

/-!
# lcmaps-plugins-anonymous-accounts: pool leasing and ancestry fingerprints

A shallow embedding of `ancestry_hash.cxx`, `lcmaps_anonymous_accounts.c` and
`lcmaps_pool_accounts.c`.

* C strings and file contents are `List Char`; account names are `String`.
* C `int` / `pid_t` / `time_t` values are `Int`; the conversions performed by
  `scanf` are made explicit (`clamp_long`, `to_int32`).
* The answers of the operating system (account database, directory metadata,
  system-call failures, the live `/proc` tree) are fields of `Env`; the things
  the plugin changes (lock files, held locks, registered credentials) are
  fields of `State`, which is threaded through the plugin functions.
* Loops that may not terminate (`makeAncestry` on a cyclic parent map, the
  `write` retry loop) are bounded by fuel or by a script of system-call
  answers; `none` means that the bound was reached before the call returned,
  or that the C behaviour is undefined (signed overflow of a loop counter).
* Allocation failures (`malloc`, `strdup`, `fdopen`) and logging are not
  modelled.
* The field `Proc.status` stands for `open` followed by `get_proc_info` on a
  status file; `get_proc_info` itself is embedded on the text read
  (`match_column`, `strtol`), `plugin_initialize` on the argument vector, and
  `mineProc` on the entries that `readdir64` returns for `/proc`.
-/

namespace Lcmaps

/-! ## Fingerprint text: `printf` and `scanf` of `"%d:%d:%ld"` -/

/-- Smallest value of a C `int`. -/
def INT_MIN : Int := -2147483648

/-- Largest value of a C `int`. -/
def INT_MAX : Int := 2147483647

/-- Smallest value of a C `long` (LP64). -/
def LONG_MIN : Int := -9223372036854775808

/-- Largest value of a C `long` (LP64). -/
def LONG_MAX : Int := 9223372036854775807

/-- Range of `int` and `pid_t`. -/
def is_int (v : Int) : Prop := INT_MIN ≤ v ∧ v ≤ INT_MAX

/-- Range of `long` and `time_t`. -/
def is_long (v : Int) : Prop := LONG_MIN ≤ v ∧ v ≤ LONG_MAX

instance (v : Int) : Decidable (is_int v) := by unfold is_int; infer_instance

instance (v : Int) : Decidable (is_long v) := by unfold is_long; infer_instance

/-- The decimal digit character of `d` (for `d < 10`). -/
def digit_char (d : Nat) : Char := Char.ofNat (48 + d)

/-- C `isdigit`. -/
def isdigit (c : Char) : Bool := decide (48 ≤ c.toNat) && decide (c.toNat ≤ 57)

/-- C `isspace` in the C locale: space, and `\t \n \v \f \r`. -/
def isspace (c : Char) : Bool :=
  decide (c.toNat = 32) || (decide (9 ≤ c.toNat) && decide (c.toNat ≤ 13))

/-- Decimal digits of a natural number, most significant first, as `printf`
prints them; the first argument bounds the recursion. -/
def fmt_nat_fuel : Nat → Nat → List Char
  | 0, _ => []
  | f + 1, n =>
    if n < 10 then [digit_char n]
    else fmt_nat_fuel f (n / 10) ++ [digit_char (n % 10)]

/-- The text `printf("%u")` produces. -/
def fmt_nat (n : Nat) : List Char := fmt_nat_fuel (n + 1) n

/-- The text `printf("%d")` / `printf("%ld")` produces. -/
def fmt_int (v : Int) : List Char :=
  if v < 0 then '-' :: fmt_nat v.natAbs else fmt_nat v.natAbs

/-- The text of `snprintf(.., "%d:%d:%ld", pid, ppid, st_mtime)` as used by
`create_hash`. -/
def fmt_hash (pid ppid mtime : Int) : List Char :=
  fmt_int pid ++ ':' :: (fmt_int ppid ++ ':' :: fmt_int mtime)

/-- Skipping of leading white space done by a `%d` conversion. -/
def skip_space : List Char → List Char
  | [] => []
  | c :: cs => if isspace c then skip_space cs else c :: cs

/-- Reading of a maximal run of decimal digits, accumulating the value. -/
def scan_digits : List Char → Nat → Nat × List Char
  | [], acc => (acc, [])
  | c :: cs, acc =>
    if isdigit c then scan_digits cs (acc * 10 + (c.toNat - 48)) else (acc, c :: cs)

/-- One `%d` / `%ld` conversion of `scanf`: white space, an optional sign, at
least one digit.  The result is the mathematical value read and the unread
input; `none` is a matching (or input) failure. -/
def scan_int (s : List Char) : Option (Int × List Char) :=
  match skip_space s with
  | [] => none
  | c :: cs =>
    if c = '-' then
      match cs with
      | [] => none
      | d :: _ =>
        if isdigit d then some (-((scan_digits cs 0).1 : Int), (scan_digits cs 0).2) else none
    else if c = '+' then
      match cs with
      | [] => none
      | d :: _ =>
        if isdigit d then some (((scan_digits cs 0).1 : Int), (scan_digits cs 0).2) else none
    else if isdigit c then
      some (((scan_digits (c :: cs) 0).1 : Int), (scan_digits (c :: cs) 0).2)
    else none

/-- Saturation of an out-of-range value as done by `strtol`, which `scanf`
uses for the conversion. -/
def clamp_long (v : Int) : Int :=
  if v > LONG_MAX then LONG_MAX else if v < LONG_MIN then LONG_MIN else v

/-- Storing a `long` into an `int` object (truncation to 32 bits). -/
def to_int32 (v : Int) : Int := (v + 2147483648) % 4294967296 - 2147483648

/-- Result of `scanf("%d:%d:%ld", &pid, &ppid, &timestamp)`: the number of
conversions done (`-1` is `EOF`) and the values stored; a variable that was
not assigned is reported as `0`. -/
structure ScanHash where
  matches_ : Int
  pid : Int
  ppid : Int
  timestamp : Int
deriving DecidableEq, Repr

/-- The reader `fscanf(file, "%d:%d:%ld", ..)` / `sscanf(new_hash, ..)` of
`check_account`, on the text from the start of the file or string. -/
def scanf_hash (s : List Char) : ScanHash :=
  match scan_int s with
  | none => ⟨if skip_space s = [] then -1 else 0, 0, 0, 0⟩
  | some (v1, r1) =>
    let pid := to_int32 (clamp_long v1)
    match r1 with
    | [] => ⟨1, pid, 0, 0⟩
    | c1 :: r1t =>
      if c1 ≠ ':' then ⟨1, pid, 0, 0⟩
      else
        match scan_int r1t with
        | none => ⟨1, pid, 0, 0⟩
        | some (v2, r2) =>
          let ppid := to_int32 (clamp_long v2)
          match r2 with
          | [] => ⟨2, pid, ppid, 0⟩
          | c2 :: r2t =>
            if c2 ≠ ':' then ⟨2, pid, ppid, 0⟩
            else
              match scan_int r2t with
              | none => ⟨2, pid, ppid, 0⟩
              | some (v3, _) => ⟨3, pid, ppid, clamp_long v3⟩

/-- Value of a digit string read left to right from the accumulator `a`. -/
def digits_value (ds : List Char) (a : Nat) : Nat :=
  ds.foldl (fun acc c => acc * 10 + (c.toNat - 48)) a

/-- The unread input does not start with a digit. -/
def no_digit_ahead (tl : List Char) : Prop := ∀ c ∈ tl.head?, isdigit c = false

/-! ## Process table snapshot and ancestry (`ancestry_hash.cxx`) -/

/-- Lookup `PidPidMap::find` / `PidIntMap::find`: the maps are association lists,
the first entry for a key is the one found. -/
def map_find (m : List (Int × Int)) (pid : Int) : Option Int := List.lookup pid m

/-- The private maps of `class AncestryHash`, as filled by `mineProc`. -/
structure AncestryHash where
  reverse_parentage_mapping : List (Int × Int)
  process_uid_mapping : List (Int × Int)
  process_gid_mapping : List (Int × Int)

/-- Answer of `stat("/proc/<pid>", &stat_buf)`: success with `st_mtime`,
failure with `ENOENT`, failure with another `errno`. -/
inductive StatResult where
  | ok (st_mtime : Int)
  | enoent
  | error
deriving DecidableEq, Repr

/-- Values stored by a `get_proc_info` call that returned 0. -/
structure ProcInfo where
  ppid : Int
  uid : Int
  gid : Int
deriving DecidableEq, Repr

/-- The live `/proc` tree, read after the snapshot was taken.  `status pid` is
the result of opening `/proc/<pid>/status` and running `get_proc_info` on it:
`none` when the open fails or `get_proc_info` returns non-zero. -/
structure Proc where
  stat : Int → StatResult
  status : Int → Option ProcInfo

/-- Value of `PATH_MAX` on Linux. -/
def PATH_MAX : Nat := 4096

/-- Function `create_hash(pid, ppid)`: `none` is `NULL`. -/
def create_hash (proc : Proc) (pid ppid : Int) : Option (List Char) :=
  if ("/proc/".toList ++ fmt_int pid).length ≥ 20 then none
  else
    match proc.stat pid with
    | .ok st_mtime => some (fmt_hash pid ppid st_mtime)
    | _ => none

/-- Method `AncestryHash::getParentIDs(pid, &ppid, &uid, &gid)`: `none` is the
return value `-1`, `some (ppid, uid, gid)` is the return value `0` with the
three outputs. -/
def AncestryHash.getParentIDs (ah : AncestryHash) (proc : Proc) (pid : Int) :
    Option (Int × Int × Int) :=
  match map_find ah.reverse_parentage_mapping pid with
  | none => none
  | some old_ppid =>
    if ("/proc/".toList ++ fmt_int pid ++ "/status".toList).length ≥ PATH_MAX then none
    else
      match proc.status pid with
      | none => none
      | some info =>
        let new_ppid := info.ppid
        if new_ppid ≠ old_ppid then none
        else
          match map_find ah.process_uid_mapping new_ppid with
          | none => none
          | some uid =>
            match map_find ah.process_gid_mapping new_ppid with
            | none => none
            | some gid => some (new_ppid, uid, gid)

/-- Method `AncestryHash::makeAncestry(pid, ancestry)` called with an empty
`ancestry`: the return code and the list built.  The first argument bounds
the number of loop iterations; `none` means the bound was reached. -/
def AncestryHash.makeAncestry (ah : AncestryHash) : Nat → Int → Option (Int × List Int)
  | fuel, curpid =>
    if curpid = 1 then some (0, [1])
    else
      match fuel with
      | 0 => none
      | fuel + 1 =>
        match map_find ah.reverse_parentage_mapping curpid with
        | none => some (1, [curpid])
        | some ppid =>
          match AncestryHash.makeAncestry ah fuel ppid with
          | none => none
          | some (result, ancestry) => some (result, curpid :: ancestry)

/-- The `for` loop of `AncestryHash::getHash` over the remaining ancestry,
with the loop variables `orig_uid` and `pid_it`. -/
def AncestryHash.getHash_loop (ah : AncestryHash) (proc : Proc) :
    List Int → Int → Int → Option (List Char)
  | [], _, _ => none
  | it :: rest, orig_uid, pid_it =>
    let ppid := it
    match map_find ah.process_uid_mapping it with
    | none => none
    | some uid =>
      let orig_uid := if orig_uid = -1 then uid else orig_uid
      if (ah.getParentIDs proc pid_it).isNone then none
      else if uid ≠ orig_uid then create_hash proc pid_it ppid
      else AncestryHash.getHash_loop ah proc rest orig_uid it

/-- Method `AncestryHash::getHash(pid)`: the outer `none` means `makeAncestry` did not
return within the bound, the inner `none` is `NULL`. -/
def AncestryHash.getHash (ah : AncestryHash) (proc : Proc) (fuel : Nat) (pid : Int) :
    Option (Option (List Char)) :=
  match ah.makeAncestry fuel pid with
  | none => none
  | some (rc, ancestry) =>
    if rc ≠ 0 then some none
    else if ancestry.length < 3 then some none
    else
      match ancestry with
      | _ :: it :: rest => some (ah.getHash_loop proc (it :: rest) (-1) it)
      | _ => some none

/-! ## The operating system and the plugin state -/

/-- A `struct passwd` as returned by `getpwuid` (the fields used). -/
structure passwd where
  pw_name : String
  pw_uid : Int
  pw_gid : Int
deriving DecidableEq, Repr

/-- The fields of `struct stat` read by `open_lockdir`. -/
structure DirStat where
  st_uid : Nat
  st_gid : Nat
  st_mode : Nat
deriving DecidableEq, Repr

/-- The `errno` values the plugins distinguish. -/
inductive Errno where
  | ENOENT
  | EWOULDBLOCK
  | EOTHER
deriving DecidableEq, Repr

/-- Answer of one `write(new_fd, ptr, nleft)` call: the number of bytes the
kernel is ready to take (at most `nleft` are taken), `EINTR`, or another
error. -/
inductive WriteResult where
  | wrote (n : Nat)
  | eintr
  | error
deriving DecidableEq, Repr

/-- Credential kinds passed to `addCredentialData`. -/
inductive CredKind where
  | UID
  | PRI_GID
deriving DecidableEq, Repr

/-- Return values of `plugin_run`. -/
inductive ModResult where
  | LCMAPS_MOD_SUCCESS
  | LCMAPS_MOD_FAIL
deriving DecidableEq, Repr

/-- System and host calls issued by the two account plugins, in the order of
issue (the calls made inside `ancestry_hash.cxx` are not recorded). -/
inductive Call where
  | opendir
  | dirfd
  | fstat
  | getpwuid (uid : Int)
  | openat_excl (name : String)
  | openat (name : String)
  | flock (name : String)
  | close (name : String)
  | close_dir
  | addCredentialData (kind : CredKind) (value : Int)
  | ftruncate (name : String)
  | lseek (name : String)
  | write (name : String)
  | unlink (name : String)
deriving DecidableEq, Repr

/-- Plugin configuration and the answers of the environment during one
invocation.  Lock files are named, relative to the lock directory, by the
account name; a descriptor is identified with the name of the file it is open
on. -/
structure Env where
  /-- Configured `-minuid`. -/
  min_uid : Int
  /-- Configured `-maxuid`. -/
  max_uid : Int
  /-- Configured `-lockpath`. -/
  lockdir : String
  /-- Answer of `getpwuid(uid)`; `none` is `NULL`. -/
  getpwuid : Int → Option passwd
  /-- Whether `opendir(lockdir)` succeeds. -/
  opendir_ok : Bool
  /-- Answer of `dirfd(dir)`. -/
  dirfd : Int
  /-- Answer of `fstat(dir_fd, &stat_buf)`; `none` is `-1`. -/
  fstat : Option DirStat
  /-- Whether `openat(.., O_CREAT|O_EXCL, ..)` fails with an `errno` other than `EEXIST`. -/
  create_error : String → Bool
  /-- Error of the second `openat` (without `O_CREAT`), if any. -/
  reopen_error : String → Option Errno
  /-- Error of `flock(fd, LOCK_EX|LOCK_NB)`, if any; `EWOULDBLOCK` when another
  process holds the lock. -/
  flock_error : String → Option Errno
  /-- Whether `ftruncate(new_fd, 0)` succeeds. -/
  ftruncate_ok : String → Bool
  /-- Answers of the successive `write` calls of `plugin_run`. -/
  write_script : List WriteResult
  /-- Answer of `getpid()`. -/
  getpid : Int
  /-- The snapshot `gAH` that `mineProc` builds on first use. -/
  ah : AncestryHash
  /-- The live `/proc` tree. -/
  proc : Proc

/-- What an invocation can change. -/
structure State where
  /-- Content of the files of the lock directory; `none`: no such file. -/
  files : String → Option (List Char)
  /-- Lock files on which this process holds the advisory lock. -/
  locks : List String
  /-- Credentials registered with `addCredentialData`. -/
  creds : List (CredKind × Int)
  /-- The exported globals `lcmaps_pool_accounts_fd` and
  `lcmaps_pool_accounts_lockfile` (pool plugin). -/
  exported : Option (String × String)
  /-- Calls issued so far. -/
  trace : List Call

/-- Recording of a call. -/
def State.log (s : State) (c : Call) : State := { s with trace := s.trace ++ [c] }

/-- Effect of `close(fd)` on a lock-file descriptor: the advisory lock taken
through it is dropped. -/
def State.close (s : State) (name : String) : State :=
  { s with locks := s.locks.filter (fun n => decide (n ≠ name)), trace := s.trace ++ [Call.close name] }

/-- Effect of the host call `addCredentialData(kind, &value)`. -/
def State.addCredentialData (s : State) (kind : CredKind) (value : Int) : State :=
  { s with creds := s.creds ++ [(kind, value)],
           trace := s.trace ++ [Call.addCredentialData kind value] }

/-- Replacement of the content of the lock file `name` (`none` removes the
file). -/
def State.set_file (s : State) (name : String) (content : Option (List Char)) : State :=
  { s with files := fun f => if f = name then content else s.files f }

/-- The mode bit `S_IWGRP` (`0020`). -/
def S_IWGRP : Nat := 16

/-- The mode bit `S_IWOTH` (`0002`). -/
def S_IWOTH : Nat := 2

/-- Function `open_lockdir()` (identical in both plugins): `-1` or the directory
descriptor. -/
def open_lockdir (e : Env) (s : State) : Int × State :=
  let s := s.log Call.opendir
  if e.opendir_ok = false then (-1, s)
  else
    let s := s.log Call.dirfd
    let dir_fd := e.dirfd
    if dir_fd = -1 then (-1, s)
    else
      let s := s.log Call.fstat
      match e.fstat with
      | none => (-1, s)
      | some stat_buf =>
        if stat_buf.st_uid ≠ 0 then (-1, s)
        else if stat_buf.st_gid ≠ 0 ∧ stat_buf.st_mode &&& S_IWGRP = S_IWGRP then (-1, s)
        else if stat_buf.st_mode &&& S_IWOTH ≠ 0 then (-1, s)
        else (dir_fd, s)

/-- The block of `select_account` that creates or reopens the lock file
(`openat` with `O_CREAT|O_EXCL`, then without on `EEXIST`), the same in both
plugins: `false` is the `continue`, `true` an open descriptor. -/
def open_lock_file (e : Env) (s : State) (name : String) : Bool × State :=
  let s := s.log (Call.openat_excl name)
  if e.create_error name = true then (false, s)
  else
    match s.files name with
    | none => (true, s.set_file name (some []))
    | some _ =>
      let s := s.log (Call.openat name)
      match e.reopen_error name with
      | some _ => (false, s)
      | none => (true, s)

/-- The outputs of a successful `select_account`. -/
structure Selection where
  fd : String
  account_name : String
  account_lockfile : String
  account_hash : Option (List Char)
  account_uid : Int
  account_gid : Int
deriving DecidableEq, Repr

/-- What one iteration of the `for` loop of `select_account` does next. -/
inductive Step where
  | continue_
  | return_ (r : Option Selection)
deriving DecidableEq, Repr

/-- The global `getHash(proc)` of `ancestry_hash.cxx`. -/
def getHash (fuel : Nat) (e : Env) (pid : Int) : Option (Option (List Char)) :=
  e.ah.getHash e.proc fuel pid

/-- The global `getParentIDs(proc, ..)` of `ancestry_hash.cxx`. -/
def getParentIDs (e : Env) (pid : Int) : Option (Int × Int × Int) :=
  e.ah.getParentIDs e.proc pid

/-- The path `lockdir/name` built with `sprintf`. -/
def lockfile_path (lockdir name : String) : String := lockdir ++ "/" ++ name

/-! ## `lcmaps_anonymous_accounts.c` -/

namespace Anonymous

/-- Function `check_account(uid, fd, &account_hash)`: the return value (`0` usable,
`-1` failure, `1` do not use) and the value left in `*account_hash`.  The
outer `none` means that `getHash` did not return within the bound. -/
def check_account (fuel : Nat) (e : Env) (s : State) (_uid : Int) (fd : String) :
    Option (Int × Option (List Char)) :=
  match getHash fuel e e.getpid with
  | none => none
  | some none => some (-1, none)
  | some (some new_hash) =>
    let disk := scanf_hash ((s.files fd).getD [])
    if disk.matches_ ≠ 3 then some (0, some new_hash)
    else
      let mine := scanf_hash new_hash
      if mine.matches_ ≠ 3 then some (-1, some new_hash)
      else if mine.pid = disk.pid ∧ mine.ppid = disk.ppid ∧ mine.timestamp = disk.timestamp then
        some (0, some new_hash)
      else if ("/proc/".toList ++ fmt_int disk.pid).length ≥ 20 then some (1, some new_hash)
      else
        match e.proc.stat disk.pid with
        | .error => some (-1, some new_hash)
        | .enoent => some (0, some new_hash)
        | .ok st_mtime =>
          if disk.timestamp ≠ st_mtime then some (0, some new_hash)
          else
            match getParentIDs e disk.pid with
            | none => some (0, some new_hash)
            | some (real_ppid, _, _) =>
              if real_ppid ≠ disk.ppid then some (0, some new_hash)
              else some (1, some new_hash)

/-- Body of the `for` loop of `select_account` for the candidate `uid`. -/
def select_body (fuel : Nat) (e : Env) (s : State) (uid : Int) : Option (Step × State) :=
  let s := s.log (Call.getpwuid uid)
  match e.getpwuid uid with
  | none => some (Step.continue_, s)
  | some account =>
    let name := account.pw_name
    match open_lock_file e s name with
    | (false, s) => some (Step.continue_, s)
    | (true, s) =>
      let s := s.log (Call.flock name)
      match e.flock_error name with
      | some _ => some (Step.continue_, s.close name)
      | none =>
        let s := { s with locks := name :: s.locks }
        match check_account fuel e s uid name with
        | none => none
        | some (account_validity, account_hash) =>
          if account_validity = -1 then some (Step.return_ none, s.close name)
          else if account_validity = 1 then some (Step.continue_, s.close name)
          else
            some (Step.return_ (some
              { fd := name
                account_name := name
                account_lockfile := lockfile_path e.lockdir name
                account_hash := account_hash
                account_uid := account.pw_uid
                account_gid := account.pw_gid }), s)

/-- The `for (uid = min_uid; uid <= max_uid; uid++)` loop of `select_account`
with the number of candidates left as first argument.  The increment of a
`uid` equal to `INT_MAX` overflows, which leaves the behaviour undefined
(`none`). -/
def select_loop (fuel : Nat) (e : Env) : Nat → Int → State → Option (Option Selection × State)
  | 0, _, s => some (none, s)
  | n + 1, uid, s =>
    match select_body fuel e s uid with
    | none => none
    | some (Step.return_ r, s) => some (r, s)
    | some (Step.continue_, s) =>
      if uid = INT_MAX then none else select_loop fuel e n (uid + 1) s

/-- Function `select_account(dir_fd, ..)`: `none` inside is the return value `-1`,
`some sel` an open, locked descriptor with the outputs; the outer `none` means
no defined result (`getHash` not returning within the bound, or overflow of
the loop counter). -/
def select_account (fuel : Nat) (e : Env) (s : State) : Option (Option Selection × State) :=
  select_loop fuel e (e.max_uid + 1 - e.min_uid).toNat e.min_uid s

/-- The `while (nleft > 0)` loop of `plugin_run` writing `ptr` to the lock
file, driven by the answers of the `write` calls: `true` when all bytes are
written, `false` on the jump to `write_failed`, `none` when the answers run
out before the loop ends. -/
def write_loop (name : String) : List WriteResult → List Char → State → Option (Bool × State)
  | _, [], s => some (true, s)
  | [], _ :: _, _ => none
  | r :: script, c :: cs, s =>
    let s := s.log (Call.write name)
    match r with
    | .eintr => write_loop name script (c :: cs) s
    | .error => some (false, s)
    | .wrote n =>
      let nwritten := min n (c :: cs).length
      write_loop name script ((c :: cs).drop nwritten)
        (s.set_file name (some ((s.files name).getD [] ++ (c :: cs).take nwritten)))

/-- Function `plugin_run(argc, argv)` of the anonymous-accounts plugin. -/
def plugin_run (fuel : Nat) (e : Env) (s : State) : Option (ModResult × State) :=
  match open_lockdir e s with
  | (dir_fd, s) =>
    if dir_fd = -1 then some (ModResult.LCMAPS_MOD_FAIL, s)
    else
      match select_account fuel e s with
      | none => none
      | some (none, s) => some (ModResult.LCMAPS_MOD_FAIL, s.log Call.close_dir)
      | some (some sel, s) =>
        let s := s.addCredentialData CredKind.UID sel.account_uid
        let s := s.addCredentialData CredKind.PRI_GID sel.account_gid
        let s := s.log (Call.ftruncate sel.fd)
        if e.ftruncate_ok sel.fd = false then
          some (ModResult.LCMAPS_MOD_FAIL, (s.close sel.fd).log Call.close_dir)
        else
          let s := s.set_file sel.fd (some [])
          match sel.account_hash with
          | none => none
          | some account_hash =>
            let s := s.log (Call.lseek sel.fd)
            match write_loop sel.fd e.write_script account_hash s with
            | none => none
            | some (false, s) =>
              let s := s.log (Call.unlink sel.account_lockfile)
              let s := s.set_file sel.account_name none
              some (ModResult.LCMAPS_MOD_FAIL, (s.close sel.fd).log Call.close_dir)
            | some (true, s) =>
              some (ModResult.LCMAPS_MOD_SUCCESS, (s.close sel.fd).log Call.close_dir)

end Anonymous

/-! ## `lcmaps_pool_accounts.c` -/

namespace Pool

/-- Body of the `for` loop of `select_account` for the candidate `uid`. -/
def select_body (e : Env) (s : State) (uid : Int) : Step × State :=
  let s := s.log (Call.getpwuid uid)
  match e.getpwuid uid with
  | none => (Step.continue_, s)
  | some account =>
    let name := account.pw_name
    match open_lock_file e s name with
    | (false, s) => (Step.continue_, s)
    | (true, s) =>
      let s := s.log (Call.flock name)
      match e.flock_error name with
      | some _ => (Step.continue_, s)
      | none =>
        let s := { s with locks := name :: s.locks }
        (Step.return_ (some
          { fd := name
            account_name := name
            account_lockfile := lockfile_path e.lockdir name
            account_hash := none
            account_uid := account.pw_uid
            account_gid := account.pw_gid }), s)

/-- The `for (uid = min_uid; uid <= max_uid; uid++)` loop of `select_account`
with the number of candidates left as first argument.  The increment of a
`uid` equal to `INT_MAX` overflows, which leaves the behaviour undefined
(`none`). -/
def select_loop (e : Env) : Nat → Int → State → Option (Option Selection × State)
  | 0, _, s => some (none, s)
  | n + 1, uid, s =>
    match select_body e s uid with
    | (Step.return_ r, s) => some (r, s)
    | (Step.continue_, s) =>
      if uid = INT_MAX then none else select_loop e n (uid + 1) s

/-- Function `select_account(dir_fd, ..)`: `none` inside is the return value
`-1`; the outer `none` means no defined result (overflow of the loop
counter). -/
def select_account (e : Env) (s : State) : Option (Option Selection × State) :=
  select_loop e (e.max_uid + 1 - e.min_uid).toNat e.min_uid s

/-- Function `plugin_run(argc, argv)` of the pool-accounts plugin. -/
def plugin_run (e : Env) (s : State) : Option (ModResult × State) :=
  match open_lockdir e s with
  | (dir_fd, s) =>
    if dir_fd = -1 then some (ModResult.LCMAPS_MOD_FAIL, s)
    else
      match select_account e s with
      | none => none
      | some (none, s) => some (ModResult.LCMAPS_MOD_FAIL, s.log Call.close_dir)
      | some (some sel, s) =>
        let s := s.addCredentialData CredKind.UID sel.account_uid
        let s := s.addCredentialData CredKind.PRI_GID sel.account_gid
        some (ModResult.LCMAPS_MOD_SUCCESS,
          { s with exported := some (sel.fd, sel.account_lockfile) })

end Pool

/-! ## Predicates used in the statements -/

/-- The ownership and mode conditions on the lock directory, in the words of
the specification: owned by uid 0; group-write bit (`0020`) clear unless the
group is 0; other-write bit (`0002`) clear. -/
def lockdir_invariants (st : DirStat) : Prop :=
  st.st_uid = 0 ∧ (st.st_gid = 0 ∨ st.st_mode.testBit 4 = false) ∧ st.st_mode.testBit 1 = false

instance (st : DirStat) : Decidable (lockdir_invariants st) := by
  unfold lockdir_invariants; infer_instance

/-- The calls `open_lockdir` may issue. -/
def lockdir_calls : List Call := [Call.opendir, Call.dirfd, Call.fstat]

/-- Whether the lock file `name` can be created or reopened in the state `s`:
the exclusive create does not fail with an error other than `EEXIST`, and the
file is absent (so that it is created) or the reopen succeeds. -/
def lock_file_opens (e : Env) (s : State) (name : String) : Bool :=
  !e.create_error name && ((s.files name).isNone || (e.reopen_error name).isNone)

/-- Whether the candidate `uid` is acceptable to the anonymous-accounts
`select_account` in the state `s`: the account lookup succeeds, the lock file
can be created or reopened, the lock is acquired, and `check_account` returns
`0`. -/
def Anonymous.usable (fuel : Nat) (e : Env) (s : State) (uid : Int) : Bool :=
  match e.getpwuid uid with
  | none => false
  | some account =>
    lock_file_opens e s account.pw_name && (e.flock_error account.pw_name).isNone &&
      decide ((Anonymous.check_account fuel e s uid account.pw_name).map Prod.fst = some 0)

/-- Whether the candidate `uid` makes the anonymous-accounts `select_account`
give up: the lock file is opened and locked, and `check_account` returns
`-1`. -/
def Anonymous.fatal (fuel : Nat) (e : Env) (s : State) (uid : Int) : Bool :=
  match e.getpwuid uid with
  | none => false
  | some account =>
    lock_file_opens e s account.pw_name && (e.flock_error account.pw_name).isNone &&
      decide ((Anonymous.check_account fuel e s uid account.pw_name).map Prod.fst = some (-1))

/-- Whether the candidate `uid` is acceptable to the pool-accounts
`select_account` in the state `s`: the account lookup succeeds, the lock file
can be created or reopened, and the lock is acquired. -/
def Pool.usable (e : Env) (s : State) (uid : Int) : Bool :=
  match e.getpwuid uid with
  | none => false
  | some account =>
    lock_file_opens e s account.pw_name && (e.flock_error account.pw_name).isNone

/-- Control flow of the `while (nleft > 0)` loop of `plugin_run` as a function
of the answers of `write` and of `nleft` alone. -/
def write_outcome : List WriteResult → Nat → Option Bool
  | _, 0 => some true
  | [], _ + 1 => none
  | r :: script, nleft + 1 =>
    match r with
    | .eintr => write_outcome script (nleft + 1)
    | .error => some false
    | .wrote n => write_outcome script (nleft + 1 - min n (nleft + 1))

/-- The lock files of `s1` are those of `s`, except for files that did not
exist and were created empty. -/
def files_extended (s s1 : State) : Prop :=
  ∀ n, s1.files n = s.files n ∨ (s.files n = none ∧ s1.files n = some [])

/-! ## A worked process table and pool (scenarios S1 to S6 of the specification) -/

/-- Snapshot of a process table: the plugin process 5000, started by the job
processes 4300 and 4242 (uid 500), started by the batch daemon 4200 (root),
a child of init; another job 7000 (uid 501) started by the daemon 6900.  PID 1
has no entry, as `mineProc` skips PIDs below 2. -/
def demo_ah : AncestryHash :=
  { reverse_parentage_mapping :=
      [(5000, 4300), (4300, 4242), (4242, 4200), (4200, 1), (7000, 6900), (6900, 1)]
    process_uid_mapping := [(5000, 0), (4300, 500), (4242, 500), (4200, 0), (7000, 501), (6900, 0)]
    process_gid_mapping := [(5000, 0), (4300, 500), (4242, 500), (4200, 0), (7000, 501), (6900, 0)] }

/-- The live `/proc` tree of the same processes; no process 9999. -/
def demo_proc : Proc :=
  { stat := fun p =>
      if p = 5000 then StatResult.ok 1700000100
      else if p = 4300 then StatResult.ok 1700000050
      else if p = 4242 then StatResult.ok 1700000000
      else if p = 4200 then StatResult.ok 1600000000
      else if p = 7000 then StatResult.ok 1700000500
      else if p = 6900 then StatResult.ok 1600000001
      else StatResult.enoent
    status := fun p =>
      if p = 5000 then some ⟨4300, 0, 0⟩
      else if p = 4300 then some ⟨4242, 500, 500⟩
      else if p = 4242 then some ⟨4200, 500, 500⟩
      else if p = 4200 then some ⟨1, 0, 0⟩
      else if p = 7000 then some ⟨6900, 501, 501⟩
      else if p = 6900 then some ⟨1, 0, 0⟩
      else none }

/-- A pool of three accounts `p1`, `p2`, `p3` with uids 1001 to 1003, a lock
directory `root:root 0755`, and system calls that succeed. -/
def demo_env : Env :=
  { min_uid := 1001
    max_uid := 1003
    lockdir := "/var/lock/lcmaps-plugins-pool-accounts"
    getpwuid := fun u =>
      if u = 1001 then some ⟨"p1", 1001, 2001⟩
      else if u = 1002 then some ⟨"p2", 1002, 2002⟩
      else if u = 1003 then some ⟨"p3", 1003, 2003⟩
      else none
    opendir_ok := true
    dirfd := 3
    fstat := some ⟨0, 0, 0o755⟩
    create_error := fun _ => false
    reopen_error := fun _ => none
    flock_error := fun _ => none
    ftruncate_ok := fun _ => true
    write_script := [WriteResult.wrote 8, WriteResult.eintr, WriteResult.wrote 4096]
    getpid := 5000
    ah := demo_ah
    proc := demo_proc }

/-- The same pool with a lock directory of mode `0777`. -/
def demo_env_0777 : Env := { demo_env with fstat := some ⟨0, 0, 0o777⟩ }

/-- The same pool when `ftruncate` fails. -/
def demo_env_truncate_fails : Env := { demo_env with ftruncate_ok := fun _ => false }

/-- The same pool when the first `write` fails (for instance `ENOSPC`). -/
def demo_env_write_fails : Env := { demo_env with write_script := [WriteResult.error] }

/-- An invocation that starts with the given lock files, no lock held and no
credential registered. -/
def demo_state (files : String → Option (List Char)) : State :=
  { files := files, locks := [], creds := [], exported := none, trace := [] }

/-- An empty lock directory. -/
def demo_empty : State := demo_state (fun _ => none)

/-- The lock file of `p1` holds the fingerprint of the caller's own job. -/
def demo_reentry : State :=
  demo_state (fun n => if n = "p1" then some "4242:4200:1700000000".toList else none)

/-- The lock file of `p1` holds the fingerprint of the live job 7000. -/
def demo_live : State :=
  demo_state (fun n => if n = "p1" then some "7000:6900:1700000500".toList else none)

/-- The lock file of `p1` holds the fingerprint of a process that is gone. -/
def demo_stale : State :=
  demo_state (fun n => if n = "p1" then some "9999:9000:1699000000".toList else none)

/-- The lock file of `p1` names the live process 4200, a child of init, with
its start time and its parent 1. -/
def demo_init_child : State :=
  demo_state (fun n => if n = "p1" then some "4200:1:1600000000".toList else none)

/-! ## Predicates on ancestries -/

/-- The uid recorded for a pid in the snapshot, if any. -/
def AncestryHash.uid_of (ah : AncestryHash) (pid : Int) : Option Int :=
  map_find ah.process_uid_mapping pid

/-- Each pid of the list has the next one as its parent in the snapshot. -/
def AncestryHash.parent_chain (ah : AncestryHash) (a : List Int) : Prop :=
  ∀ i, i + 1 < a.length →
    map_find ah.reverse_parentage_mapping (a.getD i 0) = some (a.getD (i + 1) 0)

/-- Number of entries of the snapshot's PID to PPID map. -/
def AncestryHash.size (ah : AncestryHash) : Nat := ah.reverse_parentage_mapping.length

/-- A snapshot with a parent cycle: 2 is the parent of 3 and 3 the parent of 2. -/
def demo_cycle : AncestryHash :=
  { reverse_parentage_mapping := [(2, 3), (3, 2)]
    process_uid_mapping := [(2, 500), (3, 500)]
    process_gid_mapping := [(2, 500), (3, 500)] }

/-- The snapshot `demo_ah` with one more process of the job: 5001 (uid 0),
also started by 4242. -/
def demo_siblings : AncestryHash :=
  { reverse_parentage_mapping := (5001, 4242) :: demo_ah.reverse_parentage_mapping
    process_uid_mapping := (5001, 0) :: demo_ah.process_uid_mapping
    process_gid_mapping := (5001, 0) :: demo_ah.process_gid_mapping }

/-! ## Lock file contents, in the words of the specification -/

/-- A text that reads as one integer: optional white space, an optional sign,
and at least one decimal digit. -/
def is_int_text (t : List Char) : Prop :=
  ∃ ws sg ds, t = ws ++ (sg ++ ds) ∧ (∀ c ∈ ws, isspace c = true) ∧
    (sg = [] ∨ sg = ['-'] ∨ sg = ['+']) ∧ ds ≠ [] ∧ ∀ c ∈ ds, isdigit c = true

/-- A content that begins with three colon-separated integers. -/
def begins_with_three_ints (s : List Char) : Prop :=
  ∃ t1 t2 t3 rest, s = t1 ++ ':' :: (t2 ++ ':' :: (t3 ++ rest)) ∧
    is_int_text t1 ∧ is_int_text t2 ∧ is_int_text t3

/-- A stale lock file of `p1` with text after the fingerprint. -/
def demo_trailing : State :=
  demo_state (fun n => if n = "p1" then some "9999:9000:1699000000\ngarbage".toList else none)

/-- A lock file of `p1` that holds only two integers. -/
def demo_partial : State :=
  demo_state (fun n => if n = "p1" then some "9999:9000".toList else none)

/-! ## `plugin_initialize` (the same in both plugins) -/

/-- C `tolower` in the C locale. -/
def tolower (c : Char) : Char :=
  if 65 ≤ c.toNat ∧ c.toNat ≤ 90 then Char.ofNat (c.toNat + 32) else c

/-- C `strncasecmp(s1, s2, n)` on strings given without their terminating NUL:
the difference of the first pair of bytes that differ once lowered, `0` when
there is none among the first `n` bytes. -/
def strncasecmp : List Char → List Char → Nat → Int
  | _, _, 0 => 0
  | [], [], _ + 1 => 0
  | [], c2 :: _, _ + 1 => -((tolower c2).toNat : Int)
  | c1 :: _, [], _ + 1 => ((tolower c1).toNat : Int)
  | c1 :: s1, c2 :: s2, n + 1 =>
    if tolower c1 ≠ tolower c2 then ((tolower c1).toNat : Int) - ((tolower c2).toNat : Int)
    else strncasecmp s1 s2 n

/-- The macro `MINUID_ARG`. -/
def MINUID_ARG : List Char := "-minuid".toList

/-- The macro `MAXUID_ARG`. -/
def MAXUID_ARG : List Char := "-maxuid".toList

/-- The macro `LOCKPATH_ARG`. -/
def LOCKPATH_ARG : List Char := "-lockpath".toList

/-- The macro `LOCKPATH_DEFAULT`. -/
def LOCKPATH_DEFAULT : List Char := "/var/lock/lcmaps-plugins-pool-accounts".toList

/-- The macro `UID_DEFAULT`. -/
def UID_DEFAULT : Int := -1

/-- The macro `SYSTEM_UID`. -/
def SYSTEM_UID : Int := 1000

/-- The static configuration variables `lockdir`, `min_uid`, `max_uid` of a
plugin; `none` is the `NULL` lock directory. -/
structure Config where
  lockdir : Option (List Char)
  min_uid : Int
  max_uid : Int
deriving DecidableEq, Repr

/-- The configuration variables as initialised at load time. -/
def Config.unset : Config := { lockdir := none, min_uid := UID_DEFAULT, max_uid := UID_DEFAULT }

/-- The call `sscanf(arg, "%d", &x)`: `none` when the return value is not 1,
else the `int` stored. -/
def sscanf_d (arg : List Char) : Option Int :=
  match scan_int arg with
  | none => none
  | some (v, _) => some (to_int32 (clamp_long v))

/-- The argument loop of `plugin_initialize` over `argv[idx..]`: `false` stands
for the `return LCMAPS_MOD_FAIL` inside the loop. The variables keep what was
stored before a failure. -/
def argv_loop : List (List Char) → Config → Bool × Config
  | [], c => (true, c)
  | [_], c => (false, c)
  | arg :: value :: rest, c =>
    if strncasecmp arg MINUID_ARG MINUID_ARG.length = 0 then
      match sscanf_d value with
      | none => (false, c)
      | some v =>
        if v < 0 then (false, { c with min_uid := v })
        else argv_loop rest { c with min_uid := v }
    else if strncasecmp arg MAXUID_ARG MAXUID_ARG.length = 0 then
      match sscanf_d value with
      | none => (false, c)
      | some v =>
        if v < 0 then (false, { c with max_uid := v })
        else argv_loop rest { c with max_uid := v }
    else if strncasecmp arg LOCKPATH_ARG LOCKPATH_ARG.length = 0 then
      argv_loop rest { c with lockdir := some value }
    else (false, c)

/-- Function `plugin_initialize(argc, argv)` of both plugins, from the
configuration variables `c`: the return value and the variables afterwards.
`argv[0]` is the plugin name. (The pool plugin also resets its exported
descriptor `lcmaps_pool_accounts_fd` to `-1` first.) -/
def plugin_initialize (argv : List (List Char)) (c : Config) : ModResult × Config :=
  match argv_loop (argv.drop 1) c with
  | (false, c) => (ModResult.LCMAPS_MOD_FAIL, c)
  | (true, c) =>
    let c := { c with lockdir := some (c.lockdir.getD LOCKPATH_DEFAULT) }
    if c.min_uid = UID_DEFAULT then (ModResult.LCMAPS_MOD_FAIL, c)
    else if c.max_uid = UID_DEFAULT then (ModResult.LCMAPS_MOD_FAIL, c)
    else if c.min_uid ≤ SYSTEM_UID then (ModResult.LCMAPS_MOD_FAIL, c)
    else if c.max_uid < c.min_uid then (ModResult.LCMAPS_MOD_FAIL, c)
    else (ModResult.LCMAPS_MOD_SUCCESS, c)

/-- The three flags of `plugin_initialize`. -/
def known_flags : List (List Char) := [MINUID_ARG, MAXUID_ARG, LOCKPATH_ARG]

/-- Equality of two strings ignoring case. -/
def eq_ignoring_case (s key : List Char) : Prop := s.map tolower = key.map tolower

instance (s key : List Char) : Decidable (eq_ignoring_case s key) := by
  unfold eq_ignoring_case; infer_instance

/-- The string begins, ignoring case, with the key. -/
def begins_ignoring_case (s key : List Char) : Prop :=
  (s.take key.length).map tolower = key.map tolower

instance (s key : List Char) : Decidable (begins_ignoring_case s key) := by
  unfold begins_ignoring_case; infer_instance

/-! ## Reading `/proc/<pid>/status` (`ancestry_hash.cxx`)

C strings are lists of bytes other than NUL, given without the terminator. -/

/-- C `strchr(s, c)`: the offset of the first `c` in `s`, `none` for `NULL`. -/
def strchr : List Char → Char → Option Nat
  | [], _ => none
  | x :: xs, c => if x = c then some 0 else (strchr xs c).map (fun i => i + 1)

/-- C `strncmp(s1, s2, n)`; only the sign of a non-zero result is specified. -/
def strncmp : List Char → List Char → Nat → Int
  | _, _, 0 => 0
  | [], [], _ + 1 => 0
  | [], _ :: _, _ + 1 => -1
  | _ :: _, [], _ + 1 => 1
  | c1 :: s1, c2 :: s2, n + 1 =>
    if c1 ≠ c2 then (if c1.toNat < c2.toNat then -1 else 1) else strncmp s1 s2 n

/-- Value of a byte as a digit of `strtol`; 36 when it is none. -/
def digit_value (c : Char) : Nat :=
  if isdigit c then c.toNat - 48
  else if 97 ≤ c.toNat ∧ c.toNat ≤ 122 then c.toNat - 87
  else if 65 ≤ c.toNat ∧ c.toNat ≤ 90 then c.toNat - 55
  else 36

/-- Reading of a maximal run of digits of the base, accumulating the value. -/
def scan_base (base : Nat) : List Char → Nat → Nat
  | [], acc => acc
  | c :: cs, acc =>
    if digit_value c < base then scan_base base cs (acc * base + digit_value c) else acc

/-- C `strtol(s, NULL, 0)`: the value returned and whether `errno` is set
(to `ERANGE`). Base 0: a `0x` prefix selects base 16, a leading `0` base 8,
otherwise base 10; without digits the value is 0. -/
def strtol (s : List Char) : Int × Bool :=
  let s := skip_space s
  let neg : Bool := decide (s.head? = some '-')
  let s := if s.head? = some '-' ∨ s.head? = some '+' then s.tail else s
  let mag : Nat :=
    if s.head? = some '0' then
      if (s.getD 1 ' ' = 'x' ∨ s.getD 1 ' ' = 'X') ∧ digit_value (s.getD 2 ' ') < 16 then
        scan_base 16 (s.drop 2) 0
      else scan_base 8 (s.drop 1) 0
    else scan_base 10 s 0
  if neg then
    if (mag : Int) > -LONG_MIN then (LONG_MIN, true) else (-(mag : Int), false)
  else
    if (mag : Int) > LONG_MAX then (LONG_MAX, true) else ((mag : Int), false)

/-- Function `match_column(key, buf)`: the outer `none` is undefined behaviour
(`next_tab` is `NULL` and is compared with and subtracted from valid
pointers), `some none` is the return value `NULL`, `some (some col)` the
column copied. -/
def match_column (key buf : List Char) : Option (Option (List Char)) :=
  match strchr buf '\t' with
  | none => some none
  | some n =>
    if strncmp buf key n ≠ 0 then some none
    else
      let next_col := buf.drop (n + 1)
      match strchr next_col '\t', strchr next_col '\n' with
      | none, none => some none
      | some t, none => some (some (next_col.take t))
      | none, some _ => none
      | some t, some l =>
        if t < l then some (some (next_col.take t)) else some (some (next_col.take l))

/-- The statements `errno = 0; *x = strtol(col, NULL, 0); if (errno != 0) *x = -1;`
of `get_proc_info`, with `x` an `int`. -/
def parse_column (col : List Char) : Int :=
  if (strtol col).2 then -1 else to_int32 (strtol col).1

/-- One pass through the body of the `while` loop of `get_proc_info` up to the
`strchr` for the next line: outer `none` is undefined behaviour; the first
component is `some retval` when the loop is left (`goto finalize` or
`break`), then `uid`, `gid`, `ppid`. -/
def get_proc_info_body (buf : List Char) (uid gid ppid : Int) :
    Option (Option Int × Int × Int × Int) :=
  if ppid = -1 then
    match match_column "PPid:".toList buf with
    | none => none
    | some none => some (none, uid, gid, ppid)
    | some (some cppid) => some (none, uid, gid, parse_column cppid)
  else if uid = -1 then
    match match_column "Uid:".toList buf with
    | none => none
    | some none => some (none, uid, gid, ppid)
    | some (some cuid) => some (none, parse_column cuid, gid, ppid)
  else if gid = -1 then
    match match_column "Gid:".toList buf with
    | none => none
    | some none => some (none, uid, gid, ppid)
    | some (some cgid) =>
      if parse_column cgid ≠ -1 then some (some 0, uid, parse_column cgid, ppid)
      else some (none, uid, parse_column cgid, ppid)
  else some (some 1, uid, gid, ppid)

/-- The `while (buf != NULL)` loop of `get_proc_info`; the first argument
bounds the number of passes. The result is `(retval, uid, gid, ppid)`. -/
def get_proc_info_loop : Nat → List Char → Int → Int → Int → Option (Int × Int × Int × Int)
  | 0, _, _, _, _ => none
  | fuel + 1, buf, uid, gid, ppid =>
    match get_proc_info_body buf uid gid ppid with
    | none => none
    | some (some retval, uid, gid, ppid) => some (retval, uid, gid, ppid)
    | some (none, uid, gid, ppid) =>
      match strchr buf '\n' with
      | none => some (1, uid, gid, ppid)
      | some i =>
        if buf.drop (i + 1) = [] then some (1, uid, gid, ppid)
        else get_proc_info_loop fuel (buf.drop (i + 1)) uid gid ppid

/-- The macro `buf_size`. -/
def buf_size : Nat := 4096

/-- Result of `read(fd, buffer, buf_size-1)`: the bytes read, or `-1` with
`errno`. -/
inductive ReadResult where
  | bytes (data : List Char)
  | error (errno : Int)

/-- The C string that starts a sequence of bytes: the bytes before the first
NUL. -/
def c_string (l : List Char) : List Char := l.takeWhile (fun c => decide (c ≠ Char.ofNat 0))

/-- Function `get_proc_info(fd, &uid, &gid, &ppid)`: `(retval, uid, gid, ppid)`,
`none` for undefined behaviour. `junk` is what the uninitialised `buffer`
holds after the bytes read; every pass of the loop moves on by at least one
byte, so that the bound given to the loop is never reached. -/
def get_proc_info (rd : ReadResult) (junk : List Char) : Option (Int × Int × Int × Int) :=
  match rd with
  | .error errno => some (-errno, -1, -1, -1)
  | .bytes data =>
    get_proc_info_loop ((c_string (data.take (buf_size - 1) ++ junk)).length + 1)
      (c_string (data.take (buf_size - 1) ++ junk)) (-1) (-1) (-1)

/-- The text of a line before its first tab. -/
def line_label (line : List Char) : List Char := line.takeWhile (fun c => decide (c ≠ '\t'))

/-- A line that `match_column` does not take for the key: it has no tab, or
its label is not a beginning of the key. -/
def not_taken_for (key line : List Char) : Prop :=
  '\t' ∈ line → ¬ (line_label line <+: key)

/-- The lines, each followed by a newline. -/
def unlines (lines : List (List Char)) : List Char :=
  (lines.map (fun l => l ++ ['\n'])).flatten

instance (key line : List Char) : Decidable (not_taken_for key line) := by
  unfold not_taken_for; infer_instance

/-- A line of text: no newline and no NUL in it. -/
def plain_line (l : List Char) : Prop := '\n' ∉ l ∧ Char.ofNat 0 ∉ l

instance (l : List Char) : Decidable (plain_line l) := by
  unfold plain_line; infer_instance

/-- The line `Gid:` with the real gid `g` as first column, followed by a tab
and by `rest`. -/
def gid_line (g : Int) (rest : List Char) : List Char :=
  "Gid:".toList ++ '\t' :: (fmt_int g ++ '\t' :: rest)

/-- The line `Uid:` with the real uid `u` as first column, followed by a tab,
the other columns and a newline, and by `rest`. -/
def uid_line (u : Int) (columns rest : List Char) : List Char :=
  "Uid:".toList ++ '\t' :: (fmt_int u ++ '\t' :: (columns ++ '\n' :: rest))

/-- The line `PPid:` with the integer `p`, followed by `rest`. -/
def ppid_line (p : Int) (rest : List Char) : List Char :=
  "PPid:".toList ++ '\t' :: (fmt_int p ++ '\n' :: rest)

/-- A status text in the order of the kernel: lines `pre`, the `PPid:` line,
lines `mid1`, the `Uid:` line, lines `mid2`, the `Gid:` line up to the tab
after its first column, and `tail`. -/
def status_text (pre mid1 mid2 : List (List Char)) (p u g : Int)
    (columns tail : List Char) : List Char :=
  unlines pre ++ ppid_line p (unlines mid1 ++ uid_line u columns (unlines mid2 ++ gid_line g tail))

/-- A status text as the kernel writes it (abridged). -/
def demo_status : List Char :=
  ("Name:\tbash\nState:\tS (sleeping)\nTgid:\t4242\nPid:\t4242\nPPid:\t4200\nTracerPid:\t0\n"
    ++ "Uid:\t500\t501\t502\t503\nGid:\t100\t101\t102\t103\nFDSize:\t256\n").toList

/-- A status text with the `Uid:` line before the `PPid:` line. -/
def demo_status_reordered : List Char :=
  "Uid:\t500\t501\t502\t503\nPPid:\t4200\nGid:\t100\t101\t102\t103\n".toList

/-! ## The ways out of `getHash`, and `mineProc` (`ancestry_hash.cxx`) -/

/-- The `return` statements of `AncestryHash::getHash`, in the order of the
source: the ancestry walk failed (`rc`); the ancestry has fewer than 3
elements; the pid `it` inspected is not in the UID map; `getParentIDs(pid_it)`
failed while `it` was inspected; a UID transition was found at `it`
(`return create_hash(pid_it, ppid)` with `ppid = it`); the end of the function
after the loop ("unable to determine hash from ancestry"). -/
inductive HashExit where
  | no_ancestry (rc : Int)
  | implausibly_small
  | not_in_uid_map (it : Int)
  | parent_check_failed (it pid_it : Int)
  | transition (it pid_it : Int)
  | fall_through
deriving DecidableEq, Repr

/-- The ancestor that was being inspected when the loop of `getHash` was left. -/
def HashExit.inspected : HashExit → Option Int
  | .not_in_uid_map it => some it
  | .parent_check_failed it _ => some it
  | .transition it _ => some it
  | _ => none

/-- The value `getHash` returns at each of its `return` statements. -/
def HashExit.result (proc : Proc) : HashExit → Option (List Char)
  | .transition it pid_it => create_hash proc pid_it it
  | _ => none

/-- The loop of `getHash` as in `getHash_loop`, recording the `return`
statement by which it is left. -/
def AncestryHash.getHash_loop_exit (ah : AncestryHash) (proc : Proc) :
    List Int → Int → Int → HashExit
  | [], _, _ => HashExit.fall_through
  | it :: rest, orig_uid, pid_it =>
    match map_find ah.process_uid_mapping it with
    | none => HashExit.not_in_uid_map it
    | some uid =>
      let orig_uid := if orig_uid = -1 then uid else orig_uid
      if (ah.getParentIDs proc pid_it).isNone then HashExit.parent_check_failed it pid_it
      else if uid ≠ orig_uid then HashExit.transition it pid_it
      else AncestryHash.getHash_loop_exit ah proc rest orig_uid it

/-- Method `AncestryHash::getHash(pid)` as in `getHash`, recording the `return`
statement by which it is left; `none` when the ancestry walk does not return
within the bound. -/
def AncestryHash.getHash_exit (ah : AncestryHash) (proc : Proc) (fuel : Nat) (pid : Int) :
    Option HashExit :=
  match ah.makeAncestry fuel pid with
  | none => none
  | some (rc, ancestry) =>
    if rc ≠ 0 then some (HashExit.no_ancestry rc)
    else if ancestry.length < 3 then some HashExit.implausibly_small
    else
      match ancestry with
      | _ :: it :: rest => some (ah.getHash_loop_exit proc (it :: rest) (-1) it)
      | _ => some HashExit.implausibly_small

/-- A freshly constructed `AncestryHash`: the three maps are empty. -/
def AncestryHash.empty : AncestryHash :=
  { reverse_parentage_mapping := [], process_uid_mapping := [], process_gid_mapping := [] }

/-- One entry returned by `readdir64` on `/proc`, with what the system answers
for it: whether `d_type` is `DT_DIR` or `DT_UNKNOWN`, the name, and the result
of `openat(dfd, "<name>/status", O_RDONLY)` (`none` when it fails) given as
what `read` will return on the descriptor and what the buffer of
`get_proc_info` holds after the bytes read. -/
structure Dirent where
  is_dir : Bool
  d_name : List Char
  status : Option (ReadResult × List Char)

/-- The `do ... while (dp != NULL)` loop of `mineProc` over the entries that
`readdir64` returns: `none` when a `get_proc_info` call has undefined
behaviour. The assignment `map[proc] = v` puts the entry in front, where
`map_find` finds it first. -/
def AncestryHash.mineProc_loop : List Dirent → AncestryHash → Option AncestryHash
  | [], ah => some ah
  | dp :: rest, ah =>
    if dp.is_dir = false then AncestryHash.mineProc_loop rest ah
    else
      match sscanf_d dp.d_name with
      | none => AncestryHash.mineProc_loop rest ah
      | some proc =>
        if proc < 2 then AncestryHash.mineProc_loop rest ah
        else if (dp.d_name ++ "/status".toList).length ≥ PATH_MAX then
          AncestryHash.mineProc_loop rest ah
        else
          match dp.status with
          | none => AncestryHash.mineProc_loop rest ah
          | some (rd, junk) =>
            match get_proc_info rd junk with
            | none => none
            | some (result, uid, gid, ppid) =>
              if result ≠ 0 then AncestryHash.mineProc_loop rest ah
              else
                AncestryHash.mineProc_loop rest
                  { reverse_parentage_mapping := (proc, ppid) :: ah.reverse_parentage_mapping
                    process_uid_mapping := (proc, uid) :: ah.process_uid_mapping
                    process_gid_mapping := (proc, gid) :: ah.process_gid_mapping }

/-- Answer of `opendir("/proc")`: failure with `errno`, or the entries that
`readdir64` will return. -/
inductive ProcDir where
  | failed (errno : Int)
  | entries (l : List Dirent)

/-- Method `AncestryHash::mineProc()`: the return value and the maps
afterwards. -/
def AncestryHash.mineProc (ah : AncestryHash) (dir : ProcDir) : Option (Int × AncestryHash) :=
  match dir with
  | .failed errno => some (errno, ah)
  | .entries l =>
    match ah.mineProc_loop l with
    | none => none
    | some ah1 => some (0, ah1)

/-- A chain of three processes of the same user below init: 10, started by 9,
started by 8, a child of init. PID 1 has no entry. -/
def demo_uniform : AncestryHash :=
  { reverse_parentage_mapping := [(10, 9), (9, 8), (8, 1)]
    process_uid_mapping := [(10, 500), (9, 500), (8, 500)]
    process_gid_mapping := [(10, 500), (9, 500), (8, 500)] }

/-- The live `/proc` tree of the same three processes. -/
def demo_uniform_proc : Proc :=
  { stat := fun p =>
      if p = 10 then StatResult.ok 1700000010
      else if p = 9 then StatResult.ok 1700000009
      else if p = 8 then StatResult.ok 1700000008
      else StatResult.enoent
    status := fun p =>
      if p = 10 then some ⟨9, 500, 500⟩
      else if p = 9 then some ⟨8, 500, 500⟩
      else if p = 8 then some ⟨1, 500, 500⟩
      else none }

/-- A listing of `/proc`: the entries `.`, `self`, `1` (init) and `4242`, whose
status file is `demo_status`, and `uptime`, which is not a directory. -/
def demo_proc_dir : ProcDir :=
  ProcDir.entries
    [ { is_dir := true, d_name := ".".toList, status := none },
      { is_dir := true, d_name := "self".toList,
        status := some (ReadResult.bytes demo_status, []) },
      { is_dir := true, d_name := "1".toList,
        status := some (ReadResult.bytes
          "Name:\tinit\nPPid:\t0\nUid:\t0\t0\t0\t0\nGid:\t0\t0\t0\t0\n".toList, []) },
      { is_dir := true, d_name := "4242".toList,
        status := some (ReadResult.bytes demo_status, []) },
      { is_dir := false, d_name := "uptime".toList, status := none } ]

/-- The snapshot `demo_uniform` with an entry for PID 1 added to the UID and GID
maps (which `mineProc` never does). -/
def demo_uniform_init : AncestryHash :=
  { reverse_parentage_mapping := demo_uniform.reverse_parentage_mapping
    process_uid_mapping := demo_uniform.process_uid_mapping ++ [(1, 500)]
    process_gid_mapping := demo_uniform.process_gid_mapping ++ [(1, 500)] }

/-! ## Parent cycles, and the scenarios in which `select_account` has no result -/

/-- A walk along the parent links of the snapshot that starts at `p`, never
comes to PID 1, and visits some pid twice: the parent links from `p` run into
a cycle that avoids PID 1. -/
def AncestryHash.cyclic_chain (ah : AncestryHash) (p : Int) (c : List Int) : Prop :=
  c.head? = some p ∧ ah.parent_chain c ∧ 1 ∉ c ∧ ¬ c.Nodup

theorem digit_char_toNat (d : Nat) (h : d < 10) : (digit_char d).toNat = 48 + d := by
  interval_cases d <;> rfl

theorem isdigit_digit_char (d : Nat) (h : d < 10) : isdigit (digit_char d) = true := by
  simp [isdigit, digit_char_toNat d h]; omega

theorem isdigit_not_space (c : Char) (h : isdigit c = true) : isspace c = false := by
  simp only [isdigit, Bool.and_eq_true, decide_eq_true_eq] at h
  simp only [isspace, Bool.or_eq_false_iff, Bool.and_eq_false_iff, decide_eq_false_iff_not]
  omega

theorem isdigit_ne_minus (c : Char) (h : isdigit c = true) : c ≠ '-' := by
  intro hc; subst hc; simp [isdigit] at h

theorem isdigit_ne_plus (c : Char) (h : isdigit c = true) : c ≠ '+' := by
  intro hc; subst hc; simp [isdigit] at h

theorem fmt_nat_fuel_digits (f : Nat) : ∀ n c, c ∈ fmt_nat_fuel f n → isdigit c = true := by
  induction f with
  | zero => intro n c hc; simp [fmt_nat_fuel] at hc
  | succ f ih =>
    intro n c hc
    unfold fmt_nat_fuel at hc
    split at hc
    · simp only [List.mem_singleton] at hc
      subst hc
      exact isdigit_digit_char n (by assumption)
    · rcases List.mem_append.1 hc with h | h
      · exact ih _ _ h
      · simp only [List.mem_singleton] at h
        subst h
        exact isdigit_digit_char _ (Nat.mod_lt _ (by decide))

theorem fmt_nat_fuel_ne_nil (f : Nat) : ∀ n, n < f → fmt_nat_fuel f n ≠ [] := by
  induction f with
  | zero => intro n h; omega
  | succ f ih =>
    intro n _
    unfold fmt_nat_fuel
    split <;> simp

theorem digits_value_append (xs ys : List Char) (a : Nat) :
    digits_value (xs ++ ys) a = digits_value ys (digits_value xs a) := by
  simp [digits_value, List.foldl_append]

theorem digits_value_fmt (f : Nat) : ∀ n, n < f → digits_value (fmt_nat_fuel f n) 0 = n := by
  induction f with
  | zero => intro n h; omega
  | succ f ih =>
    intro n hn
    unfold fmt_nat_fuel
    split
    · rename_i h10
      simp [digits_value, digit_char_toNat n h10]
    · rename_i h10
      have hlt : n / 10 < f := by omega
      rw [digits_value_append, ih _ hlt]
      simp [digits_value, digit_char_toNat (n % 10) (Nat.mod_lt _ (by decide))]
      omega

theorem scan_digits_append (ds : List Char) :
    ∀ (tl : List Char) (a : Nat), (∀ c ∈ ds, isdigit c = true) →
      scan_digits (ds ++ tl) a = scan_digits tl (digits_value ds a) := by
  induction ds with
  | nil => intro tl a _; rfl
  | cons d ds ih =>
    intro tl a h
    have hd : isdigit d = true := h d (List.mem_cons_self _ _)
    have hds : ∀ c ∈ ds, isdigit c = true := fun c hc => h c (List.mem_cons_of_mem _ hc)
    show scan_digits (d :: (ds ++ tl)) a = _
    simp only [scan_digits, hd, if_true]
    rw [ih tl _ hds]
    rfl

theorem scan_digits_stop (tl : List Char) (a : Nat) (h : no_digit_ahead tl) :
    scan_digits tl a = (a, tl) := by
  cases tl with
  | nil => rfl
  | cons c cs =>
    have hc : isdigit c = false := h c (by simp)
    simp [scan_digits, hc]

theorem scan_digits_fmt_nat (n : Nat) (tl : List Char) (h : no_digit_ahead tl) :
    scan_digits (fmt_nat n ++ tl) 0 = (n, tl) := by
  unfold fmt_nat
  rw [scan_digits_append _ _ _ (fmt_nat_fuel_digits (n + 1) n),
    digits_value_fmt (n + 1) n (Nat.lt_succ_self n)]
  exact scan_digits_stop tl n h

theorem fmt_nat_cons (n : Nat) : ∃ c cs, fmt_nat n = c :: cs ∧ isdigit c = true := by
  have hne := fmt_nat_fuel_ne_nil (n + 1) n (Nat.lt_succ_self n)
  have hd := fmt_nat_fuel_digits (n + 1) n
  unfold fmt_nat
  cases hl : fmt_nat_fuel (n + 1) n with
  | nil => exact absurd hl hne
  | cons c cs => exact ⟨c, cs, rfl, hd c (by rw [hl]; exact List.mem_cons_self _ _)⟩

theorem scan_int_fmt_int (v : Int) (tl : List Char) (h : no_digit_ahead tl) :
    scan_int (fmt_int v ++ tl) = some (v, tl) := by
  obtain ⟨c, cs, hcs, hc⟩ := fmt_nat_cons v.natAbs
  have hscan := scan_digits_fmt_nat v.natAbs tl h
  rw [hcs, List.cons_append] at hscan
  unfold fmt_int
  by_cases hv : v < 0
  · have hval : -((v.natAbs : Nat) : Int) = v := by omega
    simp only [hv, if_true, hcs, List.cons_append, scan_int, skip_space]
    have hsp : isspace '-' = false := by decide
    simp only [hsp, Bool.false_eq_true, if_false, if_true, hc, hscan, hval]
  · have hval : ((v.natAbs : Nat) : Int) = v := by omega
    simp only [hv, if_false, hcs, List.cons_append, scan_int, skip_space]
    simp only [isdigit_not_space c hc, Bool.false_eq_true, if_false, isdigit_ne_minus c hc,
      isdigit_ne_plus c hc, hc, if_true]
    simp only [hscan, hval]

theorem no_digit_ahead_colon (tl : List Char) : no_digit_ahead (':' :: tl) := by
  intro c hc
  simp only [List.head?_cons, Option.mem_def, Option.some.injEq] at hc
  subst hc
  decide

theorem no_digit_ahead_nil : no_digit_ahead [] := by
  intro c hc
  simp at hc

theorem to_int32_clamp (v : Int) (h : is_int v) : to_int32 (clamp_long v) = v := by
  unfold is_int INT_MIN INT_MAX at h
  unfold to_int32 clamp_long LONG_MAX LONG_MIN
  split
  · omega
  · split
    · omega
    · omega

theorem clamp_long_id (v : Int) (h : is_long v) : clamp_long v = v := by
  unfold is_long LONG_MIN LONG_MAX at h
  unfold clamp_long LONG_MAX LONG_MIN
  split
  · omega
  · split
    · omega
    · rfl

theorem scanf_hash_fmt_hash (pid ppid ts : Int) (hpid : is_int pid) (hppid : is_int ppid)
    (hts : is_long ts) : scanf_hash (fmt_hash pid ppid ts) = ⟨3, pid, ppid, ts⟩ := by
  have h3 : scan_int (fmt_int ts) = some (ts, []) := by
    have := scan_int_fmt_int ts [] no_digit_ahead_nil
    simpa using this
  unfold scanf_hash fmt_hash
  rw [scan_int_fmt_int pid _ (no_digit_ahead_colon _)]
  simp only [ne_eq, not_true_eq_false, if_false]
  rw [scan_int_fmt_int ppid _ (no_digit_ahead_colon _)]
  simp only [ne_eq, not_true_eq_false, if_false, h3, to_int32_clamp pid hpid,
    to_int32_clamp ppid hppid, clamp_long_id ts hts]


theorem to_int32_is_int (v : Int) : is_int (to_int32 v) := by
  unfold is_int to_int32 INT_MIN INT_MAX
  omega

theorem fmt_nat_fuel_length (f : Nat) :
    ∀ n d, 1 ≤ d → n < 10 ^ d → (fmt_nat_fuel f n).length ≤ d := by
  induction f with
  | zero => intro n d _ _; simp [fmt_nat_fuel]
  | succ f ih =>
    intro n d hd hn
    unfold fmt_nat_fuel
    split
    · simpa using hd
    · rename_i h10
      have hd2 : 2 ≤ d := by
        rcases Nat.lt_or_ge d 2 with h | h
        · have : d = 1 := by omega
          subst this
          simp at hn
          omega
        · exact h
      have hpow : 10 ^ d = 10 * 10 ^ (d - 1) := by
        rw [← pow_succ']
        congr 1
        omega
      have hdiv : n / 10 < 10 ^ (d - 1) := by
        apply Nat.div_lt_of_lt_mul
        rw [← hpow]
        exact hn
      have := ih (n / 10) (d - 1) (by omega) hdiv
      simp only [List.length_append, List.length_singleton]
      omega

theorem fmt_int_length (v : Int) (h : is_int v) : (fmt_int v).length ≤ 11 := by
  unfold is_int INT_MIN INT_MAX at h
  have hn : v.natAbs < 10 ^ 10 := by
    norm_num
    omega
  have := fmt_nat_fuel_length (v.natAbs + 1) v.natAbs 10 (by decide) hn
  unfold fmt_int fmt_nat
  split
  · simp only [List.length_cons]
    omega
  · omega

theorem proc_path_short (v : Int) (h : is_int v) :
    ¬ (("/proc/".toList ++ fmt_int v).length ≥ 20) := by
  have := fmt_int_length v h
  have h6 : "/proc/".toList.length = 6 := by decide
  rw [List.length_append, h6]
  omega

theorem create_hash_ok (proc : Proc) (pid ppid t : Int) (hpid : is_int pid)
    (hstat : proc.stat pid = StatResult.ok t) :
    create_hash proc pid ppid = some (fmt_hash pid ppid t) := by
  unfold create_hash
  rw [if_neg (proc_path_short pid hpid), hstat]

/-! ## Lemmas on `makeAncestry` -/

theorem makeAncestry_one (ah : AncestryHash) (fuel : Nat) :
    ah.makeAncestry fuel 1 = some (0, [1]) := by
  cases fuel <;> simp [AncestryHash.makeAncestry]

theorem makeAncestry_succ (ah : AncestryHash) (fuel : Nat) (pid : Int) (h : pid ≠ 1) :
    ah.makeAncestry (fuel + 1) pid =
      match map_find ah.reverse_parentage_mapping pid with
      | none => some (1, [pid])
      | some ppid =>
        match ah.makeAncestry fuel ppid with
        | none => none
        | some (result, ancestry) => some (result, pid :: ancestry) := by
  rw [AncestryHash.makeAncestry]
  simp only [h, if_false]

theorem makeAncestry_zero (ah : AncestryHash) (pid : Int) (h : pid ≠ 1) :
    ah.makeAncestry 0 pid = none := by
  rw [AncestryHash.makeAncestry]
  simp only [h, if_false]

/-- The result of `makeAncestry` does not depend on the bound once the bound
is large enough for it to return. -/
theorem makeAncestry_fuel_indep (ah : AncestryHash) (f1 : Nat) :
    ∀ (f2 : Nat) (pid : Int) (r1 r2 : Int × List Int),
      ah.makeAncestry f1 pid = some r1 → ah.makeAncestry f2 pid = some r2 → r1 = r2 := by
  induction f1 with
  | zero =>
    intro f2 pid r1 r2 h1 h2
    by_cases hp : pid = 1
    · subst hp
      rw [makeAncestry_one] at h1 h2
      rw [← Option.some.inj h1, ← Option.some.inj h2]
    · rw [makeAncestry_zero ah pid hp] at h1
      cases h1
  | succ f1 ih =>
    intro f2 pid r1 r2 h1 h2
    by_cases hp : pid = 1
    · subst hp
      rw [makeAncestry_one] at h1 h2
      rw [← Option.some.inj h1, ← Option.some.inj h2]
    · cases f2 with
      | zero =>
        rw [makeAncestry_zero ah pid hp] at h2
        cases h2
      | succ f2 =>
        rw [makeAncestry_succ ah _ pid hp] at h1 h2
        cases hl : map_find ah.reverse_parentage_mapping pid with
        | none =>
          simp only [hl] at h1 h2
          rw [← Option.some.inj h1, ← Option.some.inj h2]
        | some pp =>
          simp only [hl] at h1 h2
          cases hm1 : ah.makeAncestry f1 pp with
          | none => simp [hm1] at h1
          | some q1 =>
            cases hm2 : ah.makeAncestry f2 pp with
            | none => simp [hm2] at h2
            | some q2 =>
              have := ih f2 pp q1 q2 hm1 hm2
              subst this
              simp only [hm1] at h1
              simp only [hm2] at h2
              rw [← Option.some.inj h1, ← Option.some.inj h2]

/-- Every pid of a successfully built ancestry has itself a successfully
built ancestry that is no longer. -/
theorem makeAncestry_suffix (ah : AncestryHash) (fuel : Nat) :
    ∀ (pid : Int) (a : List Int), ah.makeAncestry fuel pid = some (0, a) →
      ∀ x ∈ a, ∃ f l, ah.makeAncestry f x = some (0, l) ∧ l.length ≤ a.length := by
  induction fuel with
  | zero =>
    intro pid a h x hx
    by_cases hp : pid = 1
    · subst hp
      rw [makeAncestry_one] at h
      cases h
      simp only [List.mem_singleton] at hx
      subst hx
      exact ⟨0, [1], makeAncestry_one ah 0, le_refl _⟩
    · rw [makeAncestry_zero ah pid hp] at h
      cases h
  | succ fuel ih =>
    intro pid a h x hx
    by_cases hp : pid = 1
    · subst hp
      rw [makeAncestry_one] at h
      cases h
      simp only [List.mem_singleton] at hx
      subst hx
      exact ⟨0, [1], makeAncestry_one ah 0, le_refl _⟩
    · have h0 := h
      rw [makeAncestry_succ ah _ pid hp] at h
      cases hl : map_find ah.reverse_parentage_mapping pid with
      | none => simp [hl] at h
      | some pp =>
        simp only [hl] at h
        cases hm : ah.makeAncestry fuel pp with
        | none => simp [hm] at h
        | some q =>
          obtain ⟨rc, l⟩ := q
          simp only [hm, Option.some.injEq, Prod.mk.injEq] at h
          obtain ⟨hrc, hal⟩ := h
          subst hrc hal
          rcases List.mem_cons.1 hx with hxp | hxl
          · subst hxp
            exact ⟨fuel + 1, x :: l, h0, le_refl _⟩
          · obtain ⟨f, l2, hf, hlen⟩ := ih pp l hm x hxl
            exact ⟨f, l2, hf, by simp only [List.length_cons]; omega⟩

/-- A successfully built ancestry starts with the subject pid. -/
theorem makeAncestry_head (ah : AncestryHash) (fuel : Nat) (pid : Int) (rc : Int)
    (a : List Int) (h : ah.makeAncestry fuel pid = some (rc, a)) : a.head? = some pid := by
  by_cases hp : pid = 1
  · subst hp
    rw [makeAncestry_one] at h
    cases h
    rfl
  · cases fuel with
    | zero => rw [makeAncestry_zero ah pid hp] at h; cases h
    | succ fuel =>
      rw [makeAncestry_succ ah _ pid hp] at h
      cases hl : map_find ah.reverse_parentage_mapping pid with
      | none =>
        simp only [hl, Option.some.injEq, Prod.mk.injEq] at h
        rw [← h.2]
        rfl
      | some pp =>
        simp only [hl] at h
        cases hm : ah.makeAncestry fuel pp with
        | none => simp [hm] at h
        | some q =>
          simp only [hm, Option.some.injEq, Prod.mk.injEq] at h
          rw [← h.2]
          rfl

/-- A successfully built ancestry has no repeated pid. -/
theorem makeAncestry_nodup (ah : AncestryHash) (fuel : Nat) :
    ∀ (pid : Int) (a : List Int), ah.makeAncestry fuel pid = some (0, a) → a.Nodup := by
  induction fuel with
  | zero =>
    intro pid a h
    by_cases hp : pid = 1
    · subst hp
      rw [makeAncestry_one] at h
      cases h
      simp
    · rw [makeAncestry_zero ah pid hp] at h
      cases h
  | succ fuel ih =>
    intro pid a h
    by_cases hp : pid = 1
    · subst hp
      rw [makeAncestry_one] at h
      cases h
      simp
    · have h0 := h
      rw [makeAncestry_succ ah _ pid hp] at h
      cases hl : map_find ah.reverse_parentage_mapping pid with
      | none => simp [hl] at h
      | some pp =>
        simp only [hl] at h
        cases hm : ah.makeAncestry fuel pp with
        | none => simp [hm] at h
        | some q =>
          obtain ⟨rc, l⟩ := q
          simp only [hm, Option.some.injEq, Prod.mk.injEq] at h
          obtain ⟨hrc, hal⟩ := h
          subst hrc hal
          refine List.nodup_cons.2 ⟨?_, ih pp l hm⟩
          intro hmem
          obtain ⟨f, l2, hf, hlen⟩ := makeAncestry_suffix ah fuel pp l hm pid hmem
          have := makeAncestry_fuel_indep ah f (fuel + 1) pid _ _ hf h0
          simp only [Prod.mk.injEq, true_and] at this
          subst this
          simp only [List.length_cons] at hlen
          omega

/-! ## Lemmas on `getHash` -/

/-- The loop of `getHash` over an ancestry tail `b` whose first `m` pids have
the uid `u` and whose pid at index `m` has another uid: the fingerprint is
made from the pid before index `m` and the pid at index `m`. -/
theorem getHash_loop_transition (ah : AncestryHash) (proc : Proc) (u : Int) (hu : u ≠ -1) :
    ∀ (b : List Int) (m : Nat) (orig_uid pid_it : Int),
      m < b.length →
      (∀ j, j < m → map_find ah.process_uid_mapping (b.getD j 0) = some u ∧
        (ah.getParentIDs proc (b.getD j 0)).isSome) →
      (ah.getParentIDs proc pid_it).isSome →
      (∃ uk, map_find ah.process_uid_mapping (b.getD m 0) = some uk ∧ uk ≠ u) →
      (orig_uid = u ∨ (orig_uid = -1 ∧ 0 < m)) →
      ah.getHash_loop proc b orig_uid pid_it =
        create_hash proc (if m = 0 then pid_it else b.getD (m - 1) 0) (b.getD m 0) := by
  intro b
  induction b with
  | nil => intro m _ _ hm; simp at hm
  | cons x b ih =>
    intro m orig_uid pid_it hm hsame hver hk horig
    have hver2 : (ah.getParentIDs proc pid_it).isNone = false := by
      cases hg : ah.getParentIDs proc pid_it with
      | none => simp [hg] at hver
      | some v => rfl
    cases m with
    | zero =>
      obtain ⟨uk, huk, hne⟩ := hk
      simp only [List.getD_cons_zero] at huk
      have ho : orig_uid = u := by
        rcases horig with h | h
        · exact h
        · exact absurd h.2 (lt_irrefl 0)
      subst ho
      simp only [AncestryHash.getHash_loop, huk, hu, if_false, hver2, Bool.false_eq_true,
        ne_eq, hne, not_false_eq_true, if_true, List.getD_cons_zero]
    | succ m =>
      have hx := hsame 0 (Nat.succ_pos m)
      simp only [List.getD_cons_zero] at hx
      have ho : (if orig_uid = -1 then u else orig_uid) = u := by
        rcases horig with h | h
        · subst h; simp [hu]
        · simp [h.1]
      simp only [AncestryHash.getHash_loop, hx.1, ho, hver2, Bool.false_eq_true, if_false,
        ne_eq, not_true_eq_false]
      have hm2 : m < b.length := by
        simp only [List.length_cons] at hm
        omega
      have hsame2 : ∀ j, j < m → map_find ah.process_uid_mapping (b.getD j 0) = some u ∧
          (ah.getParentIDs proc (b.getD j 0)).isSome := by
        intro j hj
        have := hsame (j + 1) (by omega)
        simpa only [List.getD_cons_succ] using this
      have hk2 : ∃ uk, map_find ah.process_uid_mapping (b.getD m 0) = some uk ∧ uk ≠ u := by
        simpa only [List.getD_cons_succ] using hk
      rw [ih m u x hm2 hsame2 hx.2 hk2 (Or.inl rfl)]
      cases m with
      | zero => simp
      | succ m => simp

theorem getD_mem_of_lt (b : List Int) (n : Nat) (h : n < b.length) : b.getD n 0 ∈ b := by
  rw [List.getD_eq_getElem b 0 h]
  exact List.getElem_mem h

/-- C2: when the ancestry `a` of `pid` is built successfully with at least 3
elements, the inspected ancestors `a[1..k]` are in the UID map, the parent
re-verification succeeds for the inspected children `a[1..k-1]`, and `k` is
the least index `>= 2` whose uid differs from the uid of `a[1]`, then
`getHash(pid)` returns the text of `(a[k-1], a[k], mtime of /proc/a[k-1])`,
and `a[k-1]` is not the caller's own pid.  (`u ≠ -1`: `get_proc_info` never
stores the uid `-1` in the map, since `-1` is its marker for a uid not read
yet.) -/
theorem C2_getHash_fingerprint (ah : AncestryHash) (proc : Proc) (fuel : Nat) (pid : Int)
    (a : List Int) (k : Nat) (u t : Int)
    (hanc : ah.makeAncestry fuel pid = some (0, a))
    (hlen : 3 ≤ a.length)
    (hk : 2 ≤ k) (hka : k < a.length)
    (hu1 : map_find ah.process_uid_mapping (a.getD 1 0) = some u) (hu : u ≠ -1)
    (hsame : ∀ j, 2 ≤ j → j < k → map_find ah.process_uid_mapping (a.getD j 0) = some u)
    (hdiff : ∃ uk, map_find ah.process_uid_mapping (a.getD k 0) = some uk ∧ uk ≠ u)
    (hver : ∀ j, 1 ≤ j → j < k → (ah.getParentIDs proc (a.getD j 0)).isSome)
    (hint : is_int (a.getD (k - 1) 0))
    (hstat : proc.stat (a.getD (k - 1) 0) = StatResult.ok t) :
    ah.getHash proc fuel pid = some (some (fmt_hash (a.getD (k - 1) 0) (a.getD k 0) t)) ∧
      a.getD (k - 1) 0 ≠ pid := by
  have hnodup := makeAncestry_nodup ah fuel pid a hanc
  have hhead := makeAncestry_head ah fuel pid 0 a hanc
  match a, hanc, hlen, hka, hu1, hsame, hdiff, hver, hint, hstat, hnodup, hhead with
  | [], _, hlen, _, _, _, _, _, _, _, _, _ => simp at hlen
  | [_], _, hlen, _, _, _, _, _, _, _, _, _ => simp at hlen
  | a0 :: a1 :: rest, hanc, hlen, hka, hu1, hsame, hdiff, hver, hint, hstat, hnodup, hhead =>
    obtain ⟨k, rfl⟩ : ∃ k2, k = k2 + 2 := ⟨k - 2, by omega⟩
    simp only [List.getD_cons_succ, List.getD_cons_zero, Nat.add_sub_cancel,
      show k + 2 - 1 = k + 1 from rfl] at hu1 hdiff hint hstat ⊢
    simp only [List.length_cons] at hka
    have hloop := getHash_loop_transition ah proc u hu (a1 :: rest) (k + 1) (-1) a1
      (by simp only [List.length_cons]; omega)
      (by
        intro j hj
        cases j with
        | zero =>
          refine ⟨by simpa using hu1, ?_⟩
          have := hver 1 (le_refl 1) (by omega)
          simpa using this
        | succ j =>
          refine ⟨?_, ?_⟩
          · have := hsame (j + 2) (by omega) (by omega)
            simpa using this
          · have := hver (j + 2) (by omega) (by omega)
            simpa using this)
      (by
        have := hver 1 (le_refl 1) (by omega)
        simpa using this)
      (by simpa using hdiff)
      (Or.inr ⟨rfl, Nat.succ_pos k⟩)
    simp only [Nat.add_one_ne_zero, if_false, Nat.add_sub_cancel, List.getD_cons_succ] at hloop
    constructor
    · unfold AncestryHash.getHash
      simp only [hanc, ne_eq, not_true_eq_false, if_false]
      rw [if_neg (by simp only [List.length_cons]; omega)]
      simp only [hloop]
      rw [create_hash_ok proc _ _ t hint hstat]
    · simp only [List.head?_cons, Option.some.injEq] at hhead
      subst hhead
      have hmem : (a1 :: rest).getD k 0 ∈ a1 :: rest :=
        getD_mem_of_lt (a1 :: rest) k (by simp only [List.length_cons]; omega)
      intro heq
      rw [heq] at hmem
      exact (List.nodup_cons.1 hnodup).1 hmem

/-! ## The lock directory checks -/

theorem land_S_IWGRP (m : Nat) : (m &&& S_IWGRP = S_IWGRP) ↔ m.testBit 4 = true := by
  have h := Nat.and_two_pow m 4
  have h16 : (2 : Nat) ^ 4 = 16 := by norm_num
  rw [h16] at h
  unfold S_IWGRP
  rw [h]
  cases m.testBit 4 <;> simp

theorem land_S_IWOTH (m : Nat) : (m &&& S_IWOTH ≠ 0) ↔ m.testBit 1 = true := by
  have h := Nat.and_two_pow m 1
  have h2 : (2 : Nat) ^ 1 = 2 := by norm_num
  rw [h2] at h
  unfold S_IWOTH
  rw [h]
  cases m.testBit 1 <;> simp

/-- What `open_lockdir` returns when the directory is opened and stat'ed. -/
theorem open_lockdir_checked (e : Env) (s : State) (st : DirStat)
    (hopen : e.opendir_ok = true) (hfd : e.dirfd ≠ -1) (hstat : e.fstat = some st) :
    open_lockdir e s =
      (if lockdir_invariants st then e.dirfd else -1,
        ((s.log Call.opendir).log Call.dirfd).log Call.fstat) := by
  unfold open_lockdir lockdir_invariants
  simp only [hopen, Bool.true_eq_false, if_false, hfd, hstat, land_S_IWGRP, land_S_IWOTH]
  by_cases h1 : st.st_uid = 0
  · by_cases h2 : st.st_gid = 0
    · by_cases h3 : st.st_mode.testBit 1 = true
      · simp [h1, h2, h3]
      · simp [h1, h2, h3]
    · by_cases h3 : st.st_mode.testBit 1 = true
      · by_cases h4 : st.st_mode.testBit 4 = true
        · simp [h1, h2, h3, h4]
        · simp [h1, h2, h3, h4]
      · by_cases h4 : st.st_mode.testBit 4 = true
        · simp [h1, h2, h3, h4]
        · simp [h1, h2, h3, h4]
  · simp [h1]

/-- The state changes of `open_lockdir`: only the record of its calls. -/
theorem open_lockdir_shape (e : Env) (s : State) :
    ∃ r t, open_lockdir e s = (r, { s with trace := s.trace ++ t }) ∧
      ∀ c ∈ t, c ∈ lockdir_calls := by
  by_cases h1 : e.opendir_ok = false
  · exact ⟨-1, [Call.opendir], by simp [open_lockdir, h1, State.log], by simp [lockdir_calls]⟩
  · by_cases h2 : e.dirfd = -1
    · exact ⟨-1, [Call.opendir, Call.dirfd], by simp [open_lockdir, h1, h2, State.log],
        by simp [lockdir_calls]⟩
    · cases h3 : e.fstat with
      | none =>
        exact ⟨-1, [Call.opendir, Call.dirfd, Call.fstat],
          by simp [open_lockdir, h1, h2, h3, State.log], by simp [lockdir_calls]⟩
      | some st =>
        have h1t : e.opendir_ok = true := by simpa using h1
        refine ⟨if lockdir_invariants st then e.dirfd else -1,
          [Call.opendir, Call.dirfd, Call.fstat], ?_, by simp [lockdir_calls]⟩
        rw [open_lockdir_checked e s st h1t h2 h3]
        simp [State.log]

theorem open_lockdir_frame (e : Env) (s : State) :
    (open_lockdir e s).2.files = s.files ∧ (open_lockdir e s).2.locks = s.locks ∧
      (open_lockdir e s).2.creds = s.creds ∧ (open_lockdir e s).2.exported = s.exported ∧
      ∃ t, (open_lockdir e s).2.trace = s.trace ++ t ∧ ∀ c ∈ t, c ∈ lockdir_calls := by
  obtain ⟨r, t, h, ht⟩ := open_lockdir_shape e s
  rw [h]
  exact ⟨rfl, rfl, rfl, rfl, t, rfl, ht⟩

/-- C7: for a lock directory that can be opened and stat'ed, `open_lockdir`
succeeds (returns the directory descriptor) iff the owner is uid 0, and the
group is 0 or the group-write bit is clear, and the other-write bit is clear;
in every other case it returns `-1`.  It is the same function in both
plugins. -/
theorem C7_open_lockdir_iff (e : Env) (s : State) (st : DirStat)
    (hopen : e.opendir_ok = true) (hfd : e.dirfd ≠ -1) (hstat : e.fstat = some st) :
    ((open_lockdir e s).1 ≠ -1 ↔
        st.st_uid = 0 ∧ (st.st_gid = 0 ∨ st.st_mode.testBit 4 = false) ∧
          st.st_mode.testBit 1 = false) ∧
      (lockdir_invariants st → (open_lockdir e s).1 = e.dirfd) ∧
      (¬ lockdir_invariants st → (open_lockdir e s).1 = -1) := by
  rw [open_lockdir_checked e s st hopen hfd hstat]
  refine ⟨?_, ?_, ?_⟩
  · show (if lockdir_invariants st then e.dirfd else -1) ≠ -1 ↔ lockdir_invariants st
    by_cases h : lockdir_invariants st
    · simp [h, hfd]
    · simp [h]
  · intro h
    simp [h]
  · intro h
    simp [h]

theorem open_lockdir_violation (e : Env) (s : State) (st : DirStat)
    (hstat : e.fstat = some st) (hbad : ¬ lockdir_invariants st) :
    (open_lockdir e s).1 = -1 := by
  by_cases h1 : e.opendir_ok = false
  · simp [open_lockdir, h1]
  · by_cases h2 : e.dirfd = -1
    · simp [open_lockdir, h1, h2]
    · have h1t : e.opendir_ok = true := by simpa using h1
      rw [open_lockdir_checked e s st h1t h2 hstat]
      simp [hbad]

/-- C8: when the lock directory violates an ownership or mode invariant,
`plugin_run` (of either plugin) returns failure, the lock files, the held
locks and the registered credentials are unchanged, and the only calls issued
are those of `open_lockdir` (`opendir`, `dirfd`, `fstat`): no account lookup,
no lock file create or open, no truncate, no write, no credential
registration. -/
theorem C8_lockdir_violation_no_effect (fuel : Nat) (e : Env) (s : State) (st : DirStat)
    (hstat : e.fstat = some st) (hbad : ¬ lockdir_invariants st) :
    (∃ s1, Anonymous.plugin_run fuel e s = some (ModResult.LCMAPS_MOD_FAIL, s1) ∧
        s1.files = s.files ∧ s1.locks = s.locks ∧ s1.creds = s.creds ∧
        ∃ t, s1.trace = s.trace ++ t ∧ ∀ c ∈ t, c ∈ lockdir_calls) ∧
      (∃ s2, Pool.plugin_run e s = some (ModResult.LCMAPS_MOD_FAIL, s2) ∧
        s2.files = s.files ∧ s2.locks = s.locks ∧ s2.creds = s.creds ∧
        s2.exported = s.exported ∧
        ∃ t, s2.trace = s.trace ++ t ∧ ∀ c ∈ t, c ∈ lockdir_calls) := by
  have hv := open_lockdir_violation e s st hstat hbad
  obtain ⟨hf, hl, hc, hx, ht⟩ := open_lockdir_frame e s
  constructor
  · refine ⟨(open_lockdir e s).2, ?_, hf, hl, hc, ht⟩
    unfold Anonymous.plugin_run
    simp only [hv, if_true]
  · refine ⟨(open_lockdir e s).2, ?_, hf, hl, hc, hx, ht⟩
    unfold Pool.plugin_run
    simp only [hv, if_true]

/-! ## Lemmas on `check_account` -/

theorem is_int_zero : is_int 0 := by
  unfold is_int INT_MIN INT_MAX
  omega

theorem scanf_hash_pid_is_int (s : List Char) : is_int (scanf_hash s).pid := by
  unfold scanf_hash
  repeat' split
  all_goals first | exact to_int32_is_int _ | exact is_int_zero

/-- Function `check_account` reads the state only through the content of the file the
descriptor is open on, an absent file counting as an empty one. -/
theorem check_account_congr (fuel : Nat) (e : Env) (s s2 : State) (uid uid2 : Int)
    (fd : String) (h : (s.files fd).getD [] = (s2.files fd).getD []) :
    Anonymous.check_account fuel e s uid fd = Anonymous.check_account fuel e s2 uid2 fd := by
  unfold Anonymous.check_account
  rw [h]

/-- Verdict of `check_account` on an empty or absent lock file. -/
theorem check_account_empty (fuel : Nat) (e : Env) (s : State) (uid : Int) (fd : String)
    (h : (s.files fd).getD [] = []) :
    Anonymous.check_account fuel e s uid fd =
      match getHash fuel e e.getpid with
      | none => none
      | some none => some (-1, none)
      | some (some new_hash) => some (0, some new_hash) := by
  unfold Anonymous.check_account
  rw [h]
  have : (scanf_hash []).matches_ ≠ 3 := by decide
  simp only [this, ne_eq, not_false_eq_true, if_true]

/-- Verdict of `check_account` on a lock file holding a fingerprint that differs from
the caller's: the verdict is decided by the liveness checks. -/
theorem check_account_distinct (fuel : Nat) (e : Env) (s : State) (uid : Int) (fd : String)
    (new_hash : List Char) (pid ppid ts mypid myppid mytimestamp : Int)
    (hhash : getHash fuel e e.getpid = some (some new_hash))
    (hdisk : scanf_hash ((s.files fd).getD []) = ⟨3, pid, ppid, ts⟩)
    (hmine : scanf_hash new_hash = ⟨3, mypid, myppid, mytimestamp⟩)
    (hne : ¬ (mypid = pid ∧ myppid = ppid ∧ mytimestamp = ts)) :
    Anonymous.check_account fuel e s uid fd =
      some (match e.proc.stat pid with
        | .error => -1
        | .enoent => 0
        | .ok st_mtime =>
          if ts ≠ st_mtime then 0
          else
            match getParentIDs e pid with
            | none => 0
            | some (real_ppid, _, _) => if real_ppid ≠ ppid then 0 else 1, some new_hash) := by
  have hint : is_int pid := by
    have := scanf_hash_pid_is_int ((s.files fd).getD [])
    rw [hdisk] at this
    exact this
  unfold Anonymous.check_account
  simp only [hhash, hdisk, hmine, ne_eq, not_true_eq_false, if_false, hne,
    if_neg (proc_path_short pid hint)]
  cases hst : e.proc.stat pid with
  | error => rfl
  | enoent => rfl
  | ok m =>
    simp only
    by_cases htm : ts = m
    · simp only [htm, not_true_eq_false, if_false]
      cases hp : getParentIDs e pid with
      | none => rfl
      | some v =>
        obtain ⟨rp, u, g⟩ := v
        simp only
        by_cases hrp : rp = ppid
        · simp [hrp]
        · simp [hrp]
    · simp [htm]

/-! ## Lemmas on the state and on one candidate of `select_account` -/

@[simp] theorem State.log_files (s : State) (c : Call) : (s.log c).files = s.files := rfl

@[simp] theorem State.log_locks (s : State) (c : Call) : (s.log c).locks = s.locks := rfl

@[simp] theorem State.log_creds (s : State) (c : Call) : (s.log c).creds = s.creds := rfl

@[simp] theorem State.log_exported (s : State) (c : Call) : (s.log c).exported = s.exported := rfl

@[simp] theorem State.log_trace (s : State) (c : Call) : (s.log c).trace = s.trace ++ [c] := rfl

@[simp] theorem State.close_files (s : State) (n : String) : (s.close n).files = s.files := rfl

@[simp] theorem State.close_creds (s : State) (n : String) : (s.close n).creds = s.creds := rfl

@[simp] theorem State.close_exported (s : State) (n : String) :
    (s.close n).exported = s.exported := rfl

@[simp] theorem State.close_locks (s : State) (n : String) :
    (s.close n).locks = s.locks.filter (fun x => decide (x ≠ n)) := rfl

@[simp] theorem State.close_trace (s : State) (n : String) :
    (s.close n).trace = s.trace ++ [Call.close n] := rfl

@[simp] theorem State.set_file_files (s : State) (n : String) (c : Option (List Char))
    (f : String) : (s.set_file n c).files f = if f = n then c else s.files f := rfl

@[simp] theorem State.set_file_locks (s : State) (n : String) (c : Option (List Char)) :
    (s.set_file n c).locks = s.locks := rfl

@[simp] theorem State.set_file_creds (s : State) (n : String) (c : Option (List Char)) :
    (s.set_file n c).creds = s.creds := rfl

@[simp] theorem State.set_file_exported (s : State) (n : String) (c : Option (List Char)) :
    (s.set_file n c).exported = s.exported := rfl

@[simp] theorem State.set_file_trace (s : State) (n : String) (c : Option (List Char)) :
    (s.set_file n c).trace = s.trace := rfl

@[simp] theorem State.addCredentialData_files (s : State) (k : CredKind) (v : Int) :
    (s.addCredentialData k v).files = s.files := rfl

@[simp] theorem State.addCredentialData_locks (s : State) (k : CredKind) (v : Int) :
    (s.addCredentialData k v).locks = s.locks := rfl

@[simp] theorem State.addCredentialData_creds (s : State) (k : CredKind) (v : Int) :
    (s.addCredentialData k v).creds = s.creds ++ [(k, v)] := rfl

@[simp] theorem State.addCredentialData_exported (s : State) (k : CredKind) (v : Int) :
    (s.addCredentialData k v).exported = s.exported := rfl

@[simp] theorem State.addCredentialData_trace (s : State) (k : CredKind) (v : Int) :
    (s.addCredentialData k v).trace = s.trace ++ [Call.addCredentialData k v] := rfl

theorem not_mem_close_locks (s : State) (n : String) : n ∉ (s.close n).locks := by
  simp [State.close]

theorem mem_close_locks (s : State) (n x : String) (h : x ∈ (s.close n).locks) : x ∈ s.locks := by
  simp only [State.close_locks, List.mem_filter] at h
  exact h.1

/-- What the create-or-reopen block does to the state. -/
theorem open_lock_file_spec (e : Env) (s : State) (name : String) :
    ∃ s1, open_lock_file e s name = (lock_file_opens e s name, s1) ∧
      s1.creds = s.creds ∧ s1.locks = s.locks ∧ s1.exported = s.exported ∧
      (∀ n, s1.files n = s.files n ∨ (n = name ∧ s.files n = none ∧ s1.files n = some [])) ∧
      (lock_file_opens e s name = false → s1.files = s.files) ∧
      (s1.files name).getD [] = (s.files name).getD [] ∧
      (lock_file_opens e s name = true → s1.files name ≠ none) := by
  unfold open_lock_file lock_file_opens
  by_cases hc : e.create_error name = true
  · simp only [hc, if_true, Bool.not_true, Bool.false_and]
    exact ⟨_, rfl, rfl, rfl, rfl, fun n => Or.inl rfl, fun _ => rfl, rfl, fun h => by cases h⟩
  · have hc2 : e.create_error name = false := by simpa using hc
    simp only [hc2, Bool.false_eq_true, if_false, Bool.not_false, Bool.true_and, State.log_files]
    cases hf : s.files name with
    | none =>
      simp only [Option.isNone_none, Bool.true_or]
      refine ⟨_, rfl, rfl, rfl, rfl, ?_, ?_, ?_, ?_⟩
      · intro n
        by_cases hn : n = name
        · right
          subst hn
          simp [hf]
        · left
          simp [hn]
      · intro h
        cases h
      · simp
      · simp
    | some c =>
      simp only [Option.isNone_some, Bool.false_or]
      cases hr : e.reopen_error name with
      | none =>
        exact ⟨_, rfl, rfl, rfl, rfl, fun n => Or.inl rfl, fun _ => rfl, by simp [hf],
          by simp [hf]⟩
      | some err =>
        exact ⟨_, rfl, rfl, rfl, rfl, fun n => Or.inl rfl, fun _ => rfl, by simp [hf],
          by simp⟩

/-- The return values of `check_account`, and the hash left on return `0`. -/
theorem check_account_range (fuel : Nat) (e : Env) (s : State) (uid : Int) (fd : String)
    (r : Int) (h : Option (List Char))
    (hc : Anonymous.check_account fuel e s uid fd = some (r, h)) :
    (r = -1 ∨ r = 0 ∨ r = 1) ∧
      (r ≠ -1 → ∃ new_hash, h = some new_hash ∧ getHash fuel e e.getpid = some (some new_hash)) := by
  unfold Anonymous.check_account at hc
  cases hg : getHash fuel e e.getpid with
  | none => simp [hg] at hc
  | some o =>
    cases o with
    | none =>
      simp only [hg, Option.some.injEq, Prod.mk.injEq] at hc
      exact ⟨Or.inl hc.1.symm, fun hne => absurd hc.1.symm hne⟩
    | some nh =>
      simp only [hg] at hc
      have key : ∀ (v : Int), (v = -1 ∨ v = 0 ∨ v = 1) →
          some (v, some nh) = some (r, h) →
          (r = -1 ∨ r = 0 ∨ r = 1) ∧
            (r ≠ -1 → ∃ new_hash, h = some new_hash ∧ some (some nh) = some (some new_hash)) := by
        intro v hv heq
        simp only [Option.some.injEq, Prod.mk.injEq] at heq
        obtain ⟨h1, h2⟩ := heq
        subst h1 h2
        exact ⟨hv, fun _ => ⟨nh, rfl, rfl⟩⟩
      repeat' split at hc
      all_goals first
        | exact key _ (Or.inl rfl) hc
        | exact key _ (Or.inr (Or.inl rfl)) hc
        | exact key _ (Or.inr (Or.inr rfl)) hc

/-- Function `check_account` does not return within the bound exactly when `getHash`
does not. -/
theorem check_account_none (fuel : Nat) (e : Env) (s : State) (uid : Int) (fd : String) :
    Anonymous.check_account fuel e s uid fd = none ↔ getHash fuel e e.getpid = none := by
  unfold Anonymous.check_account
  cases hg : getHash fuel e e.getpid with
  | none => simp
  | some o =>
    cases o with
    | none => simp
    | some nh =>
      simp only
      constructor
      · intro hc
        repeat' split at hc
        all_goals simp at hc
      · intro hc
        cases hc

theorem files_extended_refl (s : State) : files_extended s s := fun _ => Or.inl rfl

theorem files_extended_trans (s s1 s2 : State) (h1 : files_extended s s1)
    (h2 : files_extended s1 s2) : files_extended s s2 := by
  intro n
  rcases h1 n with a | ⟨a, b⟩
  · rcases h2 n with c | ⟨c, d⟩
    · left; rw [c, a]
    · right; exact ⟨by rw [← a]; exact c, d⟩
  · rcases h2 n with c | ⟨c, d⟩
    · right; exact ⟨a, by rw [c, b]⟩
    · rw [b] at c; cases c

theorem files_extended_getD (s s1 : State) (h : files_extended s s1) (n : String) :
    (s1.files n).getD [] = (s.files n).getD [] := by
  rcases h n with a | ⟨a, b⟩
  · rw [a]
  · rw [a, b]; rfl

/-- The four ways one candidate of the anonymous-accounts `select_account`
can end, with what each leaves in the state. -/
theorem Anonymous.select_body_cases (fuel : Nat) (e : Env) (s : State) (uid : Int) :
    (Anonymous.select_body fuel e s uid = none ∧ getHash fuel e e.getpid = none) ∨
    (∃ s1, Anonymous.select_body fuel e s uid = some (Step.continue_, s1) ∧
      Anonymous.usable fuel e s uid = false ∧ Anonymous.fatal fuel e s uid = false ∧
      s1.creds = s.creds ∧ s1.exported = s.exported ∧ (∀ x ∈ s1.locks, x ∈ s.locks) ∧
      files_extended s s1 ∧ (∀ n, e.flock_error n = none → s1.files n = s.files n)) ∨
    (∃ s1, Anonymous.select_body fuel e s uid = some (Step.return_ none, s1) ∧
      Anonymous.fatal fuel e s uid = true ∧ Anonymous.usable fuel e s uid = false ∧
      s1.creds = s.creds ∧ s1.exported = s.exported ∧ (∀ x ∈ s1.locks, x ∈ s.locks) ∧
      files_extended s s1) ∨
    (∃ account new_hash s1, e.getpwuid uid = some account ∧
      getHash fuel e e.getpid = some (some new_hash) ∧
      Anonymous.select_body fuel e s uid = some (Step.return_ (some
        { fd := account.pw_name
          account_name := account.pw_name
          account_lockfile := lockfile_path e.lockdir account.pw_name
          account_hash := some new_hash
          account_uid := account.pw_uid
          account_gid := account.pw_gid }), s1) ∧
      Anonymous.usable fuel e s uid = true ∧
      s1.creds = s.creds ∧ s1.exported = s.exported ∧
      s1.locks = account.pw_name :: s.locks ∧ files_extended s s1 ∧
      s1.files account.pw_name ≠ none) := by
  cases hacct : e.getpwuid uid with
  | none =>
    right; left
    refine ⟨s.log (Call.getpwuid uid), ?_, ?_, ?_, rfl, rfl, fun x hx => hx,
      files_extended_refl s, fun n _ => rfl⟩
    · simp [Anonymous.select_body, hacct]
    · simp [Anonymous.usable, hacct]
    · simp [Anonymous.fatal, hacct]
  | some account =>
    obtain ⟨s1, hopen, hcr, hlk, hex, hfiles, hsame, hgd, hsome⟩ :=
      open_lock_file_spec e (s.log (Call.getpwuid uid)) account.pw_name
    have hopens : lock_file_opens e (s.log (Call.getpwuid uid)) account.pw_name =
        lock_file_opens e s account.pw_name := rfl
    rw [hopens] at hopen hsame hsome
    simp only [State.log_files, State.log_creds, State.log_locks,
      State.log_exported] at hcr hlk hex hfiles hsame hgd
    have hext : files_extended s s1 := by
      intro n
      rcases hfiles n with a | ⟨_, b, c⟩
      · exact Or.inl a
      · exact Or.inr ⟨b, c⟩
    cases hlo : lock_file_opens e s account.pw_name with
    | false =>
      right; left
      rw [hlo] at hopen
      refine ⟨s1, ?_, ?_, ?_, hcr, hex, fun x hx => by rw [hlk] at hx; exact hx, hext,
        fun n _ => by rw [hsame hlo]⟩
      · simp [Anonymous.select_body, hacct, hopen]
      · simp [Anonymous.usable, hacct, hlo]
      · simp [Anonymous.fatal, hacct, hlo]
    | true =>
      rw [hlo] at hopen
      cases hfl : e.flock_error account.pw_name with
      | some err =>
        right; left
        refine ⟨(s1.log (Call.flock account.pw_name)).close account.pw_name, ?_, ?_, ?_, hcr,
          hex, ?_, hext, ?_⟩
        · simp [Anonymous.select_body, hacct, hopen, hfl]
        · simp [Anonymous.usable, hacct, hfl]
        · simp [Anonymous.fatal, hacct, hfl]
        · intro x hx
          have := mem_close_locks _ _ _ hx
          rw [State.log_locks, hlk] at this
          exact this
        · intro n hn
          rcases hfiles n with a | ⟨a, _, _⟩
          · exact a
          · subst a
            rw [hfl] at hn
            cases hn
      | none =>
        have hchk : Anonymous.check_account fuel e
            { s1.log (Call.flock account.pw_name) with
              locks := account.pw_name :: (s1.log (Call.flock account.pw_name)).locks }
            uid account.pw_name = Anonymous.check_account fuel e s uid account.pw_name :=
          check_account_congr fuel e _ s uid uid account.pw_name hgd
        have hbody : Anonymous.select_body fuel e s uid =
            match Anonymous.check_account fuel e s uid account.pw_name with
            | none => none
            | some (account_validity, account_hash) =>
              if account_validity = -1 then
                some (Step.return_ none,
                  State.close { s1.log (Call.flock account.pw_name) with
                    locks := account.pw_name :: (s1.log (Call.flock account.pw_name)).locks }
                    account.pw_name)
              else if account_validity = 1 then
                some (Step.continue_,
                  State.close { s1.log (Call.flock account.pw_name) with
                    locks := account.pw_name :: (s1.log (Call.flock account.pw_name)).locks }
                    account.pw_name)
              else
                some (Step.return_ (some
                  { fd := account.pw_name
                    account_name := account.pw_name
                    account_lockfile := lockfile_path e.lockdir account.pw_name
                    account_hash := account_hash
                    account_uid := account.pw_uid
                    account_gid := account.pw_gid }),
                  { s1.log (Call.flock account.pw_name) with
                    locks := account.pw_name :: (s1.log (Call.flock account.pw_name)).locks }) := by
          simp only [Anonymous.select_body, hacct, hopen, hfl, hchk]
        have hlocks_closed : ∀ x ∈ (State.close { s1.log (Call.flock account.pw_name) with
            locks := account.pw_name :: (s1.log (Call.flock account.pw_name)).locks }
            account.pw_name).locks, x ∈ s.locks := by
          intro x hx
          simp only [State.close_locks, State.log_locks, List.mem_filter, List.mem_cons,
            decide_eq_true_eq] at hx
          rcases hx.1 with h | h
          · exact absurd h hx.2
          · rw [hlk] at h; exact h
        cases hc : Anonymous.check_account fuel e s uid account.pw_name with
        | none =>
          left
          exact ⟨by rw [hbody, hc], (check_account_none fuel e s uid account.pw_name).1 hc⟩
        | some v =>
          obtain ⟨r, oh⟩ := v
          obtain ⟨hrange, hhash⟩ := check_account_range fuel e s uid account.pw_name r oh hc
          rw [hc] at hbody
          simp only at hbody
          by_cases hr1 : r = -1
          · right; right; left
            subst hr1
            rw [if_pos rfl] at hbody
            refine ⟨_, hbody, ?_, ?_, hcr, hex, hlocks_closed, hext⟩
            · simp [Anonymous.fatal, hacct, hlo, hfl, hc]
            · simp [Anonymous.usable, hacct, hlo, hfl, hc]
          · by_cases hr2 : r = 1
            · right; left
              subst hr2
              rw [if_neg (by decide), if_pos rfl] at hbody
              refine ⟨_, hbody, ?_, ?_, hcr, hex, hlocks_closed, hext, ?_⟩
              · simp [Anonymous.usable, hacct, hlo, hfl, hc]
              · simp [Anonymous.fatal, hacct, hlo, hfl, hc]
              · intro n _
                rcases hfiles n with a | ⟨a, b, _⟩
                · exact a
                · exfalso
                  rw [a] at b
                  have hempty := check_account_empty fuel e s uid account.pw_name
                    (by rw [b]; rfl)
                  rw [hc] at hempty
                  cases hg : getHash fuel e e.getpid with
                  | none => simp [hg] at hempty
                  | some o =>
                    cases o with
                    | none => simp [hg] at hempty
                    | some nh => simp [hg] at hempty
            · right; right; right
              have hr0 : r = 0 := by
                rcases hrange with h | h | h
                · exact absurd h hr1
                · exact h
                · exact absurd h hr2
              subst hr0
              obtain ⟨nh, hoh, hgh⟩ := hhash hr1
              subst hoh
              rw [if_neg (by decide), if_neg (by decide)] at hbody
              refine ⟨account, nh, _, rfl, hgh, hbody, ?_, hcr, hex, ?_, hext, ?_⟩
              · simp [Anonymous.usable, hacct, hlo, hfl, hc]
              · simp [hlk]
              · exact hsome hlo

/-- Skipped candidates do not change which candidates are acceptable or
fatal: the lock files they leave behind are new empty files whose lock could
not be taken. -/
theorem Anonymous.usable_fatal_congr (fuel : Nat) (e : Env) (s s1 : State) (u : Int)
    (hext : files_extended s s1)
    (hsame : ∀ n, e.flock_error n = none → s1.files n = s.files n) :
    Anonymous.usable fuel e s1 u = Anonymous.usable fuel e s u ∧
      Anonymous.fatal fuel e s1 u = Anonymous.fatal fuel e s u := by
  unfold Anonymous.usable Anonymous.fatal
  cases hacct : e.getpwuid u with
  | none => exact ⟨rfl, rfl⟩
  | some account =>
    simp only
    cases hfl : e.flock_error account.pw_name with
    | some err => simp
    | none =>
      have hf := hsame account.pw_name hfl
      have hlo : lock_file_opens e s1 account.pw_name = lock_file_opens e s account.pw_name := by
        unfold lock_file_opens
        rw [hf]
      have hc := check_account_congr fuel e s1 s u u account.pw_name
        (files_extended_getD s s1 hext account.pw_name)
      rw [hlo, hc]
      exact ⟨rfl, rfl⟩

theorem Anonymous.not_usable_and_fatal (fuel : Nat) (e : Env) (s : State) (u : Int)
    (h1 : Anonymous.usable fuel e s u = true) (h2 : Anonymous.fatal fuel e s u = true) : False := by
  unfold Anonymous.usable at h1
  unfold Anonymous.fatal at h2
  cases hacct : e.getpwuid u with
  | none => simp [hacct] at h1
  | some account =>
    simp only [hacct, Bool.and_eq_true, decide_eq_true_eq] at h1 h2
    rw [h1.2] at h2
    have := h2.2
    simp at this

/-- What a run of the loop of the anonymous-accounts `select_account` over the
candidates `uid, .., uid + n - 1` does, in terms of the state at its start. -/
theorem Anonymous.select_loop_cases (fuel : Nat) (e : Env) :
    ∀ (n : Nat) (uid : Int) (s : State),
    (Anonymous.select_loop fuel e n uid s = none ∧
      (getHash fuel e e.getpid = none ∨ (uid ≤ INT_MAX ∧ INT_MAX < uid + n))) ∨
    (∃ s1, Anonymous.select_loop fuel e n uid s = some (none, s1) ∧
      s1.creds = s.creds ∧ s1.exported = s.exported ∧ (∀ x ∈ s1.locks, x ∈ s.locks) ∧
      files_extended s s1 ∧
      ((∀ u, uid ≤ u → u < uid + n → Anonymous.usable fuel e s u = false) ∨
        (∃ u, uid ≤ u ∧ u < uid + n ∧ Anonymous.fatal fuel e s u = true ∧
          ∀ v, uid ≤ v → v < u →
            Anonymous.usable fuel e s v = false ∧ Anonymous.fatal fuel e s v = false))) ∨
    (∃ u account new_hash s1, uid ≤ u ∧ u < uid + n ∧ e.getpwuid u = some account ∧
      getHash fuel e e.getpid = some (some new_hash) ∧
      Anonymous.select_loop fuel e n uid s = some (some
        { fd := account.pw_name
          account_name := account.pw_name
          account_lockfile := lockfile_path e.lockdir account.pw_name
          account_hash := some new_hash
          account_uid := account.pw_uid
          account_gid := account.pw_gid }, s1) ∧
      Anonymous.usable fuel e s u = true ∧
      (∀ v, uid ≤ v → v < u →
        Anonymous.usable fuel e s v = false ∧ Anonymous.fatal fuel e s v = false) ∧
      s1.creds = s.creds ∧ s1.exported = s.exported ∧
      account.pw_name ∈ s1.locks ∧ (∀ x ∈ s1.locks, x = account.pw_name ∨ x ∈ s.locks) ∧
      files_extended s s1 ∧ s1.files account.pw_name ≠ none) := by
  intro n
  induction n with
  | zero =>
    intro uid s
    right; left
    refine ⟨s, rfl, rfl, rfl, fun x hx => hx, files_extended_refl s, Or.inl ?_⟩
    intro u h1 h2
    omega
  | succ n ih =>
    intro uid s
    rcases Anonymous.select_body_cases fuel e s uid with
      ⟨hb, hg⟩ | ⟨s1, hb, hnu, hnf, hcr, hex, hlk, hext, hsame⟩ |
      ⟨s1, hb, hf, hnu, hcr, hex, hlk, hext⟩ |
      ⟨account, nh, s1, hacct, hg, hb, hu, hcr, hex, hlk, hext, hfile⟩
    · left
      exact ⟨by simp [Anonymous.select_loop, hb], Or.inl hg⟩
    · by_cases hov : uid = INT_MAX
      · left
        refine ⟨by simp only [Anonymous.select_loop, hb, if_pos hov], Or.inr ?_⟩
        push_cast
        omega
      have hloop : Anonymous.select_loop fuel e (n + 1) uid s =
          Anonymous.select_loop fuel e n (uid + 1) s1 := by
        simp only [Anonymous.select_loop, hb, if_neg hov]
      have hcongr := fun u => Anonymous.usable_fatal_congr fuel e s s1 u hext hsame
      rcases ih (uid + 1) s1 with
        ⟨hl, hg⟩ | ⟨s2, hl, hcr2, hex2, hlk2, hext2, hwhy⟩ |
        ⟨u, account, nh, s2, hu1, hu2, hacct, hg, hl, hu, hbefore, hcr2, hex2, hin, hlk2, hext2,
          hfile⟩
      · left
        refine ⟨by rw [hloop, hl], ?_⟩
        rcases hg with hg | hg
        · exact Or.inl hg
        · right
          push_cast
          omega
      · right; left
        refine ⟨s2, by rw [hloop, hl], by rw [hcr2, hcr], by rw [hex2, hex],
          fun x hx => hlk x (hlk2 x hx), files_extended_trans s s1 s2 hext hext2, ?_⟩
        rcases hwhy with hall | ⟨u, hu1, hu2, hfu, hbefore⟩
        · left
          intro u h1 h2
          by_cases hu : u = uid
          · subst hu; exact hnu
          · rw [← (hcongr u).1]
            exact hall u (by omega) (by omega)
        · right
          refine ⟨u, by omega, by omega, by rw [← (hcongr u).2]; exact hfu, ?_⟩
          intro v h1 h2
          by_cases hv : v = uid
          · subst hv; exact ⟨hnu, hnf⟩
          · rw [← (hcongr v).1, ← (hcongr v).2]
            exact hbefore v (by omega) h2
      · right; right
        refine ⟨u, account, nh, s2, by omega, by omega, hacct, hg, by rw [hloop, hl],
          by rw [← (hcongr u).1]; exact hu, ?_, by rw [hcr2, hcr], by rw [hex2, hex], hin, ?_,
          files_extended_trans s s1 s2 hext hext2, hfile⟩
        · intro v h1 h2
          by_cases hv : v = uid
          · subst hv; exact ⟨hnu, hnf⟩
          · rw [← (hcongr v).1, ← (hcongr v).2]
            exact hbefore v (by omega) h2
        · intro x hx
          rcases hlk2 x hx with h | h
          · exact Or.inl h
          · exact Or.inr (hlk x h)
    · right; left
      refine ⟨s1, by simp [Anonymous.select_loop, hb], hcr, hex, hlk, hext, Or.inr ?_⟩
      refine ⟨uid, le_refl _, by omega, hf, ?_⟩
      intro v h1 h2
      omega
    · right; right
      refine ⟨uid, account, nh, s1, le_refl _, by omega, hacct, hg,
        by simp [Anonymous.select_loop, hb], hu, ?_, hcr, hex, by rw [hlk]; simp, ?_, hext, hfile⟩
      · intro v h1 h2
        omega
      · intro x hx
        rw [hlk] at hx
        rcases List.mem_cons.1 hx with h | h
        · exact Or.inl h
        · exact Or.inr h

/-- The two ways one candidate of the pool-accounts `select_account` can end. -/
theorem Pool.pool_select_body_cases (e : Env) (s : State) (uid : Int) :
    (∃ s1, Pool.select_body e s uid = (Step.continue_, s1) ∧
      Pool.usable e s uid = false ∧
      s1.creds = s.creds ∧ s1.exported = s.exported ∧ s1.locks = s.locks ∧
      files_extended s s1 ∧ (∀ n, e.flock_error n = none → s1.files n = s.files n)) ∨
    (∃ account s1, e.getpwuid uid = some account ∧
      Pool.select_body e s uid = (Step.return_ (some
        { fd := account.pw_name
          account_name := account.pw_name
          account_lockfile := lockfile_path e.lockdir account.pw_name
          account_hash := none
          account_uid := account.pw_uid
          account_gid := account.pw_gid }), s1) ∧
      Pool.usable e s uid = true ∧
      s1.creds = s.creds ∧ s1.exported = s.exported ∧
      s1.locks = account.pw_name :: s.locks ∧ files_extended s s1) := by
  cases hacct : e.getpwuid uid with
  | none =>
    left
    refine ⟨s.log (Call.getpwuid uid), ?_, ?_, rfl, rfl, rfl, files_extended_refl s,
      fun n _ => rfl⟩
    · simp [Pool.select_body, hacct]
    · simp [Pool.usable, hacct]
  | some account =>
    obtain ⟨s1, hopen, hcr, hlk, hex, hfiles, hsame, hgd, hsome⟩ :=
      open_lock_file_spec e (s.log (Call.getpwuid uid)) account.pw_name
    have hopens : lock_file_opens e (s.log (Call.getpwuid uid)) account.pw_name =
        lock_file_opens e s account.pw_name := rfl
    rw [hopens] at hopen hsame hsome
    simp only [State.log_files, State.log_creds, State.log_locks,
      State.log_exported] at hcr hlk hex hfiles hsame hgd
    have hext : files_extended s s1 := by
      intro n
      rcases hfiles n with a | ⟨_, b, c⟩
      · exact Or.inl a
      · exact Or.inr ⟨b, c⟩
    cases hlo : lock_file_opens e s account.pw_name with
    | false =>
      left
      rw [hlo] at hopen
      refine ⟨s1, ?_, ?_, hcr, hex, hlk, hext, fun n _ => by rw [hsame hlo]⟩
      · simp [Pool.select_body, hacct, hopen]
      · simp [Pool.usable, hacct, hlo]
    | true =>
      rw [hlo] at hopen
      cases hfl : e.flock_error account.pw_name with
      | some err =>
        left
        refine ⟨s1.log (Call.flock account.pw_name), ?_, ?_, hcr, hex, hlk, hext, ?_⟩
        · simp [Pool.select_body, hacct, hopen, hfl]
        · simp [Pool.usable, hacct, hfl]
        · intro n hn
          rcases hfiles n with a | ⟨a, _, _⟩
          · exact a
          · rw [a, hfl] at hn
            cases hn
      | none =>
        right
        refine ⟨account, { s1.log (Call.flock account.pw_name) with
          locks := account.pw_name :: (s1.log (Call.flock account.pw_name)).locks },
          rfl, ?_, ?_, hcr, hex, ?_, hext⟩
        · simp only [Pool.select_body, hacct, hopen, hfl]
        · simp [Pool.usable, hacct, hlo, hfl]
        · simp [hlk]

theorem Pool.usable_congr (e : Env) (s s1 : State) (u : Int)
    (hsame : ∀ n, e.flock_error n = none → s1.files n = s.files n) :
    Pool.usable e s1 u = Pool.usable e s u := by
  unfold Pool.usable
  cases hacct : e.getpwuid u with
  | none => rfl
  | some account =>
    simp only
    cases hfl : e.flock_error account.pw_name with
    | some err => simp
    | none =>
      have hf := hsame account.pw_name hfl
      have hlo : lock_file_opens e s1 account.pw_name = lock_file_opens e s account.pw_name := by
        unfold lock_file_opens
        rw [hf]
      rw [hlo]

/-- What a run of the loop of the pool-accounts `select_account` over the
candidates `uid, .., uid + n - 1` does, in terms of the state at its start. -/
theorem Pool.pool_select_loop_cases (e : Env) :
    ∀ (n : Nat) (uid : Int) (s : State),
    (Pool.select_loop e n uid s = none ∧ uid ≤ INT_MAX ∧ INT_MAX < uid + n) ∨
    (∃ s1, Pool.select_loop e n uid s = some (none, s1) ∧
      s1.creds = s.creds ∧ s1.exported = s.exported ∧ s1.locks = s.locks ∧
      files_extended s s1 ∧
      (∀ u, uid ≤ u → u < uid + n → Pool.usable e s u = false)) ∨
    (∃ u account s1, uid ≤ u ∧ u < uid + n ∧ e.getpwuid u = some account ∧
      Pool.select_loop e n uid s = some (some
        { fd := account.pw_name
          account_name := account.pw_name
          account_lockfile := lockfile_path e.lockdir account.pw_name
          account_hash := none
          account_uid := account.pw_uid
          account_gid := account.pw_gid }, s1) ∧
      Pool.usable e s u = true ∧
      (∀ v, uid ≤ v → v < u → Pool.usable e s v = false) ∧
      s1.creds = s.creds ∧ s1.exported = s.exported ∧
      s1.locks = account.pw_name :: s.locks ∧ files_extended s s1) := by
  intro n
  induction n with
  | zero =>
    intro uid s
    right; left
    refine ⟨s, rfl, rfl, rfl, rfl, files_extended_refl s, ?_⟩
    intro u h1 h2
    omega
  | succ n ih =>
    intro uid s
    rcases Pool.pool_select_body_cases e s uid with
      ⟨s1, hb, hnu, hcr, hex, hlk, hext, hsame⟩ |
      ⟨account, s1, hacct, hb, hu, hcr, hex, hlk, hext⟩
    · by_cases hov : uid = INT_MAX
      · left
        refine ⟨by simp only [Pool.select_loop, hb, if_pos hov], ?_⟩
        push_cast
        omega
      have hloop : Pool.select_loop e (n + 1) uid s = Pool.select_loop e n (uid + 1) s1 := by
        simp only [Pool.select_loop, hb, if_neg hov]
      have hcongr := fun u => Pool.usable_congr e s s1 u hsame
      rcases ih (uid + 1) s1 with
        ⟨hl, hov1, hov2⟩ | ⟨s2, hl, hcr2, hex2, hlk2, hext2, hall⟩ |
        ⟨u, account, s2, hu1, hu2, hacct, hl, hu, hbefore, hcr2, hex2, hlk2, hext2⟩
      · left
        refine ⟨by rw [hloop, hl], ?_⟩
        push_cast
        omega
      · right; left
        refine ⟨s2, by rw [hloop, hl], by rw [hcr2, hcr], by rw [hex2, hex], by rw [hlk2, hlk],
          files_extended_trans s s1 s2 hext hext2, ?_⟩
        intro u h1 h2
        by_cases hu : u = uid
        · subst hu; exact hnu
        · rw [← hcongr u]
          exact hall u (by omega) (by omega)
      · right; right
        refine ⟨u, account, s2, by omega, by omega, hacct, by rw [hloop, hl],
          by rw [← hcongr u]; exact hu, ?_, by rw [hcr2, hcr], by rw [hex2, hex],
          by rw [hlk2, hlk], files_extended_trans s s1 s2 hext hext2⟩
        intro v h1 h2
        by_cases hv : v = uid
        · subst hv; exact hnu
        · rw [← hcongr v]
          exact hbefore v (by omega) h2
    · right; right
      refine ⟨uid, account, s1, le_refl _, by omega, hacct, by simp [Pool.select_loop, hb], hu,
        ?_, hcr, hex, hlk, hext⟩
      intro v h1 h2
      omega

theorem range_bound (lo hi u : Int) (h1 : lo ≤ u) :
    (u < lo + ((hi + 1 - lo).toNat : Int)) ↔ u ≤ hi := by
  omega

theorem no_overflow (lo hi : Int) (hmax : hi < INT_MAX)
    (h : lo ≤ INT_MAX ∧ INT_MAX < lo + ((hi + 1 - lo).toNat : Int)) : False := by
  have := (range_bound lo hi INT_MAX h.1).1 h.2
  omega

/-- The anonymous-accounts `select_account` takes the smallest acceptable
candidate when no smaller candidate is fatal. -/
theorem Anonymous.select_account_takes (fuel : Nat) (e : Env) (s : State) (u : Int)
    (account : passwd) (hmax : e.max_uid < INT_MAX) (h1 : e.min_uid ≤ u) (h2 : u ≤ e.max_uid)
    (hacct : e.getpwuid u = some account) (hu : Anonymous.usable fuel e s u = true)
    (hbefore : ∀ v, e.min_uid ≤ v → v < u →
      Anonymous.usable fuel e s v = false ∧ Anonymous.fatal fuel e s v = false) :
    ∃ new_hash s1, getHash fuel e e.getpid = some (some new_hash) ∧
      Anonymous.select_account fuel e s = some (some
        { fd := account.pw_name
          account_name := account.pw_name
          account_lockfile := lockfile_path e.lockdir account.pw_name
          account_hash := some new_hash
          account_uid := account.pw_uid
          account_gid := account.pw_gid }, s1) ∧
      s1.creds = s.creds ∧ s1.exported = s.exported ∧
      account.pw_name ∈ s1.locks ∧ (∀ x ∈ s1.locks, x = account.pw_name ∨ x ∈ s.locks) ∧
      files_extended s s1 ∧ s1.files account.pw_name ≠ none := by
  have hfuel : getHash fuel e e.getpid ≠ none := by
    intro hg
    unfold Anonymous.usable at hu
    simp only [hacct, Bool.and_eq_true, decide_eq_true_eq] at hu
    have := (check_account_none fuel e s u account.pw_name).2 hg
    rw [this] at hu
    simp at hu
  rcases Anonymous.select_loop_cases fuel e (e.max_uid + 1 - e.min_uid).toNat e.min_uid s with
    ⟨_, hg⟩ | ⟨s1, _, _, _, _, _, hwhy⟩ |
    ⟨u2, account2, nh, s1, hu1, hu2, hacct2, hg, hl, husable2, hbefore2, hcr, hex, hin, hlk,
      hext, hfile⟩
  · rcases hg with hg | hg
    · exact absurd hg hfuel
    · exact (no_overflow _ _ hmax hg).elim
  · exfalso
    rcases hwhy with hall | ⟨v, hv1, hv2, hfv, hbv⟩
    · have := hall u h1 ((range_bound _ _ _ h1).2 h2)
      rw [hu] at this
      cases this
    · rcases lt_trichotomy v u with h | h | h
      · have := (hbefore v hv1 h).2
        rw [hfv] at this
        cases this
      · subst h
        exact Anonymous.not_usable_and_fatal fuel e s v hu hfv
      · have := (hbv u h1 h).1
        rw [hu] at this
        cases this
  · have hueq : u2 = u := by
      rcases lt_trichotomy u2 u with h | h | h
      · have := (hbefore u2 hu1 h).1
        rw [husable2] at this
        cases this
      · exact h
      · have := (hbefore2 u h1 h).1
        rw [hu] at this
        cases this
    subst hueq
    rw [hacct] at hacct2
    cases hacct2
    exact ⟨nh, s1, hg, hl, hcr, hex, hin, hlk, hext, hfile⟩

/-- The `write` loop follows `write_outcome`; it changes only the content of
the file written to, by appending the bytes taken. -/
theorem write_loop_spec (name : String) :
    ∀ (script : List WriteResult) (ptr : List Char) (s : State),
    (write_outcome script ptr.length = none ∧ Anonymous.write_loop name script ptr s = none) ∨
    (∃ ok s1, write_outcome script ptr.length = some ok ∧
      Anonymous.write_loop name script ptr s = some (ok, s1) ∧
      s1.creds = s.creds ∧ s1.locks = s.locks ∧ s1.exported = s.exported ∧
      (∀ f, f ≠ name → s1.files f = s.files f) ∧
      (ok = true → ∀ c, s.files name = some c → s1.files name = some (c ++ ptr)) ∧
      ∃ t, s1.trace = s.trace ++ t ∧ ∀ x ∈ t, x = Call.write name) := by
  intro script
  induction script with
  | nil =>
    intro ptr s
    cases ptr with
    | nil =>
      right
      exact ⟨true, s, rfl, rfl, rfl, rfl, rfl, fun _ _ => rfl, fun _ c hc => by simp [hc],
        [], by simp, by simp⟩
    | cons c cs =>
      left
      exact ⟨rfl, rfl⟩
  | cons r script ih =>
    intro ptr s
    cases ptr with
    | nil =>
      right
      exact ⟨true, s, rfl, rfl, rfl, rfl, rfl, fun _ _ => rfl, fun _ c hc => by simp [hc],
        [], by simp, by simp⟩
    | cons c cs =>
      cases r with
      | eintr =>
        rcases ih (c :: cs) (s.log (Call.write name)) with
          ⟨h1, h2⟩ | ⟨ok, s1, h1, h2, hcr, hlk, hex, hoth, hfile, t, ht, htw⟩
        · left
          exact ⟨by simpa [write_outcome] using h1, by simpa [Anonymous.write_loop] using h2⟩
        · right
          refine ⟨ok, s1, by simpa [write_outcome] using h1,
            by simpa [Anonymous.write_loop] using h2, hcr, hlk, hex, hoth, hfile,
            Call.write name :: t, by simp [ht], ?_⟩
          intro x hx
          rcases List.mem_cons.1 hx with h | h
          · exact h
          · exact htw x h
      | error =>
        right
        exact ⟨false, s.log (Call.write name), rfl, rfl, rfl, rfl, rfl, fun _ _ => rfl,
          (fun h => by cases h), [Call.write name], rfl, by simp⟩
      | wrote n =>
        have hlen : ((c :: cs).drop (min n (c :: cs).length)).length =
            cs.length + 1 - min n (cs.length + 1) := by
          simp [List.length_drop]
        rcases ih ((c :: cs).drop (min n (c :: cs).length))
            ((s.log (Call.write name)).set_file name
              (some (((s.log (Call.write name)).files name).getD [] ++
                (c :: cs).take (min n (c :: cs).length)))) with
          ⟨h1, h2⟩ | ⟨ok, s1, h1, h2, hcr, hlk, hex, hoth, hfile, t, ht, htw⟩
        · left
          rw [hlen] at h1
          exact ⟨by simpa [write_outcome] using h1, by simpa [Anonymous.write_loop] using h2⟩
        · right
          rw [hlen] at h1
          refine ⟨ok, s1, by simpa [write_outcome] using h1,
            by simpa [Anonymous.write_loop] using h2, hcr, hlk, hex, ?_, ?_,
            Call.write name :: t, by simp [ht], ?_⟩
          · intro f hf
            rw [hoth f hf]
            simp [hf]
          · intro hok c0 hc0
            have := hfile hok (c0 ++ (c :: cs).take (min n (c :: cs).length)) (by simp [hc0])
            rw [this, List.append_assoc, List.take_append_drop]
          · intro x hx
            rcases List.mem_cons.1 hx with h | h
            · exact h
            · exact htw x h

/-- Unfolding of `plugin_run` of the anonymous plugin once a slot is selected. -/
theorem Anonymous.plugin_run_selected (fuel : Nat) (e : Env) (s : State) (sel : Selection)
    (sm : State) (account_hash : List Char)
    (hdir : (open_lockdir e s).1 ≠ -1)
    (hsel : Anonymous.select_account fuel e (open_lockdir e s).2 = some (some sel, sm))
    (hh : sel.account_hash = some account_hash) :
    Anonymous.plugin_run fuel e s =
      if e.ftruncate_ok sel.fd = false then
        some (ModResult.LCMAPS_MOD_FAIL,
          (((((sm.addCredentialData CredKind.UID sel.account_uid).addCredentialData
            CredKind.PRI_GID sel.account_gid).log (Call.ftruncate sel.fd)).close sel.fd).log
            Call.close_dir))
      else
        match Anonymous.write_loop sel.fd e.write_script account_hash
          (((((sm.addCredentialData CredKind.UID sel.account_uid).addCredentialData
            CredKind.PRI_GID sel.account_gid).log (Call.ftruncate sel.fd)).set_file sel.fd
            (some [])).log (Call.lseek sel.fd)) with
        | none => none
        | some (false, s2) =>
          some (ModResult.LCMAPS_MOD_FAIL,
            ((((s2.log (Call.unlink sel.account_lockfile)).set_file sel.account_name none).close
              sel.fd).log Call.close_dir))
        | some (true, s2) =>
          some (ModResult.LCMAPS_MOD_SUCCESS, (s2.close sel.fd).log Call.close_dir) := by
  unfold Anonymous.plugin_run
  simp only [hdir, if_false, hsel, hh]

/-- A successful `plugin_run` of the anonymous plugin: what was selected and
what is left in the state. -/
theorem Anonymous.plugin_run_success_inv (fuel : Nat) (e : Env) (s s1 : State)
    (hrun : Anonymous.plugin_run fuel e s = some (ModResult.LCMAPS_MOD_SUCCESS, s1)) :
    ∃ u account new_hash sm,
      (open_lockdir e s).1 ≠ -1 ∧ e.min_uid ≤ u ∧ u ≤ e.max_uid ∧
      e.getpwuid u = some account ∧
      getHash fuel e e.getpid = some (some new_hash) ∧
      Anonymous.select_account fuel e (open_lockdir e s).2 = some (some
        { fd := account.pw_name
          account_name := account.pw_name
          account_lockfile := lockfile_path e.lockdir account.pw_name
          account_hash := some new_hash
          account_uid := account.pw_uid
          account_gid := account.pw_gid }, sm) ∧
      Anonymous.usable fuel e s u = true ∧
      e.ftruncate_ok account.pw_name = true ∧
      write_outcome e.write_script new_hash.length = some true ∧
      account.pw_name ∈ sm.locks ∧
      s1.locks = sm.locks.filter (fun x => decide (x ≠ account.pw_name)) ∧
      account.pw_name ∉ s1.locks ∧
      (∀ x ∈ s1.locks, x ∈ s.locks) ∧
      s1.creds = s.creds ++ [(CredKind.UID, account.pw_uid), (CredKind.PRI_GID, account.pw_gid)] ∧
      s1.files account.pw_name = some new_hash ∧
      (∀ f, f ≠ account.pw_name → s1.files f = sm.files f) ∧
      files_extended s sm ∧
      ∃ t, s1.trace = t ++ [Call.close account.pw_name, Call.close_dir] := by
  obtain ⟨hf0, hl0, hc0, hx0, _⟩ := open_lockdir_frame e s
  by_cases hdir : (open_lockdir e s).1 = -1
  · simp [Anonymous.plugin_run, hdir] at hrun
  · rcases Anonymous.select_loop_cases fuel e (e.max_uid + 1 - e.min_uid).toNat e.min_uid
        (open_lockdir e s).2 with
      ⟨hl, _⟩ | ⟨sm, hl, _⟩ |
      ⟨u, account, nh, sm, hu1, hu2, hacct, hg, hl, hus, _, hcr, hex, hin, hlk, hext, hfile⟩
    · have : Anonymous.select_account fuel e (open_lockdir e s).2 = none := hl
      simp [Anonymous.plugin_run, hdir, this] at hrun
    · have : Anonymous.select_account fuel e (open_lockdir e s).2 = some (none, sm) := hl
      simp [Anonymous.plugin_run, hdir, this] at hrun
    · have hsel : Anonymous.select_account fuel e (open_lockdir e s).2 = some (some _, sm) := hl
      have hrun2 := Anonymous.plugin_run_selected fuel e s _ sm nh hdir hsel rfl
      rw [hrun] at hrun2
      simp only at hrun2
      by_cases htr : e.ftruncate_ok account.pw_name = false
      · simp [htr] at hrun2
      · have htr2 : e.ftruncate_ok account.pw_name = true := by simpa using htr
        simp only [htr2, Bool.true_eq_false, if_false] at hrun2
        have hext0 : files_extended s sm := by
          intro n
          have := hext n
          rw [hf0] at this
          exact this
        have husable : Anonymous.usable fuel e s u = true := by
          have := (Anonymous.usable_fatal_congr fuel e s (open_lockdir e s).2 u
            (fun n => Or.inl (by rw [hf0])) (fun n _ => by rw [hf0])).1
          rw [← this]
          exact hus
        rcases write_loop_spec account.pw_name e.write_script nh
            (((((sm.addCredentialData CredKind.UID account.pw_uid).addCredentialData
              CredKind.PRI_GID account.pw_gid).log (Call.ftruncate account.pw_name)).set_file
              account.pw_name (some [])).log (Call.lseek account.pw_name)) with
          ⟨_, hw⟩ | ⟨ok, s2, hwo, hw, hcr2, hlk2, hex2, hoth, hfile2, t, ht, _⟩
        · rw [hw] at hrun2
          cases hrun2
        · rw [hw] at hrun2
          cases ok with
          | false =>
            simp at hrun2
          | true =>
            simp only [Option.some.injEq, Prod.mk.injEq, true_and] at hrun2
            subst hrun2
            refine ⟨u, account, nh, sm, hdir, hu1, (range_bound _ _ _ hu1).1 hu2, hacct, hg, hsel,
              husable, htr2, hwo, hin, ?_, ?_, ?_, ?_, ?_, ?_, hext0, ?_⟩
            · simp [hlk2]
            · simp
            · intro x hx
              simp only [State.log_locks, State.close_locks, List.mem_filter,
                decide_eq_true_eq] at hx
              rw [hlk2] at hx
              simp only [State.log_locks, State.set_file_locks,
                State.addCredentialData_locks] at hx
              rcases hlk x hx.1 with h | h
              · exact absurd h hx.2
              · rw [hl0] at h
                exact h
            · simp only [State.log_creds, State.close_creds, hcr2, State.set_file_creds,
                State.addCredentialData_creds, hcr, hc0, List.append_assoc, List.singleton_append]
            · have := hfile2 rfl [] (by simp)
              simpa using this
            · intro f hf
              simp only [State.log_files, State.close_files]
              rw [hoth f hf]
              simp [hf]
            · exact ⟨s2.trace, by simp⟩

theorem Anonymous.usable_fatal_after_open_lockdir (fuel : Nat) (e : Env) (s : State) (u : Int) :
    Anonymous.usable fuel e (open_lockdir e s).2 u = Anonymous.usable fuel e s u ∧
      Anonymous.fatal fuel e (open_lockdir e s).2 u = Anonymous.fatal fuel e s u := by
  obtain ⟨hf0, _⟩ := open_lockdir_frame e s
  exact Anonymous.usable_fatal_congr fuel e s (open_lockdir e s).2 u
    (fun n => Or.inl (by rw [hf0])) (fun n _ => by rw [hf0])

/-- A run of the anonymous `plugin_run` in which the lock directory passes
the checks, the candidate `u` is the smallest acceptable one with no fatal
candidate before it, the truncation succeeds and the writes complete:
success, with the caller's fingerprint in the lock file of `u`. -/
theorem Anonymous.plugin_run_success_of (fuel : Nat) (e : Env) (s : State) (u : Int)
    (account : passwd) (new_hash : List Char) (hmax : e.max_uid < INT_MAX)
    (hdir : (open_lockdir e s).1 ≠ -1)
    (h1 : e.min_uid ≤ u) (h2 : u ≤ e.max_uid)
    (hacct : e.getpwuid u = some account)
    (hg : getHash fuel e e.getpid = some (some new_hash))
    (hu : Anonymous.usable fuel e s u = true)
    (hbefore : ∀ v, e.min_uid ≤ v → v < u →
      Anonymous.usable fuel e s v = false ∧ Anonymous.fatal fuel e s v = false)
    (htr : e.ftruncate_ok account.pw_name = true)
    (hw : write_outcome e.write_script new_hash.length = some true) :
    ∃ s1, Anonymous.plugin_run fuel e s = some (ModResult.LCMAPS_MOD_SUCCESS, s1) ∧
      s1.files account.pw_name = some new_hash ∧
      s1.creds = s.creds ++ [(CredKind.UID, account.pw_uid), (CredKind.PRI_GID, account.pw_gid)] ∧
      account.pw_name ∉ s1.locks := by
  obtain ⟨_, _, hc0, _, _⟩ := open_lockdir_frame e s
  obtain ⟨nh, sm, hg2, hsel, hcr, _, _, _, _, _⟩ :=
    Anonymous.select_account_takes fuel e (open_lockdir e s).2 u account hmax h1 h2 hacct
      (by rw [(Anonymous.usable_fatal_after_open_lockdir fuel e s u).1]; exact hu)
      (fun v hv1 hv2 => by
        rw [(Anonymous.usable_fatal_after_open_lockdir fuel e s v).1,
          (Anonymous.usable_fatal_after_open_lockdir fuel e s v).2]
        exact hbefore v hv1 hv2)
  rw [hg] at hg2
  simp only [Option.some.injEq] at hg2
  subst hg2
  have hrun := Anonymous.plugin_run_selected fuel e s _ sm new_hash hdir hsel rfl
  simp only [htr, Bool.true_eq_false, if_false] at hrun
  rcases write_loop_spec account.pw_name e.write_script new_hash
      (((((sm.addCredentialData CredKind.UID account.pw_uid).addCredentialData
        CredKind.PRI_GID account.pw_gid).log (Call.ftruncate account.pw_name)).set_file
        account.pw_name (some [])).log (Call.lseek account.pw_name)) with
    ⟨hwo, _⟩ | ⟨ok, s2, hwo, hwl, hcr2, _, _, _, hfile2, _⟩
  · rw [hw] at hwo
    cases hwo
  · rw [hw] at hwo
    simp only [Option.some.injEq] at hwo
    subst hwo
    rw [hwl] at hrun
    refine ⟨_, hrun, ?_, ?_, ?_⟩
    · have := hfile2 rfl [] (by simp)
      simpa using this
    · simp only [State.log_creds, State.close_creds, hcr2, State.set_file_creds,
        State.addCredentialData_creds, hcr, hc0, List.append_assoc, List.singleton_append]
    · simp

/-- A candidate whose `check_account` verdict is `1` is skipped: the descriptor
is closed and the loop goes on. -/
theorem Anonymous.select_body_skips (fuel : Nat) (e : Env) (s : State) (uid : Int)
    (account : passwd) (h : Option (List Char))
    (hacct : e.getpwuid uid = some account)
    (hchk : Anonymous.check_account fuel e s uid account.pw_name = some (1, h)) :
    ∃ s1, Anonymous.select_body fuel e s uid = some (Step.continue_, s1) ∧
      s1.creds = s.creds ∧ (∀ x ∈ s1.locks, x ∈ s.locks) ∧ files_extended s s1 := by
  rcases Anonymous.select_body_cases fuel e s uid with
    ⟨_, hg⟩ | ⟨s1, hb, _, _, hcr, _, hlk, hext, _⟩ | ⟨s1, _, hf, _⟩ |
    ⟨account2, nh, s1, _, _, _, hu, _⟩
  · have := (check_account_none fuel e s uid account.pw_name).2 hg
    rw [this] at hchk
    cases hchk
  · exact ⟨s1, hb, hcr, hlk, hext⟩
  · exfalso
    unfold Anonymous.fatal at hf
    simp only [hacct, hchk, Bool.and_eq_true, decide_eq_true_eq] at hf
    have := hf.2
    simp at this
  · exfalso
    unfold Anonymous.usable at hu
    simp only [hacct, hchk, Bool.and_eq_true, decide_eq_true_eq] at hu
    have := hu.2
    simp at this

/-! ## The claims -/

/-- C2 at the worked example: the ancestry of 5000 is `[5000, 4300, 4242,
4200, 1]`, the uid changes at index 3, and the fingerprint is that of
`(4242, 4200)` with the start time of 4242. -/
theorem C2_getHash_fingerprint_witness :
    demo_ah.getHash demo_proc 10 5000 = some (some (fmt_hash 4242 4200 1700000000)) ∧
      (4242 : Int) ≠ 5000 :=
  C2_getHash_fingerprint demo_ah demo_proc 10 5000 [5000, 4300, 4242, 4200, 1] 3 500 1700000000
    (by decide) (by decide) (by decide) (by decide) (by decide) (by decide)
    (by
      intro j h1 h2
      have hj : j = 2 := by omega
      subst hj
      decide)
    ⟨0, by decide, by decide⟩
    (by
      intro j h1 h2
      have hj : j = 1 ∨ j = 2 := by omega
      rcases hj with hj | hj <;> subst hj <;> decide)
    (by decide) (by decide)

/-- C3 as stated fails: the lock file of `p1` parses to `(4200, 1,
1600000000)`, which is not the caller's fingerprint; `/proc/4200` exists with
that modification time and the PPID of 4200 is still 1; yet `check_account`
returns 0 (usable), because `getParentIDs` fails (PID 1 has no UID entry in
the snapshot) and `check_account` takes that failure as a stale lease. -/
theorem C3_counterexample_parent_not_in_snapshot :
    scanf_hash ((demo_init_child.files "p1").getD []) = ⟨3, 4200, 1, 1600000000⟩ ∧
      getHash 10 demo_env demo_env.getpid = some (some (fmt_hash 4242 4200 1700000000)) ∧
      demo_env.proc.stat 4200 = StatResult.ok 1600000000 ∧
      (demo_env.proc.status 4200).map (fun i => i.ppid) = some 1 ∧
      getParentIDs demo_env 4200 = none ∧
      Anonymous.check_account 10 demo_env demo_init_child 1001 "p1" =
        some (0, some (fmt_hash 4242 4200 1700000000)) := by
  decide

/-- C3, amended: when the lock file parses to a fingerprint `(pid, ppid, ts)`
different from the caller's and `/proc/<pid>` exists with modification time
`ts`: if `getParentIDs(pid)` succeeds and reports the stored `ppid`, then
`check_account` returns 1, and `select_account` closes the descriptor and goes
on to the next uid (`uid < INT_MAX`: there is one); if `getParentIDs(pid)`
fails, `check_account` returns 0. -/
theorem C3_live_distinct_lease_skipped (fuel : Nat) (e : Env) (s : State) (uid : Int)
    (account : passwd) (new_hash : List Char)
    (pid ppid ts mypid myppid mytimestamp : Int)
    (huid : uid < INT_MAX)
    (hacct : e.getpwuid uid = some account)
    (hhash : getHash fuel e e.getpid = some (some new_hash))
    (hdisk : scanf_hash ((s.files account.pw_name).getD []) = ⟨3, pid, ppid, ts⟩)
    (hmine : scanf_hash new_hash = ⟨3, mypid, myppid, mytimestamp⟩)
    (hne : ¬ (mypid = pid ∧ myppid = ppid ∧ mytimestamp = ts))
    (hstat : e.proc.stat pid = StatResult.ok ts) :
    (∀ parent_uid parent_gid, getParentIDs e pid = some (ppid, parent_uid, parent_gid) →
      Anonymous.check_account fuel e s uid account.pw_name = some (1, some new_hash) ∧
      ∃ s1, Anonymous.select_body fuel e s uid = some (Step.continue_, s1) ∧
        (∀ n, Anonymous.select_loop fuel e (n + 1) uid s =
          Anonymous.select_loop fuel e n (uid + 1) s1) ∧
        s1.creds = s.creds ∧ (∀ x ∈ s1.locks, x ∈ s.locks) ∧ files_extended s s1) ∧
    (getParentIDs e pid = none →
      Anonymous.check_account fuel e s uid account.pw_name = some (0, some new_hash)) := by
  have hd := check_account_distinct fuel e s uid account.pw_name new_hash pid ppid ts mypid
    myppid mytimestamp hhash hdisk hmine hne
  rw [hstat] at hd
  constructor
  · intro parent_uid parent_gid hparent
    have hchk : Anonymous.check_account fuel e s uid account.pw_name =
        some (1, some new_hash) := by
      rw [hd, hparent]
      simp
    refine ⟨hchk, ?_⟩
    obtain ⟨s1, hb, hcr, hlk, hext⟩ :=
      Anonymous.select_body_skips fuel e s uid account (some new_hash) hacct hchk
    exact ⟨s1, hb, fun n => by simp only [Anonymous.select_loop, hb, if_neg (ne_of_lt huid)],
      hcr, hlk, hext⟩
  · intro hparent
    rw [hd, hparent]
    simp

/-- C3 (amended) at the worked example: `p1` leased to the live job 7000,
whose parent 6900 is known to the snapshot, is skipped; `p1` naming the live
process 4200, whose parent 1 is not in the snapshot, is reused. -/
theorem C3_live_distinct_lease_skipped_witness :
    (Anonymous.check_account 10 demo_env demo_live 1001 "p1" =
        some (1, some (fmt_hash 4242 4200 1700000000)) ∧
      ∃ s1, Anonymous.select_body 10 demo_env demo_live 1001 = some (Step.continue_, s1) ∧
        (∀ n, Anonymous.select_loop 10 demo_env (n + 1) 1001 demo_live =
          Anonymous.select_loop 10 demo_env n (1001 + 1) s1) ∧
        s1.creds = demo_live.creds ∧ (∀ x ∈ s1.locks, x ∈ demo_live.locks) ∧
        files_extended demo_live s1) ∧
    Anonymous.check_account 10 demo_env demo_init_child 1001 "p1" =
      some (0, some (fmt_hash 4242 4200 1700000000)) :=
  ⟨(C3_live_distinct_lease_skipped 10 demo_env demo_live 1001 ⟨"p1", 1001, 2001⟩
      (fmt_hash 4242 4200 1700000000) 7000 6900 1700000500 4242 4200 1700000000
      (by decide) (by decide) (by decide) (by decide) (by decide) (by decide)
      (by decide)).1 0 0 (by decide),
    (C3_live_distinct_lease_skipped 10 demo_env demo_init_child 1001 ⟨"p1", 1001, 2001⟩
      (fmt_hash 4242 4200 1700000000) 4200 1 1600000000 4242 4200 1700000000
      (by decide) (by decide) (by decide) (by decide) (by decide) (by decide)
      (by decide)).2 (by decide)⟩

/-- C4: when the lock file parses to a fingerprint `(pid, ppid, ts)` different
from the caller's and `/proc/<pid>` does not exist, or exists with a
modification time other than `ts`, `check_account` returns 0.  The slot is
then acceptable, and when it is the first acceptable one (no fatal candidate
before it), the lock directory passes its checks, the truncation succeeds and
the writes complete, `plugin_run` succeeds and leaves the caller's fingerprint
as the content of the lock file (`max_uid < INT_MAX`: the loop counter does
not overflow). -/
theorem C4_stale_lease_reused (fuel : Nat) (e : Env) (s : State) (uid : Int)
    (account : passwd) (new_hash : List Char) (pid ppid ts mypid myppid mytimestamp : Int)
    (hacct : e.getpwuid uid = some account)
    (hhash : getHash fuel e e.getpid = some (some new_hash))
    (hdisk : scanf_hash ((s.files account.pw_name).getD []) = ⟨3, pid, ppid, ts⟩)
    (hmine : scanf_hash new_hash = ⟨3, mypid, myppid, mytimestamp⟩)
    (hne : ¬ (mypid = pid ∧ myppid = ppid ∧ mytimestamp = ts))
    (hstale : e.proc.stat pid = StatResult.enoent ∨
      ∃ st_mtime, e.proc.stat pid = StatResult.ok st_mtime ∧ st_mtime ≠ ts) :
    Anonymous.check_account fuel e s uid account.pw_name = some (0, some new_hash) ∧
      (lock_file_opens e s account.pw_name = true → e.flock_error account.pw_name = none →
        Anonymous.usable fuel e s uid = true ∧
        ((open_lockdir e s).1 ≠ -1 → e.min_uid ≤ uid → uid ≤ e.max_uid →
          e.max_uid < INT_MAX →
          (∀ v, e.min_uid ≤ v → v < uid →
            Anonymous.usable fuel e s v = false ∧ Anonymous.fatal fuel e s v = false) →
          e.ftruncate_ok account.pw_name = true →
          write_outcome e.write_script new_hash.length = some true →
          ∃ s1, Anonymous.plugin_run fuel e s = some (ModResult.LCMAPS_MOD_SUCCESS, s1) ∧
            s1.files account.pw_name = some new_hash)) := by
  have hchk : Anonymous.check_account fuel e s uid account.pw_name = some (0, some new_hash) := by
    rw [check_account_distinct fuel e s uid account.pw_name new_hash pid ppid ts mypid myppid
      mytimestamp hhash hdisk hmine hne]
    rcases hstale with h | ⟨m, h, hm⟩
    · rw [h]
    · rw [h]
      simp [Ne.symm hm]
  refine ⟨hchk, ?_⟩
  intro hopen hflock
  have husable : Anonymous.usable fuel e s uid = true := by
    simp [Anonymous.usable, hacct, hopen, hflock, hchk]
  refine ⟨husable, ?_⟩
  intro hdir h1 h2 hmax hbefore htr hw
  obtain ⟨s1, hrun, hfile, _⟩ := Anonymous.plugin_run_success_of fuel e s uid account new_hash
    hmax hdir h1 h2 hacct hhash husable hbefore htr hw
  exact ⟨s1, hrun, hfile⟩

/-- C4 at the worked example: the lock file of `p1` names process 9999, which
is gone; the slot is taken and rewritten. -/
theorem C4_stale_lease_reused_witness :
    Anonymous.check_account 10 demo_env demo_stale 1001 "p1" =
        some (0, some (fmt_hash 4242 4200 1700000000)) ∧
      Anonymous.usable 10 demo_env demo_stale 1001 = true ∧
      ∃ s1, Anonymous.plugin_run 10 demo_env demo_stale =
          some (ModResult.LCMAPS_MOD_SUCCESS, s1) ∧
        s1.files "p1" = some (fmt_hash 4242 4200 1700000000) :=
  have h := C4_stale_lease_reused 10 demo_env demo_stale 1001 ⟨"p1", 1001, 2001⟩
    (fmt_hash 4242 4200 1700000000) 9999 9000 1699000000 4242 4200 1700000000
    (by decide) (by decide) (by decide) (by decide) (by decide) (Or.inl (by decide))
  ⟨h.1, (h.2 (by decide) (by decide)).1,
    (h.2 (by decide) (by decide)).2 (by decide) (by decide) (by decide) (by decide)
      (by
        intro v h1 h2
        have : demo_env.min_uid = 1001 := rfl
        omega)
      (by decide) (by decide)⟩

/-- C5 fails on the anonymous plugin: when `ftruncate` fails, or when `write`
fails, after `p1` was selected, `plugin_run` returns `LCMAPS_MOD_FAIL`
although the UID and the primary GID of `p1` have been registered with
`addCredentialData`; the lock itself is dropped by the `close`. -/
theorem C5_failure_after_registration :
    (Anonymous.plugin_run 10 demo_env_truncate_fails demo_empty).map
        (fun r => (r.1, r.2.creds, r.2.locks)) =
      some (ModResult.LCMAPS_MOD_FAIL,
        [(CredKind.UID, 1001), (CredKind.PRI_GID, 2001)], []) ∧
    (Anonymous.plugin_run 10 demo_env_write_fails demo_empty).map
        (fun r => (r.1, r.2.creds, r.2.locks, r.2.files "p1")) =
      some (ModResult.LCMAPS_MOD_FAIL,
        [(CredKind.UID, 1001), (CredKind.PRI_GID, 2001)], [], none) :=
  ⟨rfl, rfl⟩

/-- A failing `plugin_run` of the pool plugin registers no credential and
takes no lock. -/
theorem Pool.plugin_run_fail_clean (e : Env) (s s1 : State)
    (hrun : Pool.plugin_run e s = some (ModResult.LCMAPS_MOD_FAIL, s1)) :
    s1.creds = s.creds ∧ s1.locks = s.locks ∧ s1.exported = s.exported := by
  obtain ⟨hf0, hl0, hc0, hx0, _⟩ := open_lockdir_frame e s
  by_cases hdir : (open_lockdir e s).1 = -1
  · simp only [Pool.plugin_run, hdir, if_true, Option.some.injEq, Prod.mk.injEq,
      true_and] at hrun
    subst hrun
    exact ⟨hc0, hl0, hx0⟩
  · rcases Pool.pool_select_loop_cases e (e.max_uid + 1 - e.min_uid).toNat e.min_uid
        (open_lockdir e s).2 with
      ⟨hl, _⟩ | ⟨sm, hl, hcr, hex, hlk, _, _⟩ | ⟨u, account, sm, _, _, _, hl, _⟩
    · have hsel : Pool.select_account e (open_lockdir e s).2 = none := hl
      simp [Pool.plugin_run, hdir, hsel] at hrun
    · have hsel : Pool.select_account e (open_lockdir e s).2 = some (none, sm) := hl
      simp only [Pool.plugin_run, hdir, if_false, hsel, Option.some.injEq, Prod.mk.injEq,
        true_and] at hrun
      subst hrun
      exact ⟨by simp [hcr, hc0], by simp [hlk, hl0], by simp [hex, hx0]⟩
    · have hsel : Pool.select_account e (open_lockdir e s).2 = some (some _, sm) := hl
      simp [Pool.plugin_run, hdir, hsel] at hrun

/-- A failing `plugin_run` of the anonymous plugin keeps no lock. -/
theorem Anonymous.plugin_run_fail_no_lock (fuel : Nat) (e : Env) (s s1 : State)
    (hrun : Anonymous.plugin_run fuel e s = some (ModResult.LCMAPS_MOD_FAIL, s1)) :
    ∀ x ∈ s1.locks, x ∈ s.locks := by
  obtain ⟨hf0, hl0, hc0, hx0, _⟩ := open_lockdir_frame e s
  by_cases hdir : (open_lockdir e s).1 = -1
  · simp only [Anonymous.plugin_run, hdir, if_true, Option.some.injEq, Prod.mk.injEq,
      true_and] at hrun
    subst hrun
    intro x hx
    rw [hl0] at hx
    exact hx
  · rcases Anonymous.select_loop_cases fuel e (e.max_uid + 1 - e.min_uid).toNat e.min_uid
        (open_lockdir e s).2 with
      ⟨hl, _⟩ | ⟨sm, hl, _, _, hlk, _⟩ |
      ⟨u, account, nh, sm, _, _, _, _, hl, _, _, _, _, _, hlk, _, _⟩
    · have hsel : Anonymous.select_account fuel e (open_lockdir e s).2 = none := hl
      simp [Anonymous.plugin_run, hdir, hsel] at hrun
    · have hsel : Anonymous.select_account fuel e (open_lockdir e s).2 = some (none, sm) := hl
      simp only [Anonymous.plugin_run, hdir, if_false, hsel, Option.some.injEq, Prod.mk.injEq,
        true_and] at hrun
      subst hrun
      intro x hx
      have := hlk x hx
      rw [hl0] at this
      exact this
    · have hsel : Anonymous.select_account fuel e (open_lockdir e s).2 = some (some _, sm) := hl
      have hrun2 := Anonymous.plugin_run_selected fuel e s _ sm nh hdir hsel rfl
      rw [hrun] at hrun2
      simp only at hrun2
      have hclosed : ∀ (s2 : State), s2.locks = sm.locks →
          ∀ x ∈ ((s2.close account.pw_name).log Call.close_dir).locks, x ∈ s.locks := by
        intro s2 h2 x hx
        simp only [State.log_locks, State.close_locks, List.mem_filter,
          decide_eq_true_eq] at hx
        rw [h2] at hx
        rcases hlk x hx.1 with h | h
        · exact absurd h hx.2
        · rw [hl0] at h
          exact h
      by_cases htr : e.ftruncate_ok account.pw_name = false
      · simp only [htr, if_true, Option.some.injEq, Prod.mk.injEq, true_and] at hrun2
        subst hrun2
        exact hclosed _ rfl
      · have htr2 : e.ftruncate_ok account.pw_name = true := by simpa using htr
        simp only [htr2, Bool.true_eq_false, if_false] at hrun2
        rcases write_loop_spec account.pw_name e.write_script nh
            (((((sm.addCredentialData CredKind.UID account.pw_uid).addCredentialData
              CredKind.PRI_GID account.pw_gid).log (Call.ftruncate account.pw_name)).set_file
              account.pw_name (some [])).log (Call.lseek account.pw_name)) with
          ⟨_, hw⟩ | ⟨ok, s2, _, hw, _, hlk2, _⟩
        · rw [hw] at hrun2
          cases hrun2
        · rw [hw] at hrun2
          cases ok with
          | true => simp at hrun2
          | false =>
            simp only [Option.some.injEq, Prod.mk.injEq, true_and] at hrun2
            subst hrun2
            exact hclosed _ (by simp [hlk2])

/-- C6 as stated fails: in the cold pool `plugin_run` succeeds, having locked
`p1` (`flock`) and written the fingerprint, but its last calls are
`close(new_fd)` and `close(dir_fd)`: no lock is held when it returns. -/
theorem C6_counterexample_lock_closed :
    (Anonymous.plugin_run 10 demo_env demo_empty).map
        (fun r => (r.1, r.2.locks, r.2.files "p1", r.2.trace)) =
      some (ModResult.LCMAPS_MOD_SUCCESS, [], some (fmt_hash 4242 4200 1700000000),
        [Call.opendir, Call.dirfd, Call.fstat, Call.getpwuid 1001, Call.openat_excl "p1",
          Call.flock "p1", Call.addCredentialData CredKind.UID 1001,
          Call.addCredentialData CredKind.PRI_GID 2001, Call.ftruncate "p1", Call.lseek "p1",
          Call.write "p1", Call.write "p1", Call.write "p1", Call.close "p1",
          Call.close_dir]) := by
  rfl

/-- C7 at the worked example: the directory `root:root 0755` is accepted,
the directory of mode `0777` is refused. -/
theorem C7_open_lockdir_iff_witness :
    (open_lockdir demo_env demo_empty).1 = 3 ∧ (open_lockdir demo_env_0777 demo_empty).1 = -1 :=
  ⟨(C7_open_lockdir_iff demo_env demo_empty ⟨0, 0, 0o755⟩ rfl (by decide) rfl).2.1 (by decide),
    (C7_open_lockdir_iff demo_env_0777 demo_empty ⟨0, 0, 0o777⟩ rfl (by decide) rfl).2.2
      (by decide)⟩

/-- C8 at the worked example (scenario S6): lock directory of mode `0777`. -/
theorem C8_lockdir_violation_no_effect_witness :
    (∃ s1, Anonymous.plugin_run 10 demo_env_0777 demo_empty =
          some (ModResult.LCMAPS_MOD_FAIL, s1) ∧
        s1.files = demo_empty.files ∧ s1.locks = demo_empty.locks ∧
        s1.creds = demo_empty.creds ∧
        ∃ t, s1.trace = demo_empty.trace ++ t ∧ ∀ c ∈ t, c ∈ lockdir_calls) ∧
      (∃ s2, Pool.plugin_run demo_env_0777 demo_empty = some (ModResult.LCMAPS_MOD_FAIL, s2) ∧
        s2.files = demo_empty.files ∧ s2.locks = demo_empty.locks ∧
        s2.creds = demo_empty.creds ∧ s2.exported = demo_empty.exported ∧
        ∃ t, s2.trace = demo_empty.trace ++ t ∧ ∀ c ∈ t, c ∈ lockdir_calls) :=
  C8_lockdir_violation_no_effect 10 demo_env_0777 demo_empty ⟨0, 0, 0o777⟩ rfl (by decide)

/-- Verdict of `check_account` on a lock file that holds the text of the caller's own
fingerprint. -/
theorem check_account_same (fuel : Nat) (e : Env) (s : State) (uid : Int) (fd : String)
    (pid ppid ts : Int) (hpid : is_int pid) (hppid : is_int ppid) (hts : is_long ts)
    (hcaller : getHash fuel e e.getpid = some (some (fmt_hash pid ppid ts)))
    (hfile : s.files fd = some (fmt_hash pid ppid ts)) :
    Anonymous.check_account fuel e s uid fd = some (0, some (fmt_hash pid ppid ts)) := by
  unfold Anonymous.check_account
  simp [hcaller, hfile, scanf_hash_fmt_hash pid ppid ts hpid hppid hts]

/-- C9: when the lock file holds the text of a fingerprint and the caller's
fingerprint has the same three components, `check_account` accepts the slot
(returns 0); every successful `plugin_run` leaves the bytes of that lock file
as they were; and when the slot is the first acceptable one, the lock
directory passes its checks, the truncation succeeds and the writes complete
(and `max_uid < INT_MAX`, so that the loop counter does not overflow),
`plugin_run` does succeed with the bytes unchanged. -/
theorem C9_reentry_no_net_change (fuel : Nat) (e : Env) (s : State) (uid : Int) (fd : String)
    (pid ppid ts : Int) (hpid : is_int pid) (hppid : is_int ppid) (hts : is_long ts)
    (hcaller : getHash fuel e e.getpid = some (some (fmt_hash pid ppid ts)))
    (hfile : s.files fd = some (fmt_hash pid ppid ts)) :
    Anonymous.check_account fuel e s uid fd = some (0, some (fmt_hash pid ppid ts)) ∧
      (∀ s1, Anonymous.plugin_run fuel e s = some (ModResult.LCMAPS_MOD_SUCCESS, s1) →
        s1.files fd = s.files fd) ∧
      (∀ account, e.getpwuid uid = some account → account.pw_name = fd →
        lock_file_opens e s fd = true → e.flock_error fd = none →
        (open_lockdir e s).1 ≠ -1 → e.min_uid ≤ uid → uid ≤ e.max_uid →
        e.max_uid < INT_MAX →
        (∀ v, e.min_uid ≤ v → v < uid →
          Anonymous.usable fuel e s v = false ∧ Anonymous.fatal fuel e s v = false) →
        e.ftruncate_ok fd = true →
        write_outcome e.write_script (fmt_hash pid ppid ts).length = some true →
        ∃ s1, Anonymous.plugin_run fuel e s = some (ModResult.LCMAPS_MOD_SUCCESS, s1) ∧
          s1.files fd = s.files fd) := by
  have hchk := check_account_same fuel e s uid fd pid ppid ts hpid hppid hts hcaller hfile
  refine ⟨hchk, ?_, ?_⟩
  · intro s1 hrun
    obtain ⟨u, account, nh, sm, _, _, _, _, hg, _, _, _, _, _, _, _, _, _, hchosen, hother, hext,
      _⟩ := Anonymous.plugin_run_success_inv fuel e s s1 hrun
    rw [hcaller] at hg
    simp only [Option.some.injEq] at hg
    subst hg
    by_cases hfd : fd = account.pw_name
    · rw [hfd, hchosen, ← hfd, hfile]
    · rw [hother fd hfd]
      rcases hext fd with h | ⟨h, _⟩
      · exact h
      · rw [hfile] at h
        cases h
  · intro account hacct hname hopen hflock hdir h1 h2 hmax hbefore htr hw
    subst hname
    have husable : Anonymous.usable fuel e s uid = true := by
      simp [Anonymous.usable, hacct, hopen, hflock, hchk]
    obtain ⟨s1, hrun, hf, _⟩ := Anonymous.plugin_run_success_of fuel e s uid account
      (fmt_hash pid ppid ts) hmax hdir h1 h2 hacct hcaller husable hbefore htr hw
    exact ⟨s1, hrun, by rw [hf, hfile]⟩

/-- C9 at the worked example (scenario S2): `p1` already holds the caller's
fingerprint `4242:4200:1700000000`. -/
theorem C9_reentry_no_net_change_witness :
    Anonymous.check_account 10 demo_env demo_reentry 1001 "p1" =
        some (0, some (fmt_hash 4242 4200 1700000000)) ∧
      ∃ s1, Anonymous.plugin_run 10 demo_env demo_reentry =
          some (ModResult.LCMAPS_MOD_SUCCESS, s1) ∧
        s1.files "p1" = demo_reentry.files "p1" :=
  have h := C9_reentry_no_net_change 10 demo_env demo_reentry 1001 "p1" 4242 4200 1700000000
    (by decide) (by decide) (by decide) (by decide) (by decide)
  ⟨h.1, h.2.2 ⟨"p1", 1001, 2001⟩ (by decide) rfl (by decide) (by decide) (by decide)
    (by decide) (by decide) (by decide)
    (by
      intro v h1 h2
      have : demo_env.min_uid = 1001 := rfl
      omega)
    (by decide) (by decide)⟩

/-- C10: for every `int` pid and ppid and every `long` timestamp, reading the
text that `create_hash` formats (`"%d:%d:%ld"`) with the `scanf` of
`check_account` converts three fields and yields the same triple, and
formatting the triple read gives the same text. -/
theorem C10_fingerprint_text_roundtrip (pid ppid timestamp : Int)
    (hpid : is_int pid) (hppid : is_int ppid) (hts : is_long timestamp) :
    scanf_hash (fmt_hash pid ppid timestamp) = ⟨3, pid, ppid, timestamp⟩ ∧
      fmt_hash (scanf_hash (fmt_hash pid ppid timestamp)).pid
          (scanf_hash (fmt_hash pid ppid timestamp)).ppid
          (scanf_hash (fmt_hash pid ppid timestamp)).timestamp =
        fmt_hash pid ppid timestamp := by
  have h := scanf_hash_fmt_hash pid ppid timestamp hpid hppid hts
  refine ⟨h, ?_⟩
  rw [h]

/-- C10 at the fingerprint of scenario S1, and at negative components. -/
theorem C10_fingerprint_text_roundtrip_witness :
    (scanf_hash (fmt_hash 4242 4200 1700000000) = ⟨3, 4242, 4200, 1700000000⟩ ∧
      fmt_hash (scanf_hash (fmt_hash 4242 4200 1700000000)).pid
          (scanf_hash (fmt_hash 4242 4200 1700000000)).ppid
          (scanf_hash (fmt_hash 4242 4200 1700000000)).timestamp =
        fmt_hash 4242 4200 1700000000) ∧
      scanf_hash (fmt_hash (-2147483648) 0 (-1)) = ⟨3, -2147483648, 0, -1⟩ :=
  ⟨C10_fingerprint_text_roundtrip 4242 4200 1700000000 (by decide) (by decide) (by decide),
    (C10_fingerprint_text_roundtrip (-2147483648) 0 (-1) (by decide) (by decide)
      (by decide)).1⟩

/-! ## More on `makeAncestry`: shape of the list, bound on the walk -/

/-- How a returning `makeAncestry` call was computed. -/
theorem makeAncestry_inv (ah : AncestryHash) (fuel : Nat) (pid rc : Int) (a : List Int)
    (h : ah.makeAncestry fuel pid = some (rc, a)) :
    (pid = 1 ∧ rc = 0 ∧ a = [1]) ∨
    (pid ≠ 1 ∧ map_find ah.reverse_parentage_mapping pid = none ∧ rc = 1 ∧ a = [pid]) ∨
    (pid ≠ 1 ∧ ∃ f ppid rest, fuel = f + 1 ∧
      map_find ah.reverse_parentage_mapping pid = some ppid ∧
      ah.makeAncestry f ppid = some (rc, rest) ∧ a = pid :: rest) := by
  by_cases hp : pid = 1
  · subst hp
    rw [makeAncestry_one] at h
    simp only [Option.some.injEq, Prod.mk.injEq] at h
    exact Or.inl ⟨rfl, h.1.symm, h.2.symm⟩
  · cases fuel with
    | zero => rw [makeAncestry_zero ah pid hp] at h; cases h
    | succ f =>
      rw [makeAncestry_succ ah _ pid hp] at h
      cases hl : map_find ah.reverse_parentage_mapping pid with
      | none =>
        simp only [hl, Option.some.injEq, Prod.mk.injEq] at h
        exact Or.inr (Or.inl ⟨hp, rfl, h.1.symm, h.2.symm⟩)
      | some pp =>
        simp only [hl] at h
        cases hm : ah.makeAncestry f pp with
        | none => simp [hm] at h
        | some q =>
          obtain ⟨rc2, l⟩ := q
          simp only [hm, Option.some.injEq, Prod.mk.injEq] at h
          obtain ⟨h1, h2⟩ := h
          subst h1 h2
          exact Or.inr (Or.inr ⟨hp, f, pp, l, rfl, rfl, hm, rfl⟩)

/-- More fuel does not change the result of a returning `makeAncestry`. -/
theorem makeAncestry_mono (ah : AncestryHash) (f : Nat) :
    ∀ (pid : Int) (r : Int × List Int), ah.makeAncestry f pid = some r →
      ∀ g, f ≤ g → ah.makeAncestry g pid = some r := by
  induction f with
  | zero =>
    intro pid r h g _
    by_cases hp : pid = 1
    · subst hp
      rw [makeAncestry_one] at h ⊢
      exact h
    · rw [makeAncestry_zero ah pid hp] at h
      cases h
  | succ f ih =>
    intro pid r h g hg
    by_cases hp : pid = 1
    · subst hp
      rw [makeAncestry_one] at h ⊢
      exact h
    · obtain ⟨g, rfl⟩ : ∃ g2, g = g2 + 1 := ⟨g - 1, by omega⟩
      rw [makeAncestry_succ ah _ pid hp] at h ⊢
      cases hl : map_find ah.reverse_parentage_mapping pid with
      | none => simpa [hl] using h
      | some pp =>
        simp only [hl] at h ⊢
        cases hm : ah.makeAncestry f pp with
        | none => simp [hm] at h
        | some q =>
          rw [ih pp q hm g (by omega)]
          simpa [hm] using h

/-- The list built by a returning `makeAncestry`: it starts with the subject
pid, follows the parent links, and ends with 1 on success and with a pid
without parent entry on error. -/
theorem makeAncestry_shape (ah : AncestryHash) (fuel : Nat) :
    ∀ (pid rc : Int) (a : List Int), ah.makeAncestry fuel pid = some (rc, a) →
      a.head? = some pid ∧ ah.parent_chain a ∧
      ((rc = 0 ∧ a.getLast? = some 1) ∨
        (rc = 1 ∧ ∃ last, a.getLast? = some last ∧ last ≠ 1 ∧
          map_find ah.reverse_parentage_mapping last = none)) ∧
      (∀ x ∈ a.dropLast, x ≠ 1 ∧ map_find ah.reverse_parentage_mapping x ≠ none) := by
  induction fuel with
  | zero =>
    intro pid rc a h
    rcases makeAncestry_inv ah 0 pid rc a h with ⟨hp, hrc, ha⟩ | ⟨hp, _, _, _⟩ |
      ⟨_, f, _, _, hf, _⟩
    · subst hp hrc ha
      refine ⟨rfl, ?_, Or.inl ⟨rfl, rfl⟩, by simp⟩
      intro i hi
      simp at hi
    · rw [makeAncestry_zero ah pid hp] at h
      cases h
    · omega
  | succ fuel ih =>
    intro pid rc a h
    rcases makeAncestry_inv ah _ pid rc a h with ⟨hp, hrc, ha⟩ | ⟨hp, hl, hrc, ha⟩ |
      ⟨hp, f, pp, rest, hf, hl, hm, ha⟩
    · subst hp hrc ha
      refine ⟨rfl, ?_, Or.inl ⟨rfl, rfl⟩, by simp⟩
      intro i hi
      simp at hi
    · subst hrc ha
      refine ⟨rfl, ?_, Or.inr ⟨rfl, pid, rfl, hp, hl⟩, by simp⟩
      intro i hi
      simp at hi
    · have hf2 : f = fuel := by omega
      subst hf2
      subst ha
      obtain ⟨hhead, hchain, hlast, hkeys⟩ := ih pp rc rest hm
      have hne : rest ≠ [] := by
        intro hnil
        rw [hnil] at hhead
        cases hhead
      obtain ⟨r0, rs, hrest⟩ : ∃ r0 rs, rest = r0 :: rs := by
        cases rest with
        | nil => exact absurd rfl hne
        | cons r0 rs => exact ⟨r0, rs, rfl⟩
      subst hrest
      simp only [List.head?_cons, Option.some.injEq] at hhead
      subst hhead
      refine ⟨rfl, ?_, ?_, ?_⟩
      · intro i hi
        cases i with
        | zero => simpa using hl
        | succ i =>
          have := hchain i (by simp only [List.length_cons] at hi ⊢; omega)
          simpa using this
      · simpa [List.getLast?_cons_cons] using hlast
      · intro x hx
        simp only [List.dropLast_cons₂, List.mem_cons] at hx
        rcases hx with hx | hx
        · subst hx
          exact ⟨hp, by rw [hl]; simp⟩
        · exact hkeys x hx

/-- Every pid of a list built by `makeAncestry` has itself such a list with
the same return code, which is no longer. -/
theorem makeAncestry_suffix_rc (ah : AncestryHash) (fuel : Nat) :
    ∀ (pid rc : Int) (a : List Int), ah.makeAncestry fuel pid = some (rc, a) →
      ∀ x ∈ a, ∃ f l, ah.makeAncestry f x = some (rc, l) ∧ l.length ≤ a.length := by
  induction fuel with
  | zero =>
    intro pid rc a h x hx
    rcases makeAncestry_inv ah 0 pid rc a h with ⟨hp, _, ha⟩ | ⟨hp, _, _, _⟩ | ⟨_, f, _, _, hf, _⟩
    · subst ha
      simp only [List.mem_singleton] at hx
      subst hx
      exact ⟨0, [1], by rw [hp] at h; exact h, le_refl _⟩
    · rw [makeAncestry_zero ah pid hp] at h
      cases h
    · omega
  | succ fuel ih =>
    intro pid rc a h x hx
    rcases makeAncestry_inv ah _ pid rc a h with ⟨hp, _, ha⟩ | ⟨_, _, _, ha⟩ |
      ⟨_, f, pp, rest, hf, _, hm, ha⟩
    · subst ha
      simp only [List.mem_singleton] at hx
      subst hx
      exact ⟨fuel + 1, [1], by rw [hp] at h; exact h, le_refl _⟩
    · subst ha
      simp only [List.mem_singleton] at hx
      rw [hx]
      exact ⟨fuel + 1, [pid], h, le_refl _⟩
    · have hf2 : f = fuel := by omega
      subst hf2
      subst ha
      rcases List.mem_cons.1 hx with hxp | hxl
      · subst hxp
        exact ⟨f + 1, x :: rest, h, le_refl _⟩
      · obtain ⟨g, l, hg, hlen⟩ := ih pp rc rest hm x hxl
        exact ⟨g, l, hg, by simp only [List.length_cons]; omega⟩

/-- A list built by `makeAncestry` has no repeated pid. -/
theorem makeAncestry_nodup_rc (ah : AncestryHash) (fuel : Nat) :
    ∀ (pid rc : Int) (a : List Int), ah.makeAncestry fuel pid = some (rc, a) → a.Nodup := by
  induction fuel with
  | zero =>
    intro pid rc a h
    rcases makeAncestry_inv ah 0 pid rc a h with ⟨_, _, ha⟩ | ⟨hp, _, _, _⟩ | ⟨_, f, _, _, hf, _⟩
    · subst ha; simp
    · rw [makeAncestry_zero ah pid hp] at h
      cases h
    · omega
  | succ fuel ih =>
    intro pid rc a h
    rcases makeAncestry_inv ah _ pid rc a h with ⟨_, _, ha⟩ | ⟨_, _, _, ha⟩ |
      ⟨_, f, pp, rest, hf, _, hm, ha⟩
    · subst ha; simp
    · subst ha; simp
    · have hf2 : f = fuel := by omega
      subst hf2
      subst ha
      refine List.nodup_cons.2 ⟨?_, ih pp rc rest hm⟩
      intro hmem
      obtain ⟨g, l, hg, hlen⟩ := makeAncestry_suffix_rc ah f pp rc rest hm pid hmem
      have := makeAncestry_fuel_indep ah g (f + 1) pid _ _ hg h
      simp only [Prod.mk.injEq, true_and] at this
      subst this
      simp only [List.length_cons] at hlen
      omega

theorem map_find_mem_keys (m : List (Int × Int)) (x : Int) (h : map_find m x ≠ none) :
    x ∈ m.map Prod.fst := by
  induction m with
  | nil => simp [map_find] at h
  | cons e m ih =>
    obtain ⟨k, v⟩ := e
    by_cases hk : x = k
    · simp [hk]
    · have hne : (x == k) = false := by simpa using hk
      simp only [map_find, List.lookup, hne] at h
      simp only [List.map_cons, List.mem_cons]
      exact Or.inr (ih h)

/-- A list built by `makeAncestry` has at most one element more than the
snapshot has entries. -/
theorem makeAncestry_length_le (ah : AncestryHash) (fuel : Nat) (pid rc : Int) (a : List Int)
    (h : ah.makeAncestry fuel pid = some (rc, a)) : a.length ≤ ah.size + 1 := by
  have hnodup := makeAncestry_nodup_rc ah fuel pid rc a h
  obtain ⟨_, _, _, hkeys⟩ := makeAncestry_shape ah fuel pid rc a h
  have hnd : a.dropLast.Nodup := List.Nodup.sublist (List.dropLast_sublist a) hnodup
  have hsub : a.dropLast ⊆ ah.reverse_parentage_mapping.map Prod.fst := by
    intro x hx
    exact map_find_mem_keys _ x (hkeys x hx).2
  have hle := (List.Nodup.subperm hnd hsub).length_le
  simp only [List.length_dropLast, List.length_map] at hle
  unfold AncestryHash.size
  omega

/-- Fuel equal to the length of the list is enough for `makeAncestry`. -/
theorem makeAncestry_enough (ah : AncestryHash) (fuel : Nat) :
    ∀ (pid rc : Int) (a : List Int), ah.makeAncestry fuel pid = some (rc, a) →
      ah.makeAncestry a.length pid = some (rc, a) := by
  induction fuel with
  | zero =>
    intro pid rc a h
    rcases makeAncestry_inv ah 0 pid rc a h with ⟨hp, hrc, ha⟩ | ⟨hp, _, _, _⟩ |
      ⟨_, f, _, _, hf, _⟩
    · subst hp hrc ha
      exact makeAncestry_one ah _
    · rw [makeAncestry_zero ah pid hp] at h
      cases h
    · omega
  | succ fuel ih =>
    intro pid rc a h
    rcases makeAncestry_inv ah _ pid rc a h with ⟨hp, hrc, ha⟩ | ⟨hp, hl, hrc, ha⟩ |
      ⟨hp, f, pp, rest, hf, hl, hm, ha⟩
    · subst hp hrc ha
      exact makeAncestry_one ah _
    · subst hrc ha
      simp only [List.length_singleton]
      rw [makeAncestry_succ ah 0 pid hp, hl]
    · have hf2 : f = fuel := by omega
      subst hf2
      subst ha
      simp only [List.length_cons]
      rw [makeAncestry_succ ah _ pid hp, hl]
      simp only [ih pp rc rest hm]

/-- Either `makeAncestry` returns with fuel `|S| + 1`, or it returns for no
fuel at all. -/
theorem makeAncestry_bounded (ah : AncestryHash) (pid : Int) :
    (∃ rc a, ah.makeAncestry (ah.size + 1) pid = some (rc, a)) ∨
      ∀ fuel, ah.makeAncestry fuel pid = none := by
  by_cases hex : ∃ fuel, ah.makeAncestry fuel pid ≠ none
  · left
    obtain ⟨fuel, hf⟩ := hex
    cases hm : ah.makeAncestry fuel pid with
    | none => exact absurd hm hf
    | some r =>
      obtain ⟨rc, a⟩ := r
      have h1 := makeAncestry_enough ah fuel pid rc a hm
      have h2 := makeAncestry_length_le ah fuel pid rc a hm
      exact ⟨rc, a, makeAncestry_mono ah _ pid _ h1 _ h2⟩
  · right
    intro fuel
    by_contra hne
    exact hex ⟨fuel, hne⟩

theorem demo_cycle_loops (fuel : Nat) :
    demo_cycle.makeAncestry fuel 2 = none ∧ demo_cycle.makeAncestry fuel 3 = none := by
  induction fuel with
  | zero => exact ⟨rfl, rfl⟩
  | succ fuel ih =>
    constructor
    · rw [makeAncestry_succ demo_cycle fuel 2 (by decide)]
      have : map_find demo_cycle.reverse_parentage_mapping 2 = some 3 := by decide
      rw [this]
      simp only [ih.2]
    · rw [makeAncestry_succ demo_cycle fuel 3 (by decide)]
      have : map_find demo_cycle.reverse_parentage_mapping 3 = some 2 := by decide
      rw [this]
      simp only [ih.1]

theorem getParentIDs_path_short (v : Int) (h : is_int v) :
    ¬ (("/proc/".toList ++ fmt_int v ++ "/status".toList).length ≥ PATH_MAX) := by
  have := fmt_int_length v h
  have h6 : "/proc/".toList.length = 6 := by decide
  have h7 : "/status".toList.length = 7 := by decide
  rw [List.length_append, List.length_append, h6, h7]
  unfold PATH_MAX
  omega

/-- Method `getParentIDs` returns `0` exactly when the pid is in the snapshot,
the PPID read now is the snapshot's, and that parent has a uid and a gid in
the snapshot; the outputs are these three values. -/
theorem getParentIDs_some_iff (ah : AncestryHash) (proc : Proc) (pid : Int) (info : ProcInfo)
    (hint : is_int pid) (hst : proc.status pid = some info) (pp u g : Int) :
    ah.getParentIDs proc pid = some (pp, u, g) ↔
      pp = info.ppid ∧ map_find ah.reverse_parentage_mapping pid = some pp ∧
        map_find ah.process_uid_mapping pp = some u ∧
        map_find ah.process_gid_mapping pp = some g := by
  unfold AncestryHash.getParentIDs
  cases hl : map_find ah.reverse_parentage_mapping pid with
  | none => simp
  | some old =>
    simp only [if_neg (getParentIDs_path_short pid hint), hst]
    by_cases hne : info.ppid = old
    · subst hne
      simp only [ne_eq, not_true_eq_false, if_false]
      cases hu : map_find ah.process_uid_mapping info.ppid with
      | none =>
        constructor
        · intro h
          cases h
        · rintro ⟨h1, _, h3, _⟩
          rw [h1, hu] at h3
          cases h3
      | some uid =>
        cases hg : map_find ah.process_gid_mapping info.ppid with
        | none =>
          constructor
          · intro h
            cases h
          · rintro ⟨h1, _, _, h4⟩
            rw [h1, hg] at h4
            cases h4
        | some gid =>
          simp only [Option.some.injEq, Prod.mk.injEq]
          constructor
          · rintro ⟨h1, h2, h3⟩
            subst h1 h2 h3
            exact ⟨rfl, rfl, hu, hg⟩
          · rintro ⟨h1, _, h3, h4⟩
            subst h1
            rw [hu] at h3
            rw [hg] at h4
            exact ⟨rfl, Option.some.inj h3, Option.some.inj h4⟩
    · simp only [ne_eq, hne, not_false_eq_true, if_true]
      constructor
      · intro h
        cases h
      · rintro ⟨h1, h2, _⟩
        rw [h1] at h2
        exact absurd (Option.some.inj h2).symm hne

/-- Method `getParentIDs` returns `-1` for a pid without entry in the snapshot. -/
theorem getParentIDs_not_in_snapshot (ah : AncestryHash) (proc : Proc) (pid : Int)
    (h : map_find ah.reverse_parentage_mapping pid = none) :
    ah.getParentIDs proc pid = none := by
  unfold AncestryHash.getParentIDs
  rw [h]

/-- Method `getParentIDs` returns `-1` when the PPID read now is not the snapshot's. -/
theorem getParentIDs_ppid_changed (ah : AncestryHash) (proc : Proc) (pid : Int)
    (info : ProcInfo) (hst : proc.status pid = some info)
    (h : map_find ah.reverse_parentage_mapping pid ≠ some info.ppid) :
    ah.getParentIDs proc pid = none := by
  unfold AncestryHash.getParentIDs
  cases hl : map_find ah.reverse_parentage_mapping pid with
  | none => rfl
  | some old =>
    simp only
    split
    · rfl
    · rw [hst]
      simp only
      have hne : info.ppid ≠ old := by
        intro heq
        apply h
        rw [hl, heq]
      rw [if_pos hne]

/-- C14 (counterexample): in the snapshot where 2 is the parent of 3 and 3 the
parent of 2, pid 2 is in the snapshot and the walk of `makeAncestry` from 2
returns for no number of iterations. -/
theorem C14_counterexample_parent_cycle :
    map_find demo_cycle.reverse_parentage_mapping 2 = some 3 ∧
      ∀ fuel, demo_cycle.makeAncestry fuel 2 = none :=
  ⟨by decide, fun fuel => (demo_cycle_loops fuel).1⟩

/-- C19: whenever `makeAncestry` returns for a snapshot and a pid, the list it
produced is non-empty and starts with the subject pid (it is `[1]` when the
pid is 1), each successor is the snapshot PPID of its predecessor, the return
value is 0 or 1, on 0 the last element is 1, and on 1 the last element is a
pid other than 1 without parent entry in the snapshot. The same result is
returned for every bound of at least `|S| + 1` iterations. -/
theorem C19_makeAncestry_chain (ah : AncestryHash) (fuel : Nat) (pid rc : Int) (a : List Int)
    (h : ah.makeAncestry fuel pid = some (rc, a)) :
    a ≠ [] ∧ a.head? = some pid ∧ (pid = 1 → a = [1]) ∧ ah.parent_chain a ∧
      ((rc = 0 ∧ a.getLast? = some 1) ∨
        (rc = 1 ∧ ∃ last, a.getLast? = some last ∧ last ≠ 1 ∧
          map_find ah.reverse_parentage_mapping last = none)) ∧
      ∀ extra, ah.makeAncestry (ah.size + 1 + extra) pid = some (rc, a) := by
  obtain ⟨hhead, hchain, hlast, _⟩ := makeAncestry_shape ah fuel pid rc a h
  refine ⟨?_, hhead, ?_, hchain, hlast, ?_⟩
  · intro hnil
    rw [hnil] at hhead
    cases hhead
  · intro hp
    rw [hp, makeAncestry_one] at h
    simp only [Option.some.injEq, Prod.mk.injEq] at h
    exact h.2.symm
  · intro extra
    have h1 := makeAncestry_enough ah fuel pid rc a h
    have h2 := makeAncestry_length_le ah fuel pid rc a h
    exact makeAncestry_mono ah _ pid _ h1 _ (by omega)

theorem C19_makeAncestry_chain_witness :
    demo_ah.makeAncestry 10 7000 = some (0, [7000, 6900, 1]) ∧
      ([7000, 6900, 1] : List Int) ≠ [] ∧ ([7000, 6900, 1] : List Int).head? = some 7000 ∧
      ((7000 : Int) = 1 → ([7000, 6900, 1] : List Int) = [1]) ∧
      demo_ah.parent_chain [7000, 6900, 1] ∧
      (((0 : Int) = 0 ∧ ([7000, 6900, 1] : List Int).getLast? = some 1) ∨
        ((0 : Int) = 1 ∧ ∃ last, ([7000, 6900, 1] : List Int).getLast? = some last ∧ last ≠ 1 ∧
          map_find demo_ah.reverse_parentage_mapping last = none)) ∧
      ∀ extra, demo_ah.makeAncestry (demo_ah.size + 1 + extra) 7000 =
        some (0, [7000, 6900, 1]) :=
  ⟨by decide, C19_makeAncestry_chain demo_ah 10 7000 0 [7000, 6900, 1] (by decide)⟩

/-- C16: for every snapshot, pid (an `int`) and status of that pid read now,
`getParentIDs` returns `-1` whenever the pid has no entry in the snapshot or
the PPID read now differs from the snapshot's PPID of the pid; and it returns
`0` with outputs `(ppid, uid, gid)` exactly when `ppid` is the PPID read now
and the snapshot's PPID of the pid, `uid` the snapshot UID of `ppid` and `gid`
the snapshot GID of `ppid`. -/
theorem C16_getParentIDs_reverified (ah : AncestryHash) (proc : Proc) (pid : Int)
    (info : ProcInfo) (hint : is_int pid) (hst : proc.status pid = some info) :
    (map_find ah.reverse_parentage_mapping pid ≠ some info.ppid →
        ah.getParentIDs proc pid = none) ∧
      ∀ ppid uid gid, ah.getParentIDs proc pid = some (ppid, uid, gid) ↔
        ppid = info.ppid ∧ map_find ah.reverse_parentage_mapping pid = some ppid ∧
          map_find ah.process_uid_mapping ppid = some uid ∧
          map_find ah.process_gid_mapping ppid = some gid :=
  ⟨getParentIDs_ppid_changed ah proc pid info hst,
    fun ppid uid gid => getParentIDs_some_iff ah proc pid info hint hst ppid uid gid⟩

theorem C16_getParentIDs_reverified_witness :
    is_int 4300 ∧ demo_proc.status 4300 = some ⟨4242, 500, 500⟩ ∧
      demo_ah.getParentIDs demo_proc 4300 = some (4242, 500, 500) :=
  ⟨by decide, by decide,
    ((C16_getParentIDs_reverified demo_ah demo_proc 4300 ⟨4242, 500, 500⟩ (by decide)
      (by decide)).2 4242 500 500).2 ⟨rfl, by decide, by decide, by decide⟩⟩

/-! ## More on `getHash`: where a fingerprint can come from -/

/-- The ancestry of a pid of an ancestry is the rest of the list from there. -/
theorem makeAncestry_drop (ah : AncestryHash) (fuel : Nat) :
    ∀ (pid rc : Int) (a : List Int), ah.makeAncestry fuel pid = some (rc, a) →
      ∀ j, j < a.length → ah.makeAncestry fuel (a.getD j 0) = some (rc, a.drop j) := by
  induction fuel with
  | zero =>
    intro pid rc a h j hj
    rcases makeAncestry_inv ah 0 pid rc a h with ⟨hp, _, ha⟩ | ⟨hp, _, _, _⟩ |
      ⟨_, f, _, _, hf, _⟩
    · subst ha
      simp only [List.length_singleton, Nat.lt_one_iff] at hj
      subst hj
      rw [hp] at h
      exact h
    · rw [makeAncestry_zero ah pid hp] at h
      cases h
    · omega
  | succ fuel ih =>
    intro pid rc a h j hj
    rcases makeAncestry_inv ah _ pid rc a h with ⟨hp, _, ha⟩ | ⟨_, _, _, ha⟩ |
      ⟨_, f, pp, rest, hf, _, hm, ha⟩
    · subst ha
      simp only [List.length_singleton, Nat.lt_one_iff] at hj
      subst hj
      rw [hp] at h
      exact h
    · subst ha
      simp only [List.length_singleton, Nat.lt_one_iff] at hj
      subst hj
      exact h
    · have hf2 : f = fuel := by omega
      subst hf2
      subst ha
      cases j with
      | zero => exact h
      | succ j =>
        simp only [List.length_cons] at hj
        have := ih pp rc rest hm j (by omega)
        simp only [List.getD_cons_succ, List.drop_succ_cons]
        exact makeAncestry_mono ah f _ _ this _ (Nat.le_succ f)

theorem getD_drop_add {α : Type} (a : List α) (j i : Nat) (d : α) :
    (a.drop j).getD i d = a.getD (j + i) d := by
  simp only [List.getD_eq_getElem?_getD, List.getElem?_drop]

/-- Method `getHash` on an ancestry `a0 :: b`: when the first `m >= 1` pids of
`b` have the uid `u`, are re-verified, and the pid at index `m` has another
uid, the fingerprint is that of `(b[m-1], b[m])`. -/
theorem getHash_at_transition (ah : AncestryHash) (proc : Proc) (fuel : Nat) (pid a0 : Int)
    (b : List Int) (m : Nat) (u t : Int)
    (hanc : ah.makeAncestry fuel pid = some (0, a0 :: b))
    (hm : 1 ≤ m) (hmb : m < b.length) (hu : u ≠ -1)
    (hsame : ∀ j, j < m → map_find ah.process_uid_mapping (b.getD j 0) = some u ∧
      (ah.getParentIDs proc (b.getD j 0)).isSome)
    (hdiff : ∃ uk, map_find ah.process_uid_mapping (b.getD m 0) = some uk ∧ uk ≠ u)
    (hint : is_int (b.getD (m - 1) 0))
    (hstat : proc.stat (b.getD (m - 1) 0) = StatResult.ok t) :
    ah.getHash proc fuel pid = some (some (fmt_hash (b.getD (m - 1) 0) (b.getD m 0) t)) := by
  match b, hmb, hsame, hdiff, hint, hstat, hanc with
  | [], hmb, _, _, _, _, _ => simp at hmb
  | b0 :: rest, hmb, hsame, hdiff, hint, hstat, hanc =>
    have hloop := getHash_loop_transition ah proc u hu (b0 :: rest) m (-1) b0 hmb hsame
      (by
        have := (hsame 0 (by omega)).2
        simpa using this)
      hdiff (Or.inr ⟨rfl, by omega⟩)
    rw [if_neg (by omega)] at hloop
    unfold AncestryHash.getHash
    simp only [hanc, ne_eq, not_true_eq_false, if_false]
    rw [if_neg (by simp only [List.length_cons] at hmb ⊢; omega)]
    simp only [hloop]
    rw [create_hash_ok proc _ _ t hint hstat]

/-- A fingerprint returned by the loop of `getHash` comes from a pid whose uid
differs from the uid the loop compares with, or from that of an earlier pid. -/
theorem getHash_loop_found (ah : AncestryHash) (proc : Proc) :
    ∀ (l : List Int) (orig pid_it : Int) (h : List Char),
      ah.getHash_loop proc l orig pid_it = some h →
      ∃ m um, m < l.length ∧ ah.uid_of (l.getD m 0) = some um ∧
        ((orig ≠ -1 ∧ um ≠ orig) ∨
          ∃ i ui, i < m ∧ ah.uid_of (l.getD i 0) = some ui ∧ ui ≠ um) := by
  intro l
  induction l with
  | nil =>
    intro orig pid_it h hl
    simp [AncestryHash.getHash_loop] at hl
  | cons it rest ih =>
    intro orig pid_it h hl
    unfold AncestryHash.getHash_loop at hl
    cases hu : map_find ah.process_uid_mapping it with
    | none => simp [hu] at hl
    | some uid =>
      simp only [hu] at hl
      by_cases hv : (ah.getParentIDs proc pid_it).isNone = true
      · simp [hv] at hl
      · simp only [hv, Bool.false_eq_true, if_false] at hl
        by_cases ht : uid ≠ (if orig = -1 then uid else orig)
        · by_cases ho : orig = -1
          · rw [if_pos ho] at ht
            exact absurd rfl ht
          · rw [if_neg ho] at ht
            exact ⟨0, uid, by simp, by simpa [AncestryHash.uid_of] using hu, Or.inl ⟨ho, ht⟩⟩
        · rw [if_neg ht] at hl
          have heq : (if orig = -1 then uid else orig) = uid := by
            by_contra hne
            exact ht (fun h2 => hne h2.symm)
          rw [heq] at hl
          obtain ⟨m, um, hm, hum, hcase⟩ := ih uid it h hl
          refine ⟨m + 1, um, by simp only [List.length_cons]; omega,
            by simpa using hum, Or.inr ?_⟩
          rcases hcase with ⟨_, hne⟩ | ⟨i, ui, hi, hui, hne⟩
          · exact ⟨0, uid, by omega, by simpa [AncestryHash.uid_of] using hu, fun h2 => hne h2.symm⟩
          · exact ⟨i + 1, ui, by omega, by simpa using hui, hne⟩

/-- The loop of `getHash` returns NULL when every pid it inspects has the
same entry in the UID map, or none. -/
theorem getHash_loop_uniform (ah : AncestryHash) (proc : Proc) (u0 : Int) :
    ∀ (l : List Int) (orig pid_it : Int),
      (∀ x ∈ l, ah.uid_of x = some u0 ∨ ah.uid_of x = none) → (orig = -1 ∨ orig = u0) →
      ah.getHash_loop proc l orig pid_it = none := by
  intro l
  induction l with
  | nil =>
    intro orig pid_it _ _
    simp [AncestryHash.getHash_loop]
  | cons it rest ih =>
    intro orig pid_it hall ho
    unfold AncestryHash.getHash_loop
    rcases hall it (List.mem_cons_self _ _) with hit | hit
    · have hit2 : map_find ah.process_uid_mapping it = some u0 := hit
      simp only [hit2]
      have heq : (if orig = -1 then u0 else orig) = u0 := by
        by_cases h1 : orig = -1
        · rw [if_pos h1]
        · rw [if_neg h1]
          rcases ho with ho | ho
          · exact absurd ho h1
          · exact ho
      rw [heq]
      by_cases hv : (ah.getParentIDs proc pid_it).isNone = true
      · simp [hv]
      · simp only [hv, Bool.false_eq_true, if_false, ne_eq, not_true_eq_false]
        exact ih u0 it (fun x hx => hall x (List.mem_cons_of_mem _ hx)) (Or.inr rfl)
    · have hit2 : map_find ah.process_uid_mapping it = none := hit
      simp only [hit2]

theorem getHash_loop_first (ah : AncestryHash) (proc : Proc) (l : List Int)
    (orig pid_it : Int) (h : List Char)
    (hl : ah.getHash_loop proc l orig pid_it = some h) :
    ∃ u0, ah.uid_of (l.getD 0 0) = some u0 := by
  cases l with
  | nil => simp [AncestryHash.getHash_loop] at hl
  | cons it rest =>
    unfold AncestryHash.getHash_loop at hl
    cases hu : map_find ah.process_uid_mapping it with
    | none => simp [hu] at hl
    | some uid => exact ⟨uid, by simpa [AncestryHash.uid_of] using hu⟩

/-- C17: when the ancestry walk of `getHash` returns `(rc, a)`: a fingerprint
is returned only if `rc = 0`, `a` has at least 3 elements, and some index
`k >= 2` has a uid in the map that differs from the uid of `a[1]`; `getHash`
returns NULL when the walk failed or `a` has less than 3 elements, and also
when every inspected ancestor `a[1..]` that is in the UID map has the same
uid as `a[1]` (the walk then ends at PID 1 without a transition, or at an
ancestor that is not in the map). -/
theorem C17_getHash_needs_transition (ah : AncestryHash) (proc : Proc) (fuel : Nat)
    (pid rc : Int) (a : List Int) (hanc : ah.makeAncestry fuel pid = some (rc, a)) :
    (∀ h, ah.getHash proc fuel pid = some (some h) →
        rc = 0 ∧ 3 ≤ a.length ∧
        ∃ k u1 uk, 2 ≤ k ∧ k < a.length ∧ ah.uid_of (a.getD 1 0) = some u1 ∧
          ah.uid_of (a.getD k 0) = some uk ∧ uk ≠ u1) ∧
      ((rc ≠ 0 ∨ a.length < 3) → ah.getHash proc fuel pid = some none) ∧
      ((∀ j, 1 ≤ j → j < a.length → ah.uid_of (a.getD j 0) = ah.uid_of (a.getD 1 0) ∨
          ah.uid_of (a.getD j 0) = none) →
        ah.getHash proc fuel pid = some none) := by
  refine ⟨?_, ?_, ?_⟩
  · intro h hget
    unfold AncestryHash.getHash at hget
    simp only [hanc] at hget
    by_cases hrc : rc = 0
    · subst hrc
      simp only [ne_eq, not_true_eq_false, if_false] at hget
      by_cases hlen : a.length < 3
      · simp [hlen] at hget
      · rw [if_neg hlen] at hget
        match a, hget, hlen with
        | [], _, hlen => simp at hlen
        | [_], _, hlen => simp at hlen
        | a0 :: a1 :: rest, hget, hlen =>
          simp only [Option.some.injEq] at hget
          obtain ⟨u0, hu0⟩ := getHash_loop_first ah proc _ _ _ h hget
          obtain ⟨m, um, hm, hum, hcase⟩ := getHash_loop_found ah proc _ _ _ h hget
          refine ⟨rfl, by omega, ?_⟩
          rcases hcase with ⟨hne, _⟩ | ⟨i, ui, hi, hui, hne⟩
          · exact absurd rfl hne
          · simp only [List.getD_cons_zero] at hu0
            by_cases h1 : um = u0
            · subst h1
              have hi0 : i ≠ 0 := by
                intro hi0
                subst hi0
                simp only [List.getD_cons_zero] at hui
                rw [hu0] at hui
                exact hne (Option.some.inj hui).symm
              refine ⟨i + 1, um, ui, by omega, ?_, by simpa using hu0, by simpa using hui, hne⟩
              simp only [List.length_cons] at hm ⊢
              omega
            · refine ⟨m + 1, u0, um, by omega, ?_, by simpa using hu0, by simpa using hum, h1⟩
              simp only [List.length_cons] at hm ⊢
              omega
    · simp [hrc] at hget
  · intro hbad
    unfold AncestryHash.getHash
    simp only [hanc]
    by_cases hrc : rc = 0
    · rcases hbad with hb | hb
      · exact absurd hrc hb
      · simp [hrc, hb]
    · simp [hrc]
  · intro hall
    unfold AncestryHash.getHash
    simp only [hanc]
    by_cases hrc : rc ≠ 0
    · simp [hrc]
    · rw [if_neg hrc]
      by_cases hlen : a.length < 3
      · simp [hlen]
      · rw [if_neg hlen]
        match a, hall, hlen with
        | [], _, hlen => simp at hlen
        | [_], _, hlen => simp at hlen
        | a0 :: a1 :: rest, hall, hlen =>
          simp only [Option.some.injEq]
          cases hu1 : ah.uid_of a1 with
          | none =>
            unfold AncestryHash.getHash_loop
            have hu2 : map_find ah.process_uid_mapping a1 = none := hu1
            simp only [hu2]
          | some u1 =>
            refine getHash_loop_uniform ah proc u1 _ _ _ ?_ (Or.inl rfl)
            intro x hx
            obtain ⟨n, hn, hxn⟩ := List.getElem_of_mem hx
            have := hall (n + 1) (by omega) (by simp only [List.length_cons] at hn ⊢; omega)
            simp only [List.getD_cons_succ, List.getD_cons_zero] at this
            rw [List.getD_eq_getElem _ 0 hn, hxn, hu1] at this
            exact this

theorem C17_getHash_needs_transition_witness :
    demo_ah.makeAncestry 10 5000 = some (0, [5000, 4300, 4242, 4200, 1]) ∧
      demo_ah.getHash demo_proc 10 5000 = some (some (fmt_hash 4242 4200 1700000000)) ∧
      ∃ k u1 uk, 2 ≤ k ∧ k < 5 ∧ demo_ah.uid_of 4300 = some u1 ∧
        demo_ah.uid_of (([5000, 4300, 4242, 4200, 1] : List Int).getD k 0) = some uk ∧
        uk ≠ u1 :=
  ⟨by decide, by decide,
    ((C17_getHash_needs_transition demo_ah demo_proc 10 5000 0 [5000, 4300, 4242, 4200, 1]
      (by decide)).1 (fmt_hash 4242 4200 1700000000) (by decide)).2.2⟩

/-- A pass of the loop of `getHash` that returns a fingerprint later on has
looked up the uid of the pid inspected and re-verified the pid before it. -/
theorem getHash_loop_step (ah : AncestryHash) (proc : Proc) (x : Int) (l : List Int)
    (orig pid_it u : Int) (h : List Char)
    (hx : ah.uid_of x = some u) (ho : orig = -1 ∨ orig = u)
    (hl : ah.getHash_loop proc (x :: l) orig pid_it = some h) :
    (ah.getParentIDs proc pid_it).isSome = true ∧ ah.getHash_loop proc l u x = some h := by
  unfold AncestryHash.getHash_loop at hl
  have hx2 : map_find ah.process_uid_mapping x = some u := hx
  have heq : (if orig = -1 then u else orig) = u := by
    rcases ho with ho | ho
    · rw [if_pos ho]
    · by_cases h1 : orig = -1
      · rw [if_pos h1]
      · rw [if_neg h1, ho]
  simp only [hx2, heq, ne_eq, not_true_eq_false, if_false] at hl
  by_cases hv : (ah.getParentIDs proc pid_it).isNone = true
  · simp [hv] at hl
  · simp only [hv, Bool.false_eq_true, if_false] at hl
    refine ⟨?_, hl⟩
    cases hg : ah.getParentIDs proc pid_it with
    | none => simp [hg] at hv
    | some v => rfl

/-- The loop of `getHash` started at a later pid of the list returns the same
fingerprint, when all pids up to that one have the same uid. -/
theorem getHash_loop_same_side (ah : AncestryHash) (proc : Proc) (u : Int) (h : List Char) :
    ∀ (n : Nat) (l : List Int) (orig pid_it : Int), n < l.length →
      (∀ i, i ≤ n → ah.uid_of (l.getD i 0) = some u) → (orig = -1 ∨ orig = u) →
      ah.getHash_loop proc l orig pid_it = some h →
      2 ≤ (l.drop n).length ∧
        ah.getHash_loop proc (l.drop n) (-1) (l.getD n 0) = some h := by
  intro n
  induction n with
  | zero =>
    intro l orig pid_it hn hu ho hl
    match l, hn, hu, hl with
    | [], hn, _, _ => simp at hn
    | x :: rest, _, hu, hl =>
      have hx : ah.uid_of x = some u := by simpa using hu 0 (le_refl 0)
      obtain ⟨_, hrest⟩ := getHash_loop_step ah proc x rest orig pid_it u h hx ho hl
      match rest, hrest with
      | [], hrest => simp [AncestryHash.getHash_loop] at hrest
      | y :: rest2, hrest =>
        have hy : ∃ uy, ah.uid_of y = some uy := by
          have := getHash_loop_first ah proc (y :: rest2) u x h hrest
          simpa using this
        obtain ⟨uy, huy⟩ := hy
        have hver : (ah.getParentIDs proc x).isSome = true := by
          unfold AncestryHash.getHash_loop at hrest
          have huy2 : map_find ah.process_uid_mapping y = some uy := huy
          simp only [huy2] at hrest
          by_cases hv : (ah.getParentIDs proc x).isNone = true
          · simp [hv] at hrest
          · cases hg : ah.getParentIDs proc x with
            | none => simp [hg] at hv
            | some v => rfl
        refine ⟨by simp, ?_⟩
        simp only [List.drop_zero, List.getD_cons_zero]
        have hx2 : map_find ah.process_uid_mapping x = some u := hx
        have hnone : (ah.getParentIDs proc x).isNone = false := by
          cases hg : ah.getParentIDs proc x with
          | none => simp [hg] at hver
          | some v => rfl
        rw [← hrest]
        conv_lhs => unfold AncestryHash.getHash_loop
        simp only [hx2, if_true, hnone, Bool.false_eq_true, if_false, ne_eq, not_true_eq_false]
  | succ n ih =>
    intro l orig pid_it hn hu ho hl
    match l, hn, hu, hl with
    | [], hn, _, _ => simp at hn
    | x :: rest, hn, hu, hl =>
      have hx : ah.uid_of x = some u := by simpa using hu 0 (Nat.zero_le _)
      obtain ⟨_, hrest⟩ := getHash_loop_step ah proc x rest orig pid_it u h hx ho hl
      have := ih rest u x (by simp only [List.length_cons] at hn; omega)
        (fun i hi => by simpa using hu (i + 1) (by omega)) (Or.inr rfl) hrest
      simpa using this

/-- C20: let `getHash(p)` return a fingerprint on the ancestry `a` of `p`, and
let `a[j]`, `j >= 1`, be an ancestor on the job side of the UID transition:
all of `a[1], ..., a[j]` have the same uid as `a[1]`. Then for every process
`q` whose snapshot PPID is `a[j]`, `getHash(q)` on the same snapshot and the
same `/proc` state returns the same fingerprint (the re-verification on the
chain of `q` is part of that of `p`). The snapshot has no parent entry for
PID 1, as `mineProc` skips the PIDs below 2. -/
theorem C20_same_job_same_fingerprint (ah : AncestryHash) (proc : Proc) (fuel : Nat)
    (p q : Int) (a : List Int) (j : Nat) (h : List Char)
    (hanc : ah.makeAncestry fuel p = some (0, a))
    (hget : ah.getHash proc fuel p = some (some h))
    (hj : 1 ≤ j) (hja : j < a.length)
    (hside : ∀ i, 1 ≤ i → i ≤ j → ah.uid_of (a.getD i 0) = ah.uid_of (a.getD 1 0))
    (hroot : map_find ah.reverse_parentage_mapping 1 = none)
    (hq : map_find ah.reverse_parentage_mapping q = some (a.getD j 0)) :
    ah.getHash proc (fuel + 1) q = some (some h) := by
  have hq1 : q ≠ 1 := by
    intro h1
    rw [h1, hroot] at hq
    cases hq
  have hdrop := makeAncestry_drop ah fuel p 0 a hanc j hja
  have hqanc : ah.makeAncestry (fuel + 1) q = some (0, q :: a.drop j) := by
    rw [makeAncestry_succ ah fuel q hq1, hq]
    simp only [hdrop]
  unfold AncestryHash.getHash at hget
  simp only [hanc, ne_eq, not_true_eq_false, if_false] at hget
  by_cases hlen : a.length < 3
  · simp [hlen] at hget
  · rw [if_neg hlen] at hget
    match a, hget, hlen, hja, hside, hqanc with
    | [], _, hlen, _, _, _ => simp at hlen
    | [_], _, hlen, _, _, _ => simp at hlen
    | a0 :: a1 :: rest, hget, _, hja, hside, hqanc =>
      simp only [Option.some.injEq] at hget
      obtain ⟨u, hu⟩ := getHash_loop_first ah proc _ _ _ h hget
      simp only [List.getD_cons_zero] at hu
      obtain ⟨n, rfl⟩ : ∃ n, j = n + 1 := ⟨j - 1, by omega⟩
      have hsame : ∀ i, i ≤ n → ah.uid_of ((a1 :: rest).getD i 0) = some u := by
        intro i hi
        have := hside (i + 1) (by omega) (by omega)
        simp only [List.getD_cons_succ, List.getD_cons_zero] at this
        rw [this, hu]
      obtain ⟨hlen2, hloop⟩ := getHash_loop_same_side ah proc u h n (a1 :: rest) (-1) a1
        (by simp only [List.length_cons] at hja ⊢; omega) hsame (Or.inl rfl) hget
      simp only [List.drop_succ_cons] at hqanc
      unfold AncestryHash.getHash
      simp only [hqanc, ne_eq, not_true_eq_false, if_false]
      rw [if_neg (by simp only [List.length_cons]; omega)]
      match hd : (a1 :: rest).drop n, hlen2, hloop with
      | [], hlen2, _ => simp at hlen2
      | y :: ys, _, hloop =>
        simp only [Option.some.injEq]
        have hy : (a1 :: rest).getD n 0 = y := by
          have := getD_drop_add (a1 :: rest) n 0 0
          rw [hd] at this
          simpa using this.symm
        rw [hy] at hloop
        exact hloop

theorem C20_same_job_same_fingerprint_witness :
    demo_siblings.makeAncestry 10 5000 = some (0, [5000, 4300, 4242, 4200, 1]) ∧
      map_find demo_siblings.reverse_parentage_mapping 5001 = some 4242 ∧
      demo_siblings.getHash demo_proc 10 5000 =
        some (some (fmt_hash 4242 4200 1700000000)) ∧
      demo_siblings.getHash demo_proc 11 5001 =
        some (some (fmt_hash 4242 4200 1700000000)) :=
  ⟨by decide, by decide, by decide,
    C20_same_job_same_fingerprint demo_siblings demo_proc 10 5000 5001
      [5000, 4300, 4242, 4200, 1] 2 (fmt_hash 4242 4200 1700000000) (by decide) (by decide)
      (by decide) (by decide)
      (by
        intro i h1 h2
        have hi : i = 1 ∨ i = 2 := by omega
        rcases hi with hi | hi <;> subst hi <;> decide)
      (by decide) (by decide)⟩

/-! ## The reader of lock files and the grammar of their content -/

theorem skip_space_ws (ws : List Char) (t : List Char) (h : ∀ c ∈ ws, isspace c = true) :
    skip_space (ws ++ t) = skip_space t := by
  induction ws with
  | nil => rfl
  | cons w ws ih =>
    have hw : isspace w = true := h w (List.mem_cons_self _ _)
    have h1 : skip_space (w :: (ws ++ t)) = skip_space (ws ++ t) := by
      simp [skip_space, hw]
    rw [List.cons_append, h1]
    exact ih (fun c hc => h c (List.mem_cons_of_mem _ hc))

theorem skip_space_decomp (s : List Char) :
    ∃ ws, (∀ c ∈ ws, isspace c = true) ∧ s = ws ++ skip_space s := by
  induction s with
  | nil => exact ⟨[], by simp, rfl⟩
  | cons c cs ih =>
    by_cases hc : isspace c = true
    · obtain ⟨ws, hws, heq⟩ := ih
      refine ⟨c :: ws, ?_, ?_⟩
      · intro x hx
        rcases List.mem_cons.1 hx with hx | hx
        · rw [hx]; exact hc
        · exact hws x hx
      · unfold skip_space
        rw [if_pos hc, List.cons_append, ← heq]
    · refine ⟨[], by simp, ?_⟩
      unfold skip_space
      rw [if_neg hc]
      rfl

theorem scan_digits_decomp (l : List Char) :
    ∀ a, ∃ ds, (∀ c ∈ ds, isdigit c = true) ∧ l = ds ++ (scan_digits l a).2 ∧
      no_digit_ahead (scan_digits l a).2 := by
  induction l with
  | nil =>
    intro a
    exact ⟨[], by simp, rfl, no_digit_ahead_nil⟩
  | cons c cs ih =>
    intro a
    by_cases hc : isdigit c = true
    · obtain ⟨ds, hds, heq, hno⟩ := ih (a * 10 + (c.toNat - 48))
      have hsd : scan_digits (c :: cs) a = scan_digits cs (a * 10 + (c.toNat - 48)) := by
        simp [scan_digits, hc]
      rw [hsd]
      refine ⟨c :: ds, ?_, ?_, hno⟩
      · intro x hx
        rcases List.mem_cons.1 hx with hx | hx
        · rw [hx]; exact hc
        · exact hds x hx
      · rw [List.cons_append, ← heq]
    · have hsd : scan_digits (c :: cs) a = (a, c :: cs) := by
        simp [scan_digits, hc]
      rw [hsd]
      refine ⟨[], by simp, rfl, ?_⟩
      intro x hx
      simp only [List.head?_cons, Option.mem_def, Option.some.injEq] at hx
      subst hx
      simpa using hc

theorem isspace_minus : isspace '-' = false := by decide

theorem isspace_plus : isspace '+' = false := by decide

/-- One conversion reads an integer text, whatever non-digit follows it, and
leaves what follows unread. -/
theorem scan_int_text (t : List Char) (h : is_int_text t) :
    ∃ v, ∀ tl, no_digit_ahead tl → scan_int (t ++ tl) = some (v, tl) := by
  obtain ⟨ws, sg, ds, ht, hws, hsg, hne, hds⟩ := h
  obtain ⟨d, ds2, hd⟩ : ∃ d ds2, ds = d :: ds2 := by
    cases ds with
    | nil => exact absurd rfl hne
    | cons d ds2 => exact ⟨d, ds2, rfl⟩
  have hdd : isdigit d = true := hds d (by rw [hd]; exact List.mem_cons_self _ _)
  have hscan : ∀ tl, no_digit_ahead tl →
      scan_digits (d :: (ds2 ++ tl)) 0 = (digits_value ds 0, tl) := by
    intro tl htl
    have := scan_digits_append ds tl 0 hds
    rw [scan_digits_stop tl _ htl, hd, List.cons_append] at this
    rw [hd]
    exact this
  rcases hsg with hsg | hsg | hsg
  · refine ⟨(digits_value ds 0 : Nat), ?_⟩
    intro tl htl
    subst ht hsg
    unfold scan_int
    rw [List.append_assoc, skip_space_ws _ _ hws, List.nil_append, hd, List.cons_append]
    have hsk : skip_space (d :: (ds2 ++ tl)) = d :: (ds2 ++ tl) := by
      unfold skip_space
      rw [if_neg (by rw [isdigit_not_space d hdd]; simp)]
    rw [hsk]
    simp only [if_neg (isdigit_ne_minus d hdd), if_neg (isdigit_ne_plus d hdd), hdd, if_true,
      hscan tl htl]
    rw [hd]
  · refine ⟨-((digits_value ds 0 : Nat) : Int), ?_⟩
    intro tl htl
    subst ht hsg
    unfold scan_int
    rw [List.append_assoc, skip_space_ws _ _ hws, List.append_assoc, hd, List.cons_append]
    have hsk : skip_space ('-' :: ([] ++ d :: (ds2 ++ tl))) = '-' :: d :: (ds2 ++ tl) := by
      unfold skip_space
      rw [if_neg (by rw [isspace_minus]; simp)]
      rfl
    rw [List.cons_append, hsk]
    simp only [if_true, hdd, hscan tl htl]
    rw [hd]
  · refine ⟨((digits_value ds 0 : Nat) : Int), ?_⟩
    intro tl htl
    subst ht hsg
    unfold scan_int
    rw [List.append_assoc, skip_space_ws _ _ hws, List.append_assoc, hd, List.cons_append]
    have hsk : skip_space ('+' :: ([] ++ d :: (ds2 ++ tl))) = '+' :: d :: (ds2 ++ tl) := by
      unfold skip_space
      rw [if_neg (by rw [isspace_plus]; simp)]
      rfl
    rw [List.cons_append, hsk]
    have hpm : ('+' : Char) ≠ '-' := by decide
    simp only [if_neg hpm, if_true, hdd, hscan tl htl]
    rw [hd]

/-- An integer text stays one when digits are appended. -/
theorem is_int_text_append (t dp : List Char) (h : is_int_text t)
    (hdp : ∀ c ∈ dp, isdigit c = true) : is_int_text (t ++ dp) := by
  obtain ⟨ws, sg, ds, ht, hws, hsg, hne, hds⟩ := h
  refine ⟨ws, sg, ds ++ dp, ?_, hws, hsg, ?_, ?_⟩
  · rw [ht, List.append_assoc, List.append_assoc]
  · intro hnil
    exact hne (List.append_eq_nil.1 hnil).1
  · intro c hc
    rcases List.mem_append.1 hc with hc | hc
    · exact hds c hc
    · exact hdp c hc

/-- One conversion succeeds on an integer text, whatever follows it. -/
theorem scan_int_text_any (t rest : List Char) (h : is_int_text t) :
    ∃ v r, scan_int (t ++ rest) = some (v, r) := by
  obtain ⟨dp, hdp, heq, hno⟩ := scan_digits_decomp rest 0
  obtain ⟨v, hv⟩ := scan_int_text (t ++ dp) (is_int_text_append t dp h hdp)
  refine ⟨v, (scan_digits rest 0).2, ?_⟩
  have := hv _ hno
  rw [List.append_assoc, ← heq] at this
  exact this

/-- What one successful conversion has read is an integer text, and the input
left unread does not start with a digit. -/
theorem scan_int_decomp (s : List Char) (v : Int) (r : List Char)
    (h : scan_int s = some (v, r)) :
    ∃ t, is_int_text t ∧ s = t ++ r ∧ no_digit_ahead r := by
  obtain ⟨ws, hws, heq⟩ := skip_space_decomp s
  unfold scan_int at h
  cases hs : skip_space s with
  | nil => simp [hs] at h
  | cons c cs =>
    rw [hs] at heq
    simp only [hs] at h
    have key : ∀ (sg l : List Char) (d : Char) (l2 : List Char), l = d :: l2 →
        isdigit d = true → (sg = [] ∨ sg = ['-'] ∨ sg = ['+']) → s = ws ++ (sg ++ l) →
        r = (scan_digits l 0).2 → ∃ t, is_int_text t ∧ s = t ++ r ∧ no_digit_ahead r := by
      intro sg l d l2 hl hd hsg hsl hr
      obtain ⟨ds, hds, hdeq, hno⟩ := scan_digits_decomp l 0
      rw [← hr] at hdeq hno
      have hdne : ds ≠ [] := by
        intro hnil
        rw [hnil, List.nil_append] at hdeq
        rw [← hdeq, hl] at hno
        have := hno d (by simp)
        rw [hd] at this
        cases this
      refine ⟨ws ++ (sg ++ ds), ⟨ws, sg, ds, rfl, hws, hsg, hdne, hds⟩, ?_, hno⟩
      rw [hsl, hdeq, List.append_assoc, List.append_assoc]
    by_cases hm : c = '-'
    · subst hm
      simp only [if_true] at h
      cases cs with
      | nil => simp at h
      | cons d rest =>
        simp only at h
        by_cases hd : isdigit d = true
        · simp only [hd, if_true, Option.some.injEq, Prod.mk.injEq] at h
          exact key ['-'] (d :: rest) d rest rfl hd (Or.inr (Or.inl rfl)) heq h.2.symm
        · simp [hd] at h
    · simp only [if_neg hm] at h
      by_cases hp : c = '+'
      · subst hp
        simp only [if_true] at h
        cases cs with
        | nil => simp at h
        | cons d rest =>
          simp only at h
          by_cases hd : isdigit d = true
          · simp only [hd, if_true, Option.some.injEq, Prod.mk.injEq] at h
            exact key ['+'] (d :: rest) d rest rfl hd (Or.inr (Or.inr rfl)) heq h.2.symm
          · simp [hd] at h
      · simp only [if_neg hp] at h
        by_cases hd : isdigit c = true
        · simp only [hd, if_true, Option.some.injEq, Prod.mk.injEq] at h
          exact key [] (c :: cs) c cs rfl hd (Or.inl rfl) heq h.2.symm
        · simp [hd] at h

theorem no_digit_ahead_cons (c : Char) (tl : List Char) (h : isdigit c = false) :
    no_digit_ahead (c :: tl) := by
  intro x hx
  simp only [List.head?_cons, Option.mem_def, Option.some.injEq] at hx
  subst hx
  exact h

/-- The reader converts three fields of a content made of three integer texts
separated by colons, and the values do not depend on what follows, unless
that starts with a digit. -/
theorem scanf_hash_three (t1 t2 t3 : List Char) (h1 : is_int_text t1) (h2 : is_int_text t2)
    (h3 : is_int_text t3) :
    ∃ v1 v2 v3, ∀ tl, no_digit_ahead tl →
      scanf_hash (t1 ++ ':' :: (t2 ++ ':' :: (t3 ++ tl))) =
        ⟨3, to_int32 (clamp_long v1), to_int32 (clamp_long v2), clamp_long v3⟩ := by
  obtain ⟨v1, hv1⟩ := scan_int_text t1 h1
  obtain ⟨v2, hv2⟩ := scan_int_text t2 h2
  obtain ⟨v3, hv3⟩ := scan_int_text t3 h3
  refine ⟨v1, v2, v3, ?_⟩
  intro tl htl
  unfold scanf_hash
  rw [hv1 _ (no_digit_ahead_colon _)]
  simp only [ne_eq, not_true_eq_false, if_false]
  rw [hv2 _ (no_digit_ahead_colon _)]
  simp only [not_true_eq_false, if_false]
  rw [hv3 _ htl]

/-- A content that begins with three colon-separated integers is read with
three conversions. -/
theorem matches_of_begins (s : List Char) (h : begins_with_three_ints s) :
    (scanf_hash s).matches_ = 3 := by
  obtain ⟨t1, t2, t3, rest, hs, h1, h2, h3⟩ := h
  obtain ⟨v1, hv1⟩ := scan_int_text t1 h1
  obtain ⟨v2, hv2⟩ := scan_int_text t2 h2
  obtain ⟨v3, r3, hv3⟩ := scan_int_text_any t3 rest h3
  subst hs
  unfold scanf_hash
  rw [hv1 _ (no_digit_ahead_colon _)]
  simp only [ne_eq, not_true_eq_false, if_false]
  rw [hv2 _ (no_digit_ahead_colon _)]
  simp only [not_true_eq_false, if_false]
  rw [hv3]

/-- A content read with three conversions begins with three colon-separated
integers. -/
theorem begins_of_matches (s : List Char) (h : (scanf_hash s).matches_ = 3) :
    begins_with_three_ints s := by
  unfold scanf_hash at h
  cases h1 : scan_int s with
  | none =>
    simp only [h1] at h
    split at h <;> cases h
  | some q1 =>
    obtain ⟨v1, r1⟩ := q1
    simp only [h1] at h
    cases r1 with
    | nil => simp at h
    | cons c1 r1t =>
      simp only at h
      by_cases hc1 : c1 = ':'
      · subst hc1
        simp only [ne_eq, not_true_eq_false, if_false] at h
        cases h2 : scan_int r1t with
        | none => simp [h2] at h
        | some q2 =>
          obtain ⟨v2, r2⟩ := q2
          simp only [h2] at h
          cases r2 with
          | nil => simp at h
          | cons c2 r2t =>
            simp only at h
            by_cases hc2 : c2 = ':'
            · subst hc2
              simp only [ne_eq, not_true_eq_false, if_false] at h
              cases h3 : scan_int r2t with
              | none => simp [h3] at h
              | some q3 =>
                obtain ⟨v3, r3⟩ := q3
                obtain ⟨t1, ht1, hs1, _⟩ := scan_int_decomp s v1 _ h1
                obtain ⟨t2, ht2, hs2, _⟩ := scan_int_decomp r1t v2 _ h2
                obtain ⟨t3, ht3, hs3, _⟩ := scan_int_decomp r2t v3 _ h3
                refine ⟨t1, t2, t3, r3, ?_, ht1, ht2, ht3⟩
                rw [← hs3, ← hs2, ← hs1]
            · simp [hc2] at h
      · simp [hc1] at h

/-- Function `check_account` uses the content of the lock file only through what
the reader converts. -/
theorem check_account_scan_congr (fuel : Nat) (e : Env) (s s2 : State) (uid uid2 : Int)
    (fd : String)
    (h : scanf_hash ((s.files fd).getD []) = scanf_hash ((s2.files fd).getD [])) :
    Anonymous.check_account fuel e s uid fd = Anonymous.check_account fuel e s2 uid2 fd := by
  unfold Anonymous.check_account
  simp only [h]

/-- Function `check_account` returns 0 on a content that is not read with three
conversions, when the caller's fingerprint is computed. -/
theorem check_account_unparsed (fuel : Nat) (e : Env) (s : State) (uid : Int) (fd : String)
    (nh : List Char) (hown : getHash fuel e e.getpid = some (some nh))
    (h : (scanf_hash ((s.files fd).getD [])).matches_ ≠ 3) :
    Anonymous.check_account fuel e s uid fd = some (0, some nh) := by
  unfold Anonymous.check_account
  simp only [hown]
  rw [if_pos h]

theorem scanf_hash_fmt_hash_tail (pid ppid ts : Int) (tl : List Char) (hpid : is_int pid)
    (hppid : is_int ppid) (hts : is_long ts) (htl : no_digit_ahead tl) :
    scanf_hash (fmt_hash pid ppid ts ++ tl) = ⟨3, pid, ppid, ts⟩ := by
  have heq : fmt_hash pid ppid ts ++ tl =
      fmt_int pid ++ ':' :: (fmt_int ppid ++ ':' :: (fmt_int ts ++ tl)) := by
    simp [fmt_hash, List.append_assoc]
  rw [heq]
  unfold scanf_hash
  rw [scan_int_fmt_int pid _ (no_digit_ahead_colon _)]
  simp only [ne_eq, not_true_eq_false, if_false]
  rw [scan_int_fmt_int ppid _ (no_digit_ahead_colon _)]
  simp only [not_true_eq_false, if_false]
  rw [scan_int_fmt_int ts _ htl, to_int32_clamp pid hpid, to_int32_clamp ppid hppid]
  simp only [clamp_long_id ts hts]

/-- C11: when the caller's own fingerprint is computed, `check_account` returns
0 for every lock file whose content is empty or does not begin with three
colon-separated integers. A content made of three integer texts separated by
colons and followed by any bytes (not starting with a digit, which would
belong to the third integer) is read with three conversions and with the same
values as without these bytes, and `check_account` gives the same verdict; in
particular a fingerprint text written by `create_hash` and followed by such
bytes is read as that fingerprint. -/
theorem C11_check_account_tolerant (fuel : Nat) (e : Env) (s : State) (uid : Int)
    (fd : String) (nh : List Char) (hown : getHash fuel e e.getpid = some (some nh)) :
    (((s.files fd).getD [] = [] ∨ ¬ begins_with_three_ints ((s.files fd).getD [])) →
        Anonymous.check_account fuel e s uid fd = some (0, some nh)) ∧
      (∀ t1 t2 t3 tl, is_int_text t1 → is_int_text t2 → is_int_text t3 → no_digit_ahead tl →
        (s.files fd).getD [] = t1 ++ ':' :: (t2 ++ ':' :: (t3 ++ tl)) →
        (scanf_hash ((s.files fd).getD [])).matches_ = 3 ∧
          scanf_hash ((s.files fd).getD []) = scanf_hash (t1 ++ ':' :: (t2 ++ ':' :: t3)) ∧
          Anonymous.check_account fuel e s uid fd =
            Anonymous.check_account fuel e
              (s.set_file fd (some (t1 ++ ':' :: (t2 ++ ':' :: t3)))) uid fd) ∧
      (∀ pid ppid ts tl, is_int pid → is_int ppid → is_long ts → no_digit_ahead tl →
        (s.files fd).getD [] = fmt_hash pid ppid ts ++ tl →
        scanf_hash ((s.files fd).getD []) = ⟨3, pid, ppid, ts⟩) := by
  refine ⟨?_, ?_, ?_⟩
  · intro h
    apply check_account_unparsed fuel e s uid fd nh hown
    rcases h with h | h
    · rw [h]
      decide
    · intro hm
      exact h (begins_of_matches _ hm)
  · intro t1 t2 t3 tl h1 h2 h3 htl hcontent
    obtain ⟨v1, v2, v3, hv⟩ := scanf_hash_three t1 t2 t3 h1 h2 h3
    have ha := hv tl htl
    have hb := hv [] no_digit_ahead_nil
    rw [List.append_nil] at hb
    have heq : scanf_hash ((s.files fd).getD []) =
        scanf_hash (t1 ++ ':' :: (t2 ++ ':' :: t3)) := by
      rw [hcontent, ha, hb]
    refine ⟨?_, heq, ?_⟩
    · rw [hcontent, ha]
    · apply check_account_scan_congr
      rw [heq]
      simp [State.set_file]
  · intro pid ppid ts tl hpid hppid hts htl hcontent
    rw [hcontent]
    exact scanf_hash_fmt_hash_tail pid ppid ts tl hpid hppid hts htl

theorem C11_check_account_tolerant_witness :
    getHash 10 demo_env demo_env.getpid = some (some (fmt_hash 4242 4200 1700000000)) ∧
      Anonymous.check_account 10 demo_env demo_partial 1001 "p1" =
        some (0, some (fmt_hash 4242 4200 1700000000)) ∧
      scanf_hash "9999:9000:1699000000\ngarbage".toList = ⟨3, 9999, 9000, 1699000000⟩ :=
  ⟨by decide,
    (C11_check_account_tolerant 10 demo_env demo_partial 1001 "p1"
      (fmt_hash 4242 4200 1700000000) (by decide)).1
      (Or.inr (fun hb => absurd (matches_of_begins _ hb) (by decide))),
    (C11_check_account_tolerant 10 demo_env demo_trailing 1001 "p1"
      (fmt_hash 4242 4200 1700000000) (by decide)).2.2 9999 9000 1699000000
      "\ngarbage".toList (by decide) (by decide) (by decide)
      (no_digit_ahead_cons _ _ (by decide)) (by decide)⟩

/-! ## Lemmas on `plugin_initialize` -/

theorem tolower_toNat_inj (c1 c2 : Char) (h : tolower c1 ≠ tolower c2) :
    ((tolower c1).toNat : Int) - ((tolower c2).toNat : Int) ≠ 0 := by
  intro h0
  apply h
  apply Char.ext
  apply UInt32.ext
  have : (tolower c1).toNat = (tolower c2).toNat := by omega
  exact this

/-- The test `strncasecmp(arg, FLAG, strlen(FLAG)) == 0` holds exactly when the
argument begins, ignoring case, with the flag. -/
theorem strncasecmp_zero_iff (key : List Char) (hk : ∀ c ∈ key, (tolower c).toNat ≠ 0) :
    ∀ s, strncasecmp s key key.length = 0 ↔ begins_ignoring_case s key := by
  unfold begins_ignoring_case
  induction key with
  | nil =>
    intro s
    simp [strncasecmp]
  | cons k ks ih =>
    intro s
    have hk0 : (tolower k).toNat ≠ 0 := hk k (List.mem_cons_self _ _)
    cases s with
    | nil =>
      simp only [List.length_cons, strncasecmp, List.take_nil, List.map_nil, List.map_cons]
      constructor
      · intro h
        omega
      · intro h
        cases h
    | cons c cs =>
      simp only [List.length_cons, strncasecmp, List.take_succ_cons, List.map_cons,
        List.cons.injEq]
      by_cases hc : tolower c = tolower k
      · simp only [hc, ne_eq, not_true_eq_false, if_false, true_and]
        exact ih (fun x hx => hk x (List.mem_cons_of_mem _ hx)) cs
      · simp only [ne_eq, hc, not_false_eq_true, if_true, false_and, iff_false]
        exact tolower_toNat_inj c k hc

theorem known_flags_no_nul : ∀ key ∈ known_flags, ∀ c ∈ key, (tolower c).toNat ≠ 0 := by
  decide

theorem fmt_int_ofNat (a : Nat) : fmt_int (a : Int) = fmt_nat a := by
  unfold fmt_int
  rw [if_neg (by omega)]
  simp

/-- The call `sscanf(arg, "%d", &x)` on the decimal text of a number that an
`int` can hold stores that number. -/
theorem sscanf_d_fmt_nat (a : Nat) (h : (a : Int) ≤ INT_MAX) :
    sscanf_d (fmt_nat a) = some (a : Int) := by
  have hs := scan_int_fmt_int (a : Int) [] no_digit_ahead_nil
  rw [List.append_nil, fmt_int_ofNat] at hs
  unfold sscanf_d
  rw [hs]
  have hi : is_int (a : Int) := by
    unfold is_int INT_MIN
    unfold INT_MAX at h ⊢
    omega
  simp only [to_int32_clamp _ hi]

/-- Function `plugin_initialize` on `-minuid a -maxuid b` from the load-time
configuration, for numbers that an `int` can hold. -/
theorem plugin_initialize_minmax (name : List Char) (a b : Nat) (ha : (a : Int) ≤ INT_MAX)
    (hb : (b : Int) ≤ INT_MAX) :
    plugin_initialize [name, MINUID_ARG, fmt_nat a, MAXUID_ARG, fmt_nat b] Config.unset =
      (if 1000 < a ∧ a ≤ b then ModResult.LCMAPS_MOD_SUCCESS else ModResult.LCMAPS_MOD_FAIL,
        { lockdir := some LOCKPATH_DEFAULT, min_uid := a, max_uid := b }) := by
  have h1 : strncasecmp MINUID_ARG MINUID_ARG MINUID_ARG.length = 0 := by decide
  have h2 : strncasecmp MAXUID_ARG MINUID_ARG MINUID_ARG.length ≠ 0 := by decide
  have h3 : strncasecmp MAXUID_ARG MAXUID_ARG MAXUID_ARG.length = 0 := by decide
  have hna : ¬ ((a : Int) < 0) := by omega
  have hnb : ¬ ((b : Int) < 0) := by omega
  have hloop : argv_loop [MINUID_ARG, fmt_nat a, MAXUID_ARG, fmt_nat b] Config.unset =
      (true, { lockdir := none, min_uid := a, max_uid := b }) := by
    simp only [argv_loop, h1, h2, h3, if_true, if_false, sscanf_d_fmt_nat a ha,
      sscanf_d_fmt_nat b hb, hna, hnb, Config.unset]
  unfold plugin_initialize
  simp only [List.drop_succ_cons, List.drop_zero, hloop, Option.getD_none]
  unfold UID_DEFAULT SYSTEM_UID
  by_cases hc : 1000 < a ∧ a ≤ b
  · rw [if_pos hc, if_neg (by omega), if_neg (by omega), if_neg (by omega), if_neg (by omega)]
  · rw [if_neg hc, if_neg (by omega), if_neg (by omega)]
    by_cases h4 : (a : Int) ≤ 1000
    · rw [if_pos h4]
    · rw [if_neg h4, if_pos (by omega)]

/-- Function `plugin_initialize` returns success only with a stored range above
`SYSTEM_UID` and not empty. -/
theorem plugin_initialize_success_range (argv : List (List Char)) (c r : Config)
    (h : plugin_initialize argv c = (ModResult.LCMAPS_MOD_SUCCESS, r)) :
    1000 < r.min_uid ∧ r.min_uid ≤ r.max_uid ∧ r.lockdir ≠ none := by
  unfold plugin_initialize at h
  unfold SYSTEM_UID at h
  split at h
  · cases h
  · dsimp only at h
    split_ifs at h with h1 h2 h3 h4
    · cases (Prod.mk.inj h).1
    · cases (Prod.mk.inj h).1
    · cases (Prod.mk.inj h).1
    · cases (Prod.mk.inj h).1
    · obtain ⟨_, hr⟩ := Prod.mk.inj h
      subst hr
      dsimp only
      refine ⟨by omega, by omega, by simp⟩

/-- The argument loop fails when an argument at an even offset begins with
none of the three flags, or when the number of arguments is odd. -/
theorem argv_loop_rejects : ∀ (n : Nat) (args : List (List Char)) (c : Config),
    args.length = n →
    (args.length % 2 = 1 ∨ ∃ i, i < args.length ∧ i % 2 = 0 ∧
      ∀ key ∈ known_flags, ¬ begins_ignoring_case (args.getD i []) key) →
    (argv_loop args c).1 = false := by
  intro n
  induction n using Nat.strong_induction_on with
  | _ n ih =>
    intro args c hn hbad
    match args, hn, hbad with
    | [], _, hbad =>
      rcases hbad with h | ⟨i, hi, _⟩
      · simp at h
      · simp at hi
    | [_], _, _ => rfl
    | arg :: value :: rest, hn, hbad =>
      have hcase : (∀ key ∈ known_flags, ¬ begins_ignoring_case arg key) ∨
          (rest.length % 2 = 1 ∨ ∃ i, i < rest.length ∧ i % 2 = 0 ∧
            ∀ key ∈ known_flags, ¬ begins_ignoring_case (rest.getD i []) key) := by
        rcases hbad with h | ⟨i, hi, hev, hno⟩
        · right; left
          simp only [List.length_cons] at h
          omega
        · cases i with
          | zero => left; simpa using hno
          | succ i =>
            cases i with
            | zero => omega
            | succ i =>
              right; right
              simp only [List.length_cons] at hi
              exact ⟨i, by omega, by omega, by simpa using hno⟩
      rcases hcase with h0 | hrest
      · have h1 : strncasecmp arg MINUID_ARG MINUID_ARG.length ≠ 0 := by
          rw [ne_eq, strncasecmp_zero_iff MINUID_ARG (known_flags_no_nul MINUID_ARG (by decide)) arg]
          exact h0 MINUID_ARG (by decide)
        have h2 : strncasecmp arg MAXUID_ARG MAXUID_ARG.length ≠ 0 := by
          rw [ne_eq, strncasecmp_zero_iff MAXUID_ARG (known_flags_no_nul MAXUID_ARG (by decide)) arg]
          exact h0 MAXUID_ARG (by decide)
        have h3 : strncasecmp arg LOCKPATH_ARG LOCKPATH_ARG.length ≠ 0 := by
          rw [ne_eq, strncasecmp_zero_iff LOCKPATH_ARG (known_flags_no_nul LOCKPATH_ARG (by decide)) arg]
          exact h0 LOCKPATH_ARG (by decide)
        unfold argv_loop
        rw [if_neg h1, if_neg h2, if_neg h3]
      · have hih : ∀ c2, (argv_loop rest c2).1 = false := fun c2 =>
          ih rest.length (by simp only [List.length_cons] at hn; omega) rest c2 rfl hrest
        unfold argv_loop
        split_ifs
        · split
          · rfl
          · split_ifs
            · rfl
            · exact hih _
        · split
          · rfl
          · split_ifs
            · rfl
            · exact hih _
        · exact hih _
        · rfl

/-- C12 (counterexample): the decimal integers a = 3000000000 and
b = 3000000010 satisfy a > 1000 and b >= a, yet `plugin_initialize` with
`-minuid a -maxuid b` from the load-time configuration returns failure: the
value stored in the `int` `min_uid` is negative. -/
theorem C12_counterexample_above_int_max :
    fmt_nat 3000000000 = "3000000000".toList ∧ fmt_nat 3000000010 = "3000000010".toList ∧
      (1000 < 3000000000 ∧ 3000000000 ≤ 3000000010) ∧
      plugin_initialize ["lcmaps_pool_accounts".toList, "-minuid".toList, "3000000000".toList,
          "-maxuid".toList, "3000000010".toList] Config.unset =
        (ModResult.LCMAPS_MOD_FAIL,
          { lockdir := none, min_uid := -1294967296, max_uid := UID_DEFAULT }) := by
  refine ⟨by decide, by decide, by decide, by decide⟩

/-- C12 (amended): for every pair of non-negative decimal integers a and b that
an `int` can hold (at most 2147483647), `plugin_initialize` called from the
load-time configuration with the arguments `-minuid a -maxuid b` returns
success iff a > 1000 and b >= a, and stores a and b; and on every successful
return, for any arguments and any earlier configuration, the stored range
satisfies `1000 < min_uid <= max_uid`. -/
theorem C12_plugin_initialize_range (name : List Char) (a b : Nat)
    (ha : (a : Int) ≤ INT_MAX) (hb : (b : Int) ≤ INT_MAX) :
    (( plugin_initialize [name, MINUID_ARG, fmt_nat a, MAXUID_ARG, fmt_nat b] Config.unset).1 =
        ModResult.LCMAPS_MOD_SUCCESS ↔ 1000 < a ∧ a ≤ b) ∧
      ( plugin_initialize [name, MINUID_ARG, fmt_nat a, MAXUID_ARG, fmt_nat b] Config.unset).2 =
        { lockdir := some LOCKPATH_DEFAULT, min_uid := a, max_uid := b } ∧
      ∀ argv c r, plugin_initialize argv c = (ModResult.LCMAPS_MOD_SUCCESS, r) →
        1000 < r.min_uid ∧ r.min_uid ≤ r.max_uid := by
  rw [plugin_initialize_minmax name a b ha hb]
  refine ⟨?_, rfl, ?_⟩
  · by_cases hc : 1000 < a ∧ a ≤ b
    · rw [if_pos hc]
      exact ⟨fun _ => hc, fun _ => rfl⟩
    · rw [if_neg hc]
      exact ⟨(fun h => by cases h), (fun h => absurd h hc)⟩
  · intro argv c r h
    have := plugin_initialize_success_range argv c r h
    exact ⟨this.1, this.2.1⟩

theorem C12_plugin_initialize_range_witness :
    ((1001 : Nat) : Int) ≤ INT_MAX ∧ ((1000 : Nat) : Int) ≤ INT_MAX ∧
      ( plugin_initialize ["lcmaps_pool_accounts".toList, MINUID_ARG, fmt_nat 1001, MAXUID_ARG,
        fmt_nat 1001] Config.unset).1 = ModResult.LCMAPS_MOD_SUCCESS ∧
      ¬ ( plugin_initialize ["lcmaps_pool_accounts".toList, MINUID_ARG, fmt_nat 1000, MAXUID_ARG,
        fmt_nat 1001] Config.unset).1 = ModResult.LCMAPS_MOD_SUCCESS :=
  ⟨by decide, by decide,
    (C12_plugin_initialize_range "lcmaps_pool_accounts".toList 1001 1001 (by decide)
      (by decide)).1.2 (by decide),
    fun h => absurd ((C12_plugin_initialize_range "lcmaps_pool_accounts".toList 1000 1001
      (by decide) (by decide)).1.1 h) (by decide)⟩

/-- C13 (counterexample): the argument `-minuidx` in flag position is not
equal, ignoring case, to any of the three flags, yet `plugin_initialize`
returns success: the comparison looks only at the first `strlen("-minuid")`
bytes. -/
theorem C13_counterexample_flag_with_suffix :
    (∀ key ∈ known_flags, ¬ eq_ignoring_case "-minuidx".toList key) ∧
      plugin_initialize ["lcmaps_pool_accounts".toList, "-minuidx".toList, "1001".toList,
          "-maxuid".toList, "2000".toList] Config.unset =
        (ModResult.LCMAPS_MOD_SUCCESS,
          { lockdir := some LOCKPATH_DEFAULT, min_uid := 1001, max_uid := 2000 }) := by
  refine ⟨by decide, by decide⟩

/-- C13 (amended): for every argument vector in which some argument in flag
position (an odd index of `argv`) does not begin, ignoring case, with one of
`-minuid`, `-maxuid` or `-lockpath`, or in which the last argument is in flag
position and so has no value, `plugin_initialize` returns failure, whatever
the configuration variables held before. -/
theorem C13_unknown_flag_or_missing_value (argv : List (List Char)) (c : Config)
    (hbad : (∃ i, i < argv.length ∧ i % 2 = 1 ∧
        ∀ key ∈ known_flags, ¬ begins_ignoring_case (argv.getD i []) key) ∨
      (2 ≤ argv.length ∧ argv.length % 2 = 0)) :
    ( plugin_initialize argv c).1 = ModResult.LCMAPS_MOD_FAIL := by
  have hloop : (argv_loop (argv.drop 1) c).1 = false := by
    apply argv_loop_rejects _ _ c rfl
    rcases hbad with ⟨i, hi, hodd, hno⟩ | ⟨h2, hev⟩
    · right
      refine ⟨i - 1, ?_, by omega, ?_⟩
      · rw [List.length_drop]; omega
      · rw [getD_drop_add, show 1 + (i - 1) = i from by omega]
        exact hno
    · left
      rw [List.length_drop]
      omega
  unfold plugin_initialize
  split
  · rfl
  · rename_i heq
    rw [heq] at hloop
    cases hloop

theorem C13_unknown_flag_or_missing_value_witness :
    (∀ key ∈ known_flags, ¬ begins_ignoring_case "-bogus".toList key) ∧
      ( plugin_initialize ["lcmaps_pool_accounts".toList, "-minuid".toList, "1001".toList,
        "-bogus".toList, "1".toList] Config.unset).1 = ModResult.LCMAPS_MOD_FAIL :=
  ⟨by decide,
    C13_unknown_flag_or_missing_value ["lcmaps_pool_accounts".toList, "-minuid".toList,
      "1001".toList, "-bogus".toList, "1".toList] Config.unset
      (Or.inl ⟨3, by decide, by decide, by decide⟩)⟩

/-! ## Lemmas on the reading of status files -/

theorem strchr_cons (x : Char) (xs : List Char) (c : Char) :
    strchr (x :: xs) c = if x = c then some 0 else (strchr xs c).map (fun i => i + 1) := rfl

theorem strchr_append_not_mem (a b : List Char) (c : Char) (h : c ∉ a) :
    strchr (a ++ b) c = (strchr b c).map (fun i => i + a.length) := by
  induction a with
  | nil =>
    simp only [List.nil_append, List.length_nil, Nat.add_zero]
    cases strchr b c <;> rfl
  | cons x xs ih =>
    have hx : x ≠ c := fun hxc => h (by rw [hxc]; exact List.mem_cons_self _ _)
    have hxs : c ∉ xs := fun hm => h (List.mem_cons_of_mem _ hm)
    rw [List.cons_append, strchr_cons, if_neg hx, ih hxs]
    cases strchr b c with
    | none => rfl
    | some i =>
      simp only [Option.map_some', List.length_cons]
      congr 1

theorem strchr_cons_self (b : List Char) (c : Char) : strchr (c :: b) c = some 0 := by
  rw [strchr_cons, if_pos rfl]

/-- The first occurrence: `strchr` gives the length of what precedes it. -/
theorem strchr_first (a b : List Char) (c : Char) (h : c ∉ a) :
    strchr (a ++ c :: b) c = some a.length := by
  rw [strchr_append_not_mem a _ c h, strchr_cons_self]
  simp

theorem strchr_none (s : List Char) (c : Char) (h : c ∉ s) : strchr s c = none := by
  have := strchr_append_not_mem s [] c h
  rw [List.append_nil] at this
  rw [this]
  rfl

theorem mem_split_first (c : Char) (l : List Char) (h : c ∈ l) :
    ∃ a b, l = a ++ c :: b ∧ c ∉ a := by
  induction l with
  | nil => simp at h
  | cons x xs ih =>
    by_cases hx : x = c
    · exact ⟨[], xs, by rw [hx]; rfl, by simp⟩
    · have hm : c ∈ xs := by
        rcases List.mem_cons.1 h with h1 | h1
        · exact absurd h1.symm hx
        · exact h1
      obtain ⟨a, b, hab, hna⟩ := ih hm
      refine ⟨x :: a, b, by rw [hab]; rfl, ?_⟩
      intro hmem
      rcases List.mem_cons.1 hmem with h1 | h1
      · exact hx h1.symm
      · exact hna h1

theorem strchr_mem (s : List Char) (c : Char) (h : c ∈ s) :
    ∃ a b, s = a ++ c :: b ∧ c ∉ a ∧ strchr s c = some a.length := by
  obtain ⟨a, b, hab, hna⟩ := mem_split_first c s h
  exact ⟨a, b, hab, hna, by rw [hab]; exact strchr_first a b c hna⟩

theorem line_label_split (a b : List Char) (h : '\t' ∉ a) :
    line_label (a ++ '\t' :: b) = a := by
  unfold line_label
  induction a with
  | nil => simp
  | cons x xs ih =>
    have hx : x ≠ '\t' := fun hxc => h (by rw [hxc]; exact List.mem_cons_self _ _)
    have hxs : '\t' ∉ xs := fun hm => h (List.mem_cons_of_mem _ hm)
    rw [List.cons_append, List.takeWhile_cons]
    simp only [hx, ne_eq, not_false_eq_true, decide_True, if_true, List.cons.injEq, true_and]
    exact ih hxs

/-- The result of `strncmp` is 0 exactly when the first `n` bytes agree. -/
theorem strncmp_zero_iff (n : Nat) :
    ∀ s key : List Char, strncmp s key n = 0 ↔ s.take n = key.take n := by
  induction n with
  | zero =>
    intro s key
    simp [strncmp]
  | succ n ih =>
    intro s key
    cases s with
    | nil =>
      cases key with
      | nil => simp [strncmp]
      | cons k ks => simp [strncmp]
    | cons c cs =>
      cases key with
      | nil => simp [strncmp]
      | cons k ks =>
        simp only [strncmp, List.take_succ_cons, List.cons.injEq]
        by_cases hck : c = k
        · simp only [hck, ne_eq, not_true_eq_false, if_false, true_and]
          exact ih cs ks
        · simp only [ne_eq, hck, not_false_eq_true, if_true, false_and, iff_false]
          split <;> decide

/-- Function `match_column` returns `NULL` at a line that is not taken for the
key. -/
theorem match_column_not_taken (key line rest : List Char) (hkey : '\n' ∉ key)
    (h : not_taken_for key line) :
    match_column key (line ++ '\n' :: rest) = some none := by
  unfold match_column
  by_cases htab : '\t' ∈ line
  · obtain ⟨a, b, hab, hna⟩ := mem_split_first '\t' line htab
    have hlabel : ¬ (a <+: key) := by
      have := h htab
      rw [hab, line_label_split a b hna] at this
      exact this
    have hbuf : line ++ '\n' :: rest = a ++ '\t' :: (b ++ '\n' :: rest) := by
      rw [hab, List.append_assoc, List.cons_append]
    rw [hbuf, strchr_first a _ '\t' hna]
    simp only
    have hne : strncmp (a ++ '\t' :: (b ++ '\n' :: rest)) key a.length ≠ 0 := by
      rw [ne_eq, strncmp_zero_iff, List.take_left']
      · intro heq
        apply hlabel
        rw [heq]
        exact List.take_prefix _ _
      · rfl
    rw [if_pos hne]
  · cases hs : strchr (line ++ '\n' :: rest) '\t' with
    | none => rfl
    | some n =>
      simp only
      rw [strchr_append_not_mem line _ '\t' htab] at hs
      have hn : line.length < n := by
        rw [strchr_cons, if_neg (by decide)] at hs
        cases h2 : strchr rest '\t' with
        | none => simp [h2] at hs
        | some j =>
          simp only [h2, Option.map_some', Option.some.injEq] at hs
          omega
      have hne : strncmp (line ++ '\n' :: rest) key n ≠ 0 := by
        rw [ne_eq, strncmp_zero_iff]
        intro heq
        have hmem : '\n' ∈ (line ++ '\n' :: rest).take n := by
          rw [List.take_append_eq_append_take]
          apply List.mem_append_right
          obtain ⟨m, hm⟩ : ∃ m, n - line.length = m + 1 := ⟨n - line.length - 1, by omega⟩
          rw [hm, List.take_succ_cons]
          exact List.mem_cons_self _ _
        rw [heq] at hmem
        exact hkey (List.mem_of_mem_take hmem)
      rw [if_pos hne]

theorem drop_key_tab (key rest : List Char) :
    (key ++ '\t' :: rest).drop (key.length + 1) = rest := by
  have h : key ++ '\t' :: rest = (key ++ ['\t']) ++ rest := by simp
  rw [h]
  exact List.drop_left' (by simp)

/-- Function `match_column` at a line labeled with the key whose first column is
followed by a tab: the column is returned, whatever follows. -/
theorem match_column_tab (key col rest : List Char) (hkey : '\t' ∉ key) (hct : '\t' ∉ col)
    (hcn : '\n' ∉ col) :
    match_column key (key ++ '\t' :: (col ++ '\t' :: rest)) = some (some col) := by
  unfold match_column
  rw [strchr_first key _ '\t' hkey]
  simp only
  have hz : strncmp (key ++ '\t' :: (col ++ '\t' :: rest)) key key.length = 0 := by
    rw [strncmp_zero_iff, List.take_left' rfl, List.take_length]
  rw [if_neg (by rw [hz]; simp), drop_key_tab, strchr_first col _ '\t' hct,
    strchr_append_not_mem col _ '\n' hcn, strchr_cons, if_neg (by decide)]
  cases strchr rest '\n' with
  | none =>
    simp only [Option.map_none']
    rw [List.take_left' rfl]
  | some j =>
    simp only [Option.map_some']
    rw [if_pos (by omega), List.take_left' rfl]

/-- Function `match_column` at a line labeled with the key that has one column,
when a tab occurs later in the buffer: the column is returned. -/
theorem match_column_newline (key col rest : List Char) (hkey : '\t' ∉ key)
    (hct : '\t' ∉ col) (hcn : '\n' ∉ col) (hrest : '\t' ∈ rest) :
    match_column key (key ++ '\t' :: (col ++ '\n' :: rest)) = some (some col) := by
  obtain ⟨a, b, _, _, hsr⟩ := strchr_mem rest '\t' hrest
  unfold match_column
  rw [strchr_first key _ '\t' hkey]
  simp only
  have hz : strncmp (key ++ '\t' :: (col ++ '\n' :: rest)) key key.length = 0 := by
    rw [strncmp_zero_iff, List.take_left' rfl, List.take_length]
  rw [if_neg (by rw [hz]; simp), drop_key_tab, strchr_first col _ '\n' hcn,
    strchr_append_not_mem col _ '\t' hct, strchr_cons, if_neg (by decide), hsr]
  simp only [Option.map_some']
  rw [if_neg (by omega), List.take_left' rfl]

theorem fmt_int_chars (v : Int) : ∀ c ∈ fmt_int v, isdigit c = true ∨ c = '-' := by
  intro c hc
  unfold fmt_int fmt_nat at hc
  split at hc
  · rcases List.mem_cons.1 hc with h | h
    · exact Or.inr h
    · exact Or.inl (fmt_nat_fuel_digits _ _ c h)
  · exact Or.inl (fmt_nat_fuel_digits _ _ c hc)

theorem fmt_int_not_mem (v : Int) (c : Char) (hd : isdigit c = false) (hm : c ≠ '-') :
    c ∉ fmt_int v := by
  intro hc
  rcases fmt_int_chars v c hc with h | h
  · rw [hd] at h
    cases h
  · exact hm h

theorem digit_value_digit (c : Char) (h : isdigit c = true) :
    digit_value c = c.toNat - 48 ∧ digit_value c < 10 := by
  unfold digit_value
  rw [if_pos h]
  simp only [isdigit, Bool.and_eq_true, decide_eq_true_eq] at h
  exact ⟨rfl, by omega⟩

theorem scan_base_digits (ds : List Char) :
    ∀ acc, (∀ c ∈ ds, isdigit c = true) → scan_base 10 ds acc = digits_value ds acc := by
  induction ds with
  | nil => intro acc _; rfl
  | cons d ds ih =>
    intro acc h
    have hd := digit_value_digit d (h d (List.mem_cons_self _ _))
    unfold scan_base
    rw [if_pos hd.2, hd.1, ih _ (fun c hc => h c (List.mem_cons_of_mem _ hc))]
    rfl

theorem fmt_nat_fuel_head (f : Nat) :
    ∀ n, n < f → 1 ≤ n → (fmt_nat_fuel f n).head? ≠ some '0' := by
  induction f with
  | zero => intro n h; omega
  | succ f ih =>
    intro n hn h1
    unfold fmt_nat_fuel
    split
    · rename_i h10
      interval_cases n <;> decide
    · rename_i h10
      have hq : n / 10 < f := by omega
      have hq1 : 1 ≤ n / 10 := by omega
      have := ih (n / 10) hq hq1
      have hne := fmt_nat_fuel_ne_nil f (n / 10) hq
      cases hl : fmt_nat_fuel f (n / 10) with
      | nil => exact absurd hl hne
      | cons c cs =>
        rw [hl] at this
        simpa using this

/-- C `strtol` with base 0 reads back the decimal text of a `long`. -/
theorem strtol_fmt_int (v : Int) (h : is_long v) : strtol (fmt_int v) = (v, false) := by
  unfold is_long LONG_MIN LONG_MAX at h
  by_cases h0 : v = 0
  · subst h0
    decide
  · have hn1 : 1 ≤ v.natAbs := by omega
    obtain ⟨c, cs, hcs, hc⟩ := fmt_nat_cons v.natAbs
    have hhead := fmt_nat_fuel_head (v.natAbs + 1) v.natAbs (Nat.lt_succ_self _) hn1
    have hdig : ∀ x ∈ fmt_nat v.natAbs, isdigit x = true := fmt_nat_fuel_digits _ _
    have hval : scan_base 10 (fmt_nat v.natAbs) 0 = v.natAbs := by
      rw [scan_base_digits _ 0 hdig]
      exact digits_value_fmt (v.natAbs + 1) v.natAbs (Nat.lt_succ_self _)
    have hh0 : ¬ ((fmt_nat v.natAbs).head? = some '0') := hhead
    have hcm : c ≠ '-' := isdigit_ne_minus c hc
    have hcp : c ≠ '+' := isdigit_ne_plus c hc
    have hsp : isspace c = false := isdigit_not_space c hc
    by_cases hv : v < 0
    · have hfmt : fmt_int v = '-' :: fmt_nat v.natAbs := by
        unfold fmt_int
        rw [if_pos hv]
      have hskip : skip_space ('-' :: fmt_nat v.natAbs) = '-' :: fmt_nat v.natAbs := by
        unfold skip_space
        rw [if_neg (by rw [isspace_minus]; simp)]
      unfold strtol
      simp only [hfmt, hskip, List.head?_cons, true_or, if_true, List.tail_cons, hh0, if_false,
        hval, decide_True]
      unfold LONG_MIN
      rw [if_neg (by omega)]
      congr 1
      omega
    · have hfmt : fmt_int v = fmt_nat v.natAbs := by
        unfold fmt_int
        rw [if_neg hv]
      have hskip : skip_space (fmt_nat v.natAbs) = fmt_nat v.natAbs := by
        rw [hcs]
        unfold skip_space
        rw [if_neg (by rw [hsp]; simp)]
      have hm : ¬ ((fmt_nat v.natAbs).head? = some '-') := by
        rw [hcs]
        simpa using hcm
      have hp : ¬ ((fmt_nat v.natAbs).head? = some '+') := by
        rw [hcs]
        simpa using hcp
      unfold strtol
      simp only [hfmt, hskip, hm, hp, or_self, if_false, hh0, hval, decide_False]
      unfold LONG_MAX
      simp only [Bool.false_eq_true, if_false]
      rw [if_neg (by omega)]
      congr 1
      omega

/-- The value stored from the decimal text of an `int` is that `int`. -/
theorem parse_column_fmt_int (v : Int) (h : is_int v) : parse_column (fmt_int v) = v := by
  have hl : is_long v := by
    unfold is_int INT_MIN INT_MAX at h
    unfold is_long LONG_MIN LONG_MAX
    omega
  unfold parse_column
  rw [strtol_fmt_int v hl]
  simp only [Bool.false_eq_true, if_false]
  unfold is_int INT_MIN INT_MAX at h
  unfold to_int32
  omega

theorem get_proc_info_loop_succ (fuel : Nat) (buf : List Char) (uid gid ppid : Int) :
    get_proc_info_loop (fuel + 1) buf uid gid ppid =
      match get_proc_info_body buf uid gid ppid with
      | none => none
      | some (some retval, uid, gid, ppid) => some (retval, uid, gid, ppid)
      | some (none, uid, gid, ppid) =>
        match strchr buf '\n' with
        | none => some (1, uid, gid, ppid)
        | some i =>
          if buf.drop (i + 1) = [] then some (1, uid, gid, ppid)
          else get_proc_info_loop fuel (buf.drop (i + 1)) uid gid ppid := rfl

theorem drop_line (line rest : List Char) :
    (line ++ '\n' :: rest).drop (line.length + 1) = rest := by
  have h : line ++ '\n' :: rest = (line ++ ['\n']) ++ rest := by simp
  rw [h]
  exact List.drop_left' (by simp)

/-- A pass of the loop over a line that leaves the variables as they are goes
on with the text after the line. -/
theorem get_proc_info_loop_line (fuel : Nat) (line rest : List Char) (uid gid ppid : Int)
    (uid2 gid2 ppid2 : Int) (hline : '\n' ∉ line) (hrest : rest ≠ [])
    (hbody : get_proc_info_body (line ++ '\n' :: rest) uid gid ppid =
      some (none, uid2, gid2, ppid2)) :
    get_proc_info_loop (fuel + 1) (line ++ '\n' :: rest) uid gid ppid =
      get_proc_info_loop fuel rest uid2 gid2 ppid2 := by
  rw [get_proc_info_loop_succ, hbody]
  simp only
  rw [strchr_first line rest '\n' hline]
  simp only
  rw [drop_line, if_neg hrest]

theorem unlines_cons (l : List Char) (ls : List (List Char)) (rest : List Char) :
    unlines (l :: ls) ++ rest = l ++ '\n' :: (unlines ls ++ rest) := by
  simp [unlines]

/-- The loop passes over lines that leave the variables as they are. -/
theorem get_proc_info_loop_skip (uid gid ppid : Int) (R : Option (Int × Int × Int × Int)) :
    ∀ (lines : List (List Char)) (rest : List Char),
      (∀ l ∈ lines, '\n' ∉ l ∧ ∀ x, get_proc_info_body (l ++ '\n' :: x) uid gid ppid =
        some (none, uid, gid, ppid)) →
      rest ≠ [] →
      (∀ fuel, rest.length < fuel → get_proc_info_loop fuel rest uid gid ppid = R) →
      ∀ fuel, (unlines lines ++ rest).length < fuel →
        get_proc_info_loop fuel (unlines lines ++ rest) uid gid ppid = R := by
  intro lines
  induction lines with
  | nil =>
    intro rest _ _ hR fuel hf
    simpa [unlines] using hR fuel (by simpa [unlines] using hf)
  | cons l ls ih =>
    intro rest hl hrest hR fuel hf
    rw [unlines_cons] at hf ⊢
    obtain ⟨f, rfl⟩ : ∃ f, fuel = f + 1 := ⟨fuel - 1, by omega⟩
    have hl0 := hl l (List.mem_cons_self _ _)
    have hne : unlines ls ++ rest ≠ [] := by
      intro h
      exact hrest (List.append_eq_nil.1 h).2
    rw [get_proc_info_loop_line f l _ uid gid ppid uid gid ppid hl0.1 hne (hl0.2 _)]
    apply ih rest (fun x hx => hl x (List.mem_cons_of_mem _ hx)) hrest hR
    simp only [List.length_append, List.length_cons] at hf ⊢
    omega

theorem body_seeking_ppid (line x : List Char) (uid gid : Int)
    (h : not_taken_for "PPid:".toList line) :
    get_proc_info_body (line ++ '\n' :: x) uid gid (-1) = some (none, uid, gid, -1) := by
  unfold get_proc_info_body
  rw [if_pos rfl, match_column_not_taken _ line x (by decide) h]

theorem body_seeking_uid (line x : List Char) (gid ppid : Int) (hp : ppid ≠ -1)
    (h : not_taken_for "Uid:".toList line) :
    get_proc_info_body (line ++ '\n' :: x) (-1) gid ppid = some (none, -1, gid, ppid) := by
  unfold get_proc_info_body
  rw [if_neg hp, if_pos rfl, match_column_not_taken _ line x (by decide) h]

theorem body_seeking_gid (line x : List Char) (uid ppid : Int) (hp : ppid ≠ -1)
    (hu : uid ≠ -1) (h : not_taken_for "Gid:".toList line) :
    get_proc_info_body (line ++ '\n' :: x) uid (-1) ppid = some (none, uid, -1, ppid) := by
  unfold get_proc_info_body
  rw [if_neg hp, if_neg hu, if_pos rfl, match_column_not_taken _ line x (by decide) h]

theorem fmt_int_no_tab (v : Int) : '\t' ∉ fmt_int v :=
  fmt_int_not_mem v '\t' (by decide) (by decide)

theorem fmt_int_no_newline (v : Int) : '\n' ∉ fmt_int v :=
  fmt_int_not_mem v '\n' (by decide) (by decide)

theorem fmt_int_no_nul (v : Int) : Char.ofNat 0 ∉ fmt_int v :=
  fmt_int_not_mem v (Char.ofNat 0) (by decide) (by decide)

/-- The loop on a status text in the order of the kernel, from the start. -/
theorem get_proc_info_loop_status (pre mid1 mid2 : List (List Char)) (p u g : Int)
    (columns z : List Char)
    (hp : is_int p) (hp1 : p ≠ -1) (hu : is_int u) (hu1 : u ≠ -1) (hg : is_int g)
    (hg1 : g ≠ -1)
    (hpre : ∀ l ∈ pre, plain_line l ∧ not_taken_for "PPid:".toList l)
    (hmid1 : ∀ l ∈ mid1, plain_line l ∧ not_taken_for "Uid:".toList l)
    (hmid2 : ∀ l ∈ mid2, plain_line l ∧ not_taken_for "Gid:".toList l)
    (hcol : plain_line columns) :
    ∀ fuel, (status_text pre mid1 mid2 p u g columns z).length < fuel →
      get_proc_info_loop fuel (status_text pre mid1 mid2 p u g columns z) (-1) (-1) (-1) =
        some (0, u, g, p) := by
  have hgid : ∀ fuel, (gid_line g z).length < fuel →
      get_proc_info_loop fuel (gid_line g z) u (-1) p = some (0, u, g, p) := by
    intro fuel hf
    obtain ⟨f, rfl⟩ : ∃ f, fuel = f + 1 := ⟨fuel - 1, by omega⟩
    rw [get_proc_info_loop_succ]
    unfold get_proc_info_body gid_line
    rw [if_neg hp1, if_neg hu1, if_pos rfl,
      match_column_tab _ (fmt_int g) z (by decide) (fmt_int_no_tab g) (fmt_int_no_newline g)]
    simp only [parse_column_fmt_int g hg, ne_eq, hg1, not_false_eq_true, if_true]
  have hgidne : gid_line g z ≠ [] := by simp [gid_line]
  have hskip2 := get_proc_info_loop_skip u (-1) p (some (0, u, g, p)) mid2 (gid_line g z)
    (fun l hl => ⟨(hmid2 l hl).1.1, fun x => body_seeking_gid l x u p hp1 hu1 (hmid2 l hl).2⟩)
    hgidne hgid
  have hne2 : unlines mid2 ++ gid_line g z ≠ [] := by
    intro h
    exact hgidne (List.append_eq_nil.1 h).2
  have huid : ∀ fuel, (uid_line u columns (unlines mid2 ++ gid_line g z)).length < fuel →
      get_proc_info_loop fuel (uid_line u columns (unlines mid2 ++ gid_line g z)) (-1) (-1) p =
        some (0, u, g, p) := by
    intro fuel hf
    obtain ⟨f, rfl⟩ : ∃ f, fuel = f + 1 := ⟨fuel - 1, by omega⟩
    have hshape : uid_line u columns (unlines mid2 ++ gid_line g z) =
        ("Uid:".toList ++ '\t' :: (fmt_int u ++ '\t' :: columns)) ++
          '\n' :: (unlines mid2 ++ gid_line g z) := by
      simp [uid_line]
    have hnl : '\n' ∉ "Uid:".toList ++ '\t' :: (fmt_int u ++ '\t' :: columns) := by
      have h1 := fmt_int_no_newline u
      have h2 := hcol.1
      simp only [List.mem_append, List.mem_cons, not_or]
      exact ⟨by decide, by decide, h1, by decide, h2⟩
    have hbody : get_proc_info_body (uid_line u columns (unlines mid2 ++ gid_line g z))
        (-1) (-1) p = some (none, u, -1, p) := by
      unfold get_proc_info_body uid_line
      rw [if_neg hp1, if_pos rfl,
        match_column_tab _ (fmt_int u) _ (by decide) (fmt_int_no_tab u) (fmt_int_no_newline u)]
      simp only [parse_column_fmt_int u hu]
    rw [hshape] at hbody hf ⊢
    rw [get_proc_info_loop_line f _ _ (-1) (-1) p u (-1) p hnl hne2 hbody]
    apply hskip2
    simp only [List.length_append, List.length_cons] at hf ⊢
    omega
  have huidne : uid_line u columns (unlines mid2 ++ gid_line g z) ≠ [] := by simp [uid_line]
  have hskip1 := get_proc_info_loop_skip (-1) (-1) p (some (0, u, g, p)) mid1 _
    (fun l hl => ⟨(hmid1 l hl).1.1, fun x => body_seeking_uid l x (-1) p hp1 (hmid1 l hl).2⟩)
    huidne huid
  have hne1 : unlines mid1 ++ uid_line u columns (unlines mid2 ++ gid_line g z) ≠ [] := by
    intro h
    exact huidne (List.append_eq_nil.1 h).2
  have htab1 : '\t' ∈ unlines mid1 ++ uid_line u columns (unlines mid2 ++ gid_line g z) := by
    apply List.mem_append_right
    simp [uid_line]
  have hppid : ∀ fuel,
      (ppid_line p (unlines mid1 ++ uid_line u columns (unlines mid2 ++ gid_line g z))).length
        < fuel →
      get_proc_info_loop fuel
        (ppid_line p (unlines mid1 ++ uid_line u columns (unlines mid2 ++ gid_line g z)))
        (-1) (-1) (-1) = some (0, u, g, p) := by
    intro fuel hf
    obtain ⟨f, rfl⟩ : ∃ f, fuel = f + 1 := ⟨fuel - 1, by omega⟩
    have hshape : ∀ y, ppid_line p y = ("PPid:".toList ++ '\t' :: fmt_int p) ++ '\n' :: y := by
      intro y
      simp [ppid_line]
    have hnl : '\n' ∉ "PPid:".toList ++ '\t' :: fmt_int p := by
      have h1 := fmt_int_no_newline p
      simp only [List.mem_append, List.mem_cons, not_or]
      exact ⟨by decide, by decide, h1⟩
    have hbody : get_proc_info_body
        (ppid_line p (unlines mid1 ++ uid_line u columns (unlines mid2 ++ gid_line g z)))
        (-1) (-1) (-1) = some (none, -1, -1, p) := by
      unfold get_proc_info_body ppid_line
      rw [if_pos rfl, match_column_newline _ (fmt_int p) _ (by decide) (fmt_int_no_tab p)
        (fmt_int_no_newline p) htab1]
      simp only [parse_column_fmt_int p hp]
    rw [hshape] at hbody hf ⊢
    rw [get_proc_info_loop_line f _ _ (-1) (-1) (-1) (-1) (-1) p hnl hne1 hbody]
    apply hskip1
    simp only [List.length_append, List.length_cons] at hf ⊢
    omega
  have hppidne :
      ppid_line p (unlines mid1 ++ uid_line u columns (unlines mid2 ++ gid_line g z)) ≠ [] := by
    simp [ppid_line]
  exact get_proc_info_loop_skip (-1) (-1) (-1) (some (0, u, g, p)) pre _
    (fun l hl => ⟨(hpre l hl).1.1, fun x => body_seeking_ppid l x (-1) (-1) (hpre l hl).2⟩)
    hppidne hppid

theorem unlines_no_nul (lines : List (List Char)) (h : ∀ l ∈ lines, Char.ofNat 0 ∉ l) :
    Char.ofNat 0 ∉ unlines lines := by
  induction lines with
  | nil => simp [unlines]
  | cons l ls ih =>
    have h1 := unlines_cons l ls []
    rw [List.append_nil, List.append_nil] at h1
    rw [h1]
    simp only [List.mem_append, List.mem_cons, not_or]
    exact ⟨h l (List.mem_cons_self _ _), by decide,
      ih (fun x hx => h x (List.mem_cons_of_mem _ hx))⟩

theorem status_text_tail (pre mid1 mid2 : List (List Char)) (p u g : Int)
    (columns tail : List Char) :
    status_text pre mid1 mid2 p u g columns tail =
      status_text pre mid1 mid2 p u g columns [] ++ tail := by
  simp [status_text, ppid_line, uid_line, gid_line, List.append_assoc]

theorem status_text_no_nul (pre mid1 mid2 : List (List Char)) (p u g : Int)
    (columns : List Char)
    (hpre : ∀ l ∈ pre, Char.ofNat 0 ∉ l) (hmid1 : ∀ l ∈ mid1, Char.ofNat 0 ∉ l)
    (hmid2 : ∀ l ∈ mid2, Char.ofNat 0 ∉ l) (hcol : Char.ofNat 0 ∉ columns) :
    Char.ofNat 0 ∉ status_text pre mid1 mid2 p u g columns [] := by
  have h1 := unlines_no_nul pre hpre
  have h2 := unlines_no_nul mid1 hmid1
  have h3 := unlines_no_nul mid2 hmid2
  have h4 := fmt_int_no_nul p
  have h5 := fmt_int_no_nul u
  have h6 := fmt_int_no_nul g
  unfold status_text ppid_line uid_line gid_line
  simp only [List.mem_append, List.mem_cons, not_or]
  refine ⟨h1, by decide, by decide, h4, by decide, h2, by decide, by decide, h5, by decide,
    hcol, by decide, h3, by decide, by decide, h6, by decide, by simp⟩

/-- C18 (counterexample): a status text with a `Uid:` line of four integers, then
a `PPid:` line, then a `Gid:` line of four integers; `get_proc_info` returns 1
and leaves `uid` and `gid` at -1. -/
theorem C18_counterexample_uid_line_first :
    demo_status_reordered =
        "Uid:\t500\t501\t502\t503\nPPid:\t4200\nGid:\t100\t101\t102\t103\n".toList ∧
      get_proc_info (ReadResult.bytes demo_status_reordered) [] = some (1, -1, -1, 4200) := by
  refine ⟨rfl, by decide⟩

/-- C18 (amended): for every status text of at most `buf_size - 1` bytes up to
the first column of its `Gid:` line, in which a line `PPid:` with one integer
comes before a line `Uid:` whose first column is an integer followed by a
tab, which comes before a line `Gid:` whose first column is an integer
followed by a tab, the three integers being `int` values other than -1, and
in which no earlier line is taken for the label looked for (no line before
the `PPid:` line has a tab after a beginning of `PPid:`, and likewise for
`Uid:` between the two, and for `Gid:`), `get_proc_info` returns 0 with
`ppid`, `uid`, `gid` equal to the `PPid` value and to the first integers of
the `Uid:` and `Gid:` lines, whatever the later columns, the later lines and
the rest of the buffer contain. -/
theorem C18_get_proc_info_ordered (pre mid1 mid2 : List (List Char)) (p u g : Int)
    (columns tail junk : List Char)
    (hp : is_int p) (hp1 : p ≠ -1) (hu : is_int u) (hu1 : u ≠ -1) (hg : is_int g)
    (hg1 : g ≠ -1)
    (hpre : ∀ l ∈ pre, plain_line l ∧ not_taken_for "PPid:".toList l)
    (hmid1 : ∀ l ∈ mid1, plain_line l ∧ not_taken_for "Uid:".toList l)
    (hmid2 : ∀ l ∈ mid2, plain_line l ∧ not_taken_for "Gid:".toList l)
    (hcol : plain_line columns)
    (hlen : (status_text pre mid1 mid2 p u g columns []).length ≤ buf_size - 1) :
    get_proc_info (ReadResult.bytes (status_text pre mid1 mid2 p u g columns tail)) junk =
      some (0, u, g, p) := by
  have hnul := status_text_no_nul pre mid1 mid2 p u g columns
    (fun l hl => (hpre l hl).1.2) (fun l hl => (hmid1 l hl).1.2)
    (fun l hl => (hmid2 l hl).1.2) hcol.2
  have hbuf : ∃ z, c_string ((status_text pre mid1 mid2 p u g columns tail).take (buf_size - 1)
      ++ junk) = status_text pre mid1 mid2 p u g columns z := by
    refine ⟨c_string (tail.take (buf_size - 1 -
      (status_text pre mid1 mid2 p u g columns []).length) ++ junk), ?_⟩
    rw [status_text_tail pre mid1 mid2 p u g columns tail, List.take_append_eq_append_take,
      List.take_of_length_le hlen, List.append_assoc]
    unfold c_string
    rw [List.takeWhile_append_of_pos, ← status_text_tail]
    intro a ha
    simp only [ne_eq, decide_not, Bool.not_eq_true', decide_eq_false_iff_not]
    intro h0
    rw [h0] at ha
    exact hnul ha
  obtain ⟨z, hz⟩ := hbuf
  unfold get_proc_info
  simp only
  rw [hz]
  exact get_proc_info_loop_status pre mid1 mid2 p u g columns z hp hp1 hu hu1 hg hg1 hpre hmid1
    hmid2 hcol _ (Nat.lt_succ_self _)

set_option maxRecDepth 100000 in
theorem C18_get_proc_info_ordered_witness :
    demo_status = status_text
        ["Name:\tbash".toList, "State:\tS (sleeping)".toList, "Tgid:\t4242".toList,
          "Pid:\t4242".toList]
        ["TracerPid:\t0".toList] [] 4200 500 100 "501\t502\t503".toList
        "101\t102\t103\nFDSize:\t256\n".toList ∧
      get_proc_info (ReadResult.bytes (status_text
        ["Name:\tbash".toList, "State:\tS (sleeping)".toList, "Tgid:\t4242".toList,
          "Pid:\t4242".toList]
        ["TracerPid:\t0".toList] [] 4200 500 100 "501\t502\t503".toList
        "101\t102\t103\nFDSize:\t256\n".toList)) "junk".toList = some (0, 500, 100, 4200) :=
  ⟨by decide,
    C18_get_proc_info_ordered _ _ _ 4200 500 100 _ _ _ (by decide) (by decide) (by decide)
      (by decide) (by decide) (by decide) (by decide) (by decide) (by decide) (by decide)
      (by decide)⟩

theorem strchr_lt (s : List Char) (c : Char) :
    ∀ i, strchr s c = some i → i < s.length := by
  induction s with
  | nil => intro i h; cases h
  | cons x xs ih =>
    intro i h
    rw [strchr_cons] at h
    by_cases hx : x = c
    · rw [if_pos hx] at h
      cases h
      simp
    · rw [if_neg hx] at h
      cases hs : strchr xs c with
      | none => simp [hs] at h
      | some j =>
        simp only [hs, Option.map_some', Option.some.injEq] at h
        have := ih j hs
        simp only [List.length_cons]
        omega

/-- The bound on the passes of the loop of `get_proc_info` is never reached
when it exceeds the length of the buffer: the result is that of any larger
bound. -/
theorem get_proc_info_loop_fuel (fuel : Nat) :
    ∀ (fuel2 : Nat) (buf : List Char) (uid gid ppid : Int),
      buf.length < fuel → buf.length < fuel2 →
      get_proc_info_loop fuel buf uid gid ppid = get_proc_info_loop fuel2 buf uid gid ppid := by
  induction fuel with
  | zero => intro fuel2 buf uid gid ppid h; omega
  | succ f ih =>
    intro fuel2 buf uid gid ppid h1 h2
    obtain ⟨f2, rfl⟩ : ∃ f2, fuel2 = f2 + 1 := ⟨fuel2 - 1, by omega⟩
    rw [get_proc_info_loop_succ, get_proc_info_loop_succ]
    cases hb : get_proc_info_body buf uid gid ppid with
    | none => rfl
    | some r =>
      obtain ⟨o, u2, g2, p2⟩ := r
      cases o with
      | some retval => rfl
      | none =>
        simp only
        cases hs : strchr buf '\n' with
        | none => rfl
        | some i =>
          simp only
          by_cases hd : buf.drop (i + 1) = []
          · rw [if_pos hd, if_pos hd]
          · rw [if_neg hd, if_neg hd]
            have hi := strchr_lt buf '\n' i hs
            apply ih
            · rw [List.length_drop]; omega
            · rw [List.length_drop]; omega

theorem get_proc_info_body_zero (buf : List Char) (uid gid ppid u g p : Int)
    (h : get_proc_info_body buf uid gid ppid = some (some 0, u, g, p)) :
    u ≠ -1 ∧ g ≠ -1 ∧ p ≠ -1 := by
  unfold get_proc_info_body at h
  by_cases h1 : ppid = -1
  · rw [if_pos h1] at h
    split at h <;> simp at h
  · rw [if_neg h1] at h
    by_cases h2 : uid = -1
    · rw [if_pos h2] at h
      split at h <;> simp at h
    · rw [if_neg h2] at h
      by_cases h3 : gid = -1
      · rw [if_pos h3] at h
        split at h
        · simp at h
        · simp at h
        · rename_i cgid _
          by_cases h4 : parse_column cgid ≠ -1
          · rw [if_pos h4] at h
            simp only [Option.some.injEq, Prod.mk.injEq, true_and] at h
            obtain ⟨hu, hg, hp⟩ := h
            subst hu hg hp
            exact ⟨h2, h4, h1⟩
          · rw [if_neg h4] at h
            simp at h
      · rw [if_neg h3] at h
        simp at h

/-- The loop of `get_proc_info` returns 0 only with the three values read, none
of them being the marker -1. -/
theorem get_proc_info_loop_zero (fuel : Nat) :
    ∀ (buf : List Char) (uid gid ppid u g p : Int),
      get_proc_info_loop fuel buf uid gid ppid = some (0, u, g, p) →
      u ≠ -1 ∧ g ≠ -1 ∧ p ≠ -1 := by
  induction fuel with
  | zero =>
    intro buf uid gid ppid u g p h
    cases h
  | succ f ih =>
    intro buf uid gid ppid u g p h
    rw [get_proc_info_loop_succ] at h
    cases hb : get_proc_info_body buf uid gid ppid with
    | none => simp [hb] at h
    | some r =>
      obtain ⟨o, u2, g2, p2⟩ := r
      cases o with
      | some retval =>
        simp only [hb, Option.some.injEq, Prod.mk.injEq] at h
        obtain ⟨hr, hu, hg, hp⟩ := h
        subst hr hu hg hp
        exact get_proc_info_body_zero buf uid gid ppid _ _ _ hb
      | none =>
        simp only [hb] at h
        cases hs : strchr buf '\n' with
        | none => simp [hs] at h
        | some i =>
          simp only [hs] at h
          by_cases hd : buf.drop (i + 1) = []
          · simp [hd] at h
          · rw [if_neg hd] at h
            exact ih _ _ _ _ _ _ _ h

/-- Function `get_proc_info` returns 0 on the bytes read only with a uid, a gid
and a ppid other than -1: these are the values `mineProc` stores in the
snapshot. -/
theorem get_proc_info_zero (data junk : List Char) (u g p : Int)
    (h : get_proc_info (ReadResult.bytes data) junk = some (0, u, g, p)) :
    u ≠ -1 ∧ g ≠ -1 ∧ p ≠ -1 := by
  unfold get_proc_info at h
  exact get_proc_info_loop_zero _ _ _ _ _ _ _ _ h

/-! ## The ways out of `getHash` -/

/-- The loop of `getHash` returns what its `return` statement says. -/
theorem getHash_loop_eq_exit (ah : AncestryHash) (proc : Proc) :
    ∀ (l : List Int) (orig pid_it : Int),
      ah.getHash_loop proc l orig pid_it = (ah.getHash_loop_exit proc l orig pid_it).result proc := by
  intro l
  induction l with
  | nil => intro orig pid_it; rfl
  | cons it rest ih =>
    intro orig pid_it
    unfold AncestryHash.getHash_loop AncestryHash.getHash_loop_exit
    cases hu : map_find ah.process_uid_mapping it with
    | none => rfl
    | some uid =>
      simp only
      by_cases hv : (ah.getParentIDs proc pid_it).isNone = true
      · rw [if_pos hv, if_pos hv]
        rfl
      · rw [if_neg hv, if_neg hv]
        by_cases ht : uid ≠ (if orig = -1 then uid else orig)
        · rw [if_pos ht, if_pos ht]
          rfl
        · rw [if_neg ht, if_neg ht]
          exact ih _ _

/-- Method `getHash` returns what its `return` statement says. -/
theorem getHash_eq_exit (ah : AncestryHash) (proc : Proc) (fuel : Nat) (pid : Int) :
    ah.getHash proc fuel pid = (ah.getHash_exit proc fuel pid).map (HashExit.result proc) := by
  unfold AncestryHash.getHash AncestryHash.getHash_exit
  cases hm : ah.makeAncestry fuel pid with
  | none => rfl
  | some r =>
    obtain ⟨rc, a⟩ := r
    simp only
    by_cases hrc : rc ≠ 0
    · rw [if_pos hrc, if_pos hrc]
      rfl
    · rw [if_neg hrc, if_neg hrc]
      by_cases hlen : a.length < 3
      · rw [if_pos hlen, if_pos hlen]
        rfl
      · rw [if_neg hlen, if_neg hlen]
        match a with
        | [] => rfl
        | [_] => rfl
        | _ :: it :: rest =>
          simp only [Option.map_some', Option.some.injEq]
          exact getHash_loop_eq_exit ah proc _ _ _

/-- The loop of `getHash` on a snapshot without UID entry for PID 1: it falls
through only when PID 1 is not in the list; when it is left while PID 1 is
inspected, it is left at the UID-map lookup; a transition is never found at
PID 1. -/
theorem getHash_loop_exit_root (ah : AncestryHash) (proc : Proc) (hroot : ah.uid_of 1 = none) :
    ∀ (l : List Int) (orig pid_it : Int),
      (ah.getHash_loop_exit proc l orig pid_it = HashExit.fall_through → 1 ∉ l) ∧
      ((ah.getHash_loop_exit proc l orig pid_it).inspected = some 1 →
        ah.getHash_loop_exit proc l orig pid_it = HashExit.not_in_uid_map 1) ∧
      (∀ it c, ah.getHash_loop_exit proc l orig pid_it = HashExit.transition it c →
        it ≠ 1 ∧ it ∈ l) := by
  intro l
  induction l with
  | nil =>
    intro orig pid_it
    refine ⟨fun _ => by simp, ?_, ?_⟩
    · intro h
      simp [AncestryHash.getHash_loop_exit, HashExit.inspected] at h
    · intro it c h
      simp [AncestryHash.getHash_loop_exit] at h
  | cons x rest ih =>
    intro orig pid_it
    unfold AncestryHash.getHash_loop_exit
    cases hu : map_find ah.process_uid_mapping x with
    | none =>
      simp only
      refine ⟨(fun h => by cases h), ?_, (fun it c h => by cases h)⟩
      intro h
      simp only [HashExit.inspected, Option.some.injEq] at h
      rw [h]
    | some uid =>
      have hx : x ≠ 1 := by
        intro h1
        rw [h1] at hu
        have : map_find ah.process_uid_mapping 1 = none := hroot
        rw [this] at hu
        cases hu
      simp only
      by_cases hv : (ah.getParentIDs proc pid_it).isNone = true
      · rw [if_pos hv]
        refine ⟨(fun h => by cases h), ?_, (fun it c h => by cases h)⟩
        intro h
        simp only [HashExit.inspected, Option.some.injEq] at h
        exact absurd h hx
      · rw [if_neg hv]
        by_cases ht : uid ≠ (if orig = -1 then uid else orig)
        · rw [if_pos ht]
          refine ⟨(fun h => by cases h), ?_, ?_⟩
          · intro h
            simp only [HashExit.inspected, Option.some.injEq] at h
            exact absurd h hx
          · intro it c h
            simp only [HashExit.transition.injEq] at h
            rw [← h.1]
            exact ⟨hx, List.mem_cons_self _ _⟩
        · rw [if_neg ht]
          obtain ⟨h1, h2, h3⟩ := ih (if orig = -1 then uid else orig) x
          refine ⟨?_, h2, ?_⟩
          · intro h hmem
            rcases List.mem_cons.1 hmem with hm | hm
            · exact hx hm.symm
            · exact h1 h hm
          · intro it c h
            obtain ⟨ha, hb⟩ := h3 it c h
            exact ⟨ha, List.mem_cons_of_mem _ hb⟩

theorem create_hash_some (proc : Proc) (pid ppid : Int) (h : List Char)
    (hc : create_hash proc pid ppid = some h) :
    ∃ t, proc.stat pid = StatResult.ok t ∧ h = fmt_hash pid ppid t := by
  unfold create_hash at hc
  split at hc
  · cases hc
  · split at hc
    · rename_i t ht
      exact ⟨t, ht, (Option.some.inj hc).symm⟩
    · cases hc

/-- With an entry for PID 1 in the UID and GID maps the end of `getHash` after
the loop is reached. -/
theorem fall_through_with_init_entry :
    demo_uniform_init.getHash_exit demo_uniform_proc 10 10 = some HashExit.fall_through := by
  decide

/-! ## The snapshot built by `mineProc` -/

/-- The loop of `mineProc` adds no entry for a pid below 2. -/
theorem mineProc_loop_keys (pid : Int) (hpid : pid < 2) :
    ∀ (l : List Dirent) (ah ah1 : AncestryHash), ah.mineProc_loop l = some ah1 →
      (map_find ah.reverse_parentage_mapping pid = none ∧
        map_find ah.process_uid_mapping pid = none ∧
        map_find ah.process_gid_mapping pid = none) →
      map_find ah1.reverse_parentage_mapping pid = none ∧
        map_find ah1.process_uid_mapping pid = none ∧
        map_find ah1.process_gid_mapping pid = none := by
  intro l
  induction l with
  | nil =>
    intro ah ah1 h hk
    simp only [AncestryHash.mineProc_loop, Option.some.injEq] at h
    rw [← h]
    exact hk
  | cons dp rest ih =>
    intro ah ah1 h hk
    unfold AncestryHash.mineProc_loop at h
    by_cases h1 : dp.is_dir = false
    · rw [if_pos h1] at h
      exact ih ah ah1 h hk
    · rw [if_neg h1] at h
      cases hs : sscanf_d dp.d_name with
      | none =>
        simp only [hs] at h
        exact ih ah ah1 h hk
      | some proc =>
        simp only [hs] at h
        by_cases h2 : proc < 2
        · rw [if_pos h2] at h
          exact ih ah ah1 h hk
        · rw [if_neg h2] at h
          by_cases h3 : (dp.d_name ++ "/status".toList).length ≥ PATH_MAX
          · rw [if_pos h3] at h
            exact ih ah ah1 h hk
          · rw [if_neg h3] at h
            cases hst : dp.status with
            | none =>
              simp only [hst] at h
              exact ih ah ah1 h hk
            | some q =>
              obtain ⟨rd, junk⟩ := q
              simp only [hst] at h
              cases hg : get_proc_info rd junk with
              | none => simp [hg] at h
              | some r =>
                obtain ⟨result, uid, gid, ppid⟩ := r
                simp only [hg] at h
                by_cases h4 : result ≠ 0
                · rw [if_pos h4] at h
                  exact ih ah ah1 h hk
                · rw [if_neg h4] at h
                  apply ih _ ah1 h
                  have hne : (pid == proc) = false := by
                    simp only [beq_eq_false_iff_ne, ne_eq]
                    omega
                  simp only [map_find, List.lookup, hne]
                  exact hk

/-- A snapshot built by `mineProc` from empty maps has no entry for PID 1. -/
theorem mineProc_no_root (dir : ProcDir) (rv : Int) (ah1 : AncestryHash)
    (h : AncestryHash.empty.mineProc dir = some (rv, ah1)) :
    map_find ah1.reverse_parentage_mapping 1 = none ∧ ah1.uid_of 1 = none ∧
      map_find ah1.process_gid_mapping 1 = none := by
  unfold AncestryHash.mineProc at h
  cases dir with
  | failed errno =>
    simp only [Option.some.injEq, Prod.mk.injEq] at h
    rw [← h.2]
    exact ⟨rfl, rfl, rfl⟩
  | entries l =>
    simp only at h
    cases hl : AncestryHash.empty.mineProc_loop l with
    | none => simp [hl] at h
    | some ah2 =>
      simp only [hl, Option.some.injEq, Prod.mk.injEq] at h
      rw [← h.2]
      exact mineProc_loop_keys 1 (by decide) l _ ah2 hl ⟨rfl, rfl, rfl⟩

/-- The snapshot built by `mineProc` holds no uid -1, when a failing `read`
sets `errno`: `get_proc_info` returns 0 only with the three values read. -/
theorem mineProc_loop_uids :
    ∀ (l : List Dirent) (ah ah1 : AncestryHash), ah.mineProc_loop l = some ah1 →
      (∀ dp ∈ l, ∀ e junk, dp.status = some (ReadResult.error e, junk) → e ≠ 0) →
      (∀ x u, map_find ah.process_uid_mapping x = some u → u ≠ -1) →
      ∀ x u, map_find ah1.process_uid_mapping x = some u → u ≠ -1 := by
  intro l
  induction l with
  | nil =>
    intro ah ah1 h _ hk
    simp only [AncestryHash.mineProc_loop, Option.some.injEq] at h
    rw [← h]
    exact hk
  | cons dp rest ih =>
    intro ah ah1 h herr hk
    have herr2 : ∀ d ∈ rest, ∀ e junk, d.status = some (ReadResult.error e, junk) → e ≠ 0 :=
      fun d hd => herr d (List.mem_cons_of_mem _ hd)
    unfold AncestryHash.mineProc_loop at h
    by_cases h1 : dp.is_dir = false
    · rw [if_pos h1] at h
      exact ih ah ah1 h herr2 hk
    · rw [if_neg h1] at h
      cases hs : sscanf_d dp.d_name with
      | none =>
        simp only [hs] at h
        exact ih ah ah1 h herr2 hk
      | some proc =>
        simp only [hs] at h
        by_cases h2 : proc < 2
        · rw [if_pos h2] at h
          exact ih ah ah1 h herr2 hk
        · rw [if_neg h2] at h
          by_cases h3 : (dp.d_name ++ "/status".toList).length ≥ PATH_MAX
          · rw [if_pos h3] at h
            exact ih ah ah1 h herr2 hk
          · rw [if_neg h3] at h
            cases hst : dp.status with
            | none =>
              simp only [hst] at h
              exact ih ah ah1 h herr2 hk
            | some q =>
              obtain ⟨rd, junk⟩ := q
              simp only [hst] at h
              cases hg : get_proc_info rd junk with
              | none => simp [hg] at h
              | some r =>
                obtain ⟨result, uid, gid, ppid⟩ := r
                simp only [hg] at h
                by_cases h4 : result ≠ 0
                · rw [if_pos h4] at h
                  exact ih ah ah1 h herr2 hk
                · rw [if_neg h4] at h
                  have hres : result = 0 := by
                    by_contra hne
                    exact h4 hne
                  have huid : uid ≠ -1 := by
                    cases rd with
                    | bytes data =>
                      rw [hres] at hg
                      exact (get_proc_info_zero data junk uid gid ppid hg).1
                    | error e =>
                      have he := herr dp (List.mem_cons_self _ _) e junk hst
                      simp only [get_proc_info, Option.some.injEq, Prod.mk.injEq] at hg
                      omega
                  apply ih _ ah1 h herr2
                  intro x u hx
                  by_cases hxp : x = proc
                  · simp only [map_find, List.lookup, hxp, beq_self_eq_true,
                      Option.some.injEq] at hx
                    rw [← hx]
                    exact huid
                  · have hne : (x == proc) = false := by
                      simpa using hxp
                    simp only [map_find, List.lookup, hne] at hx
                    exact hk x u hx

/-- C21: on a snapshot without entry for PID 1 in its UID map, for every
`getHash` call whose ancestry walk returns: the call is left by one of the
`return` statements of `getHash` and never by the last one after the loop
("unable to determine hash from ancestry"); when it is left while PID 1 is
inspected, it is left at the UID-map lookup, with NULL; and a fingerprint
returned is the text of some `(c, pp, mtime of /proc/c)` with `pp` an ancestor
other than 1, which the reader of `check_account` reads back as ppid `pp`.
Every snapshot built by `mineProc` from empty maps is such a snapshot, since
the PIDs below 2 are skipped. -/
theorem C21_pid_one_stops_getHash (ah : AncestryHash) (proc : Proc) (fuel : Nat) (pid rc : Int)
    (a : List Int) (hroot : ah.uid_of 1 = none)
    (hanc : ah.makeAncestry fuel pid = some (rc, a)) :
    (∃ e, ah.getHash_exit proc fuel pid = some e ∧
        ah.getHash proc fuel pid = some (e.result proc) ∧
        e ≠ HashExit.fall_through ∧
        (e.inspected = some 1 →
          e = HashExit.not_in_uid_map 1 ∧ ah.getHash proc fuel pid = some none)) ∧
      (∀ h, ah.getHash proc fuel pid = some (some h) →
        ∃ c pp t, h = fmt_hash c pp t ∧ pp ≠ 1 ∧ pp ∈ a ∧ proc.stat c = StatResult.ok t ∧
          (is_int c → is_int pp → is_long t → (scanf_hash h).ppid = pp)) ∧
      (∀ dir rv ah1, AncestryHash.empty.mineProc dir = some (rv, ah1) →
        ah1.uid_of 1 = none) := by
  have hret := getHash_eq_exit ah proc fuel pid
  have hexit : ∃ e, ah.getHash_exit proc fuel pid = some e ∧ e ≠ HashExit.fall_through ∧
      (e.inspected = some 1 → e = HashExit.not_in_uid_map 1) ∧
      (∀ it c, e = HashExit.transition it c → it ≠ 1 ∧ it ∈ a) := by
    unfold AncestryHash.getHash_exit
    simp only [hanc]
    by_cases hrc : rc ≠ 0
    · rw [if_pos hrc]
      exact ⟨_, rfl, (fun h => by cases h), (fun h => by cases h), (fun it c h => by cases h)⟩
    · rw [if_neg hrc]
      by_cases hlen : a.length < 3
      · rw [if_pos hlen]
        exact ⟨_, rfl, (fun h => by cases h), (fun h => by cases h), (fun it c h => by cases h)⟩
      · rw [if_neg hlen]
        have hrc0 : rc = 0 := by
          by_contra hne
          exact hrc hne
        obtain ⟨_, _, hlast, _⟩ := makeAncestry_shape ah fuel pid rc a hanc
        have hl1 : a.getLast? = some 1 := by
          rcases hlast with ⟨_, hl⟩ | ⟨h1, _⟩
          · exact hl
          · rw [hrc0] at h1
            cases h1
        match a, hlen, hl1 with
        | [], hlen, _ => simp at hlen
        | [_], hlen, _ => simp at hlen
        | a0 :: a1 :: rest, _, hl1 =>
          obtain ⟨h1, h2, h3⟩ := getHash_loop_exit_root ah proc hroot (a1 :: rest) (-1) a1
          have hmem : (1 : Int) ∈ a1 :: rest := by
            rw [List.getLast?_cons_cons] at hl1
            exact List.mem_of_getLast?_eq_some hl1
          refine ⟨_, rfl, (fun h => h1 h hmem), h2, ?_⟩
          intro it c h
          obtain ⟨ha, hb⟩ := h3 it c h
          exact ⟨ha, List.mem_cons_of_mem _ hb⟩
  obtain ⟨e, he, hft, hins, htr⟩ := hexit
  rw [he] at hret
  simp only [Option.map_some'] at hret
  refine ⟨⟨e, he, hret, hft, ?_⟩, ?_, ?_⟩
  · intro h1
    have := hins h1
    refine ⟨this, ?_⟩
    rw [hret, this]
    rfl
  · intro h hget
    rw [hret] at hget
    have hres : e.result proc = some h := Option.some.inj hget
    cases e with
    | transition it c =>
      obtain ⟨hit, hmem⟩ := htr it c rfl
      obtain ⟨t, hstat, hh⟩ := create_hash_some proc c it h hres
      refine ⟨c, it, t, hh, hit, hmem, hstat, ?_⟩
      intro hc hp ht
      rw [hh, scanf_hash_fmt_hash c it t hc hp ht]
    | no_ancestry rc2 => cases hres
    | implausibly_small => cases hres
    | not_in_uid_map it => cases hres
    | parent_check_failed it c => cases hres
    | fall_through => cases hres
  · intro dir rv ah1 h
    exact (mineProc_no_root dir rv ah1 h).2.1

set_option maxRecDepth 100000 in
theorem C21_pid_one_stops_getHash_witness :
    demo_uniform.uid_of 1 = none ∧
      demo_uniform.makeAncestry 10 10 = some (0, [10, 9, 8, 1]) ∧
      demo_uniform.getHash_exit demo_uniform_proc 10 10 = some (HashExit.not_in_uid_map 1) ∧
      demo_uniform.getHash demo_uniform_proc 10 10 = some none ∧
      (∃ ah1, AncestryHash.empty.mineProc demo_proc_dir = some (0, ah1) ∧
        ah1.process_uid_mapping = [(4242, 500)] ∧ ah1.uid_of 1 = none) :=
  have h := C21_pid_one_stops_getHash demo_uniform demo_uniform_proc 10 10 0 [10, 9, 8, 1]
    (by decide) (by decide)
  ⟨by decide, by decide, by decide,
    (by
      obtain ⟨e, he, _, _, hins⟩ := h.1
      have he1 : e = HashExit.not_in_uid_map 1 := by
        have hd : demo_uniform.getHash_exit demo_uniform_proc 10 10 =
            some (HashExit.not_in_uid_map 1) := by decide
        rw [hd] at he
        exact (Option.some.inj he).symm
      exact (hins (by rw [he1]; rfl)).2),
    ⟨_, rfl, by decide, h.2.2 demo_proc_dir 0 _ rfl⟩⟩

/-! ## Parent cycles: when `makeAncestry` does not return -/

theorem parent_chain_cons (ah : AncestryHash) (x y : Int) (rest : List Int) :
    ah.parent_chain (x :: y :: rest) ↔
      map_find ah.reverse_parentage_mapping x = some y ∧ ah.parent_chain (y :: rest) := by
  unfold AncestryHash.parent_chain
  constructor
  · intro h
    refine ⟨by simpa using h 0 (by simp), ?_⟩
    intro i hi
    have := h (i + 1) (by simp only [List.length_cons] at hi ⊢; omega)
    simpa using this
  · rintro ⟨h0, h⟩ i hi
    cases i with
    | zero => simpa using h0
    | succ i =>
      have := h i (by simp only [List.length_cons] at hi ⊢; omega)
      simpa using this

theorem parent_chain_single (ah : AncestryHash) (x : Int) : ah.parent_chain [x] := by
  intro i hi
  simp at hi

/-- Every pid of a walk along the parent links, but the last, has a parent
entry. -/
theorem parent_chain_keys (ah : AncestryHash) :
    ∀ (c : List Int), ah.parent_chain c →
      ∀ x ∈ c.dropLast, map_find ah.reverse_parentage_mapping x ≠ none := by
  intro c
  induction c with
  | nil => intro _ x hx; simp at hx
  | cons x rest ih =>
    intro h z hz
    cases rest with
    | nil => simp at hz
    | cons y rest2 =>
      obtain ⟨h0, h1⟩ := (parent_chain_cons ah x y rest2).1 h
      simp only [List.dropLast_cons₂, List.mem_cons] at hz
      rcases hz with hz | hz
      · rw [hz, h0]
        simp
      · exact ih h1 z hz

/-- A walk along the parent links with more than `|S| + 1` pids visits a pid
twice. -/
theorem parent_chain_repeats (ah : AncestryHash) (c : List Int) (h : ah.parent_chain c)
    (hlen : ah.size + 2 ≤ c.length) : ¬ c.Nodup := by
  intro hnodup
  have hnd : c.dropLast.Nodup := List.Nodup.sublist (List.dropLast_sublist c) hnodup
  have hsub : c.dropLast ⊆ ah.reverse_parentage_mapping.map Prod.fst := by
    intro x hx
    exact map_find_mem_keys _ x (parent_chain_keys ah c h x hx)
  have hle := (List.Nodup.subperm hnd hsub).length_le
  simp only [List.length_dropLast, List.length_map] at hle
  unfold AncestryHash.size at hlen
  omega

/-- A walk of `makeAncestry` that has not returned after `n` iterations has
followed `n` parent links without coming to PID 1. -/
theorem makeAncestry_none_chain (ah : AncestryHash) (n : Nat) :
    ∀ p, ah.makeAncestry n p = none →
      ∃ c, c.length = n + 1 ∧ c.head? = some p ∧ ah.parent_chain c ∧ 1 ∉ c := by
  induction n with
  | zero =>
    intro p h
    have hp : p ≠ 1 := by
      intro hp
      rw [hp, makeAncestry_one] at h
      cases h
    exact ⟨[p], rfl, rfl, parent_chain_single ah p, by simpa using hp.symm⟩
  | succ n ih =>
    intro p h
    have hp : p ≠ 1 := by
      intro hp
      rw [hp, makeAncestry_one] at h
      cases h
    rw [makeAncestry_succ ah n p hp] at h
    cases hl : map_find ah.reverse_parentage_mapping p with
    | none => simp [hl] at h
    | some pp =>
      simp only [hl] at h
      cases hm : ah.makeAncestry n pp with
      | some r => simp [hm] at h
      | none =>
        obtain ⟨c, hlen, hhead, hchain, hno⟩ := ih pp hm
        match c, hlen, hhead, hchain, hno with
        | [], hlen, _, _, _ => simp at hlen
        | y :: rest, hlen, hhead, hchain, hno =>
          simp only [List.head?_cons, Option.some.injEq] at hhead
          subst hhead
          refine ⟨p :: y :: rest, by simp only [List.length_cons] at hlen ⊢; omega, rfl,
            (parent_chain_cons ah p y rest).2 ⟨hl, hchain⟩, ?_⟩
          intro hmem
          rcases List.mem_cons.1 hmem with h1 | h1
          · exact hp h1.symm
          · exact hno h1

/-- Every walk along the parent links from the pid that avoids PID 1 is a
beginning of the list a returning `makeAncestry` has built. -/
theorem chain_prefix_of_ancestry (ah : AncestryHash) (fuel : Nat) :
    ∀ (p rc : Int) (a : List Int), ah.makeAncestry fuel p = some (rc, a) →
      ∀ c, c.head? = some p → ah.parent_chain c → 1 ∉ c → c <+: a := by
  induction fuel with
  | zero =>
    intro p rc a h c hhead hchain hno
    rcases makeAncestry_inv ah 0 p rc a h with ⟨hp, _, _⟩ | ⟨hp, _, _, _⟩ | ⟨_, f, _, _, hf, _⟩
    · exfalso
      apply hno
      rw [hp] at hhead
      exact List.mem_of_mem_head? hhead
    · rw [makeAncestry_zero ah p hp] at h
      cases h
    · omega
  | succ fuel ih =>
    intro p rc a h c hhead hchain hno
    rcases makeAncestry_inv ah _ p rc a h with ⟨hp, _, _⟩ | ⟨_, hl, _, ha⟩ |
      ⟨_, f, pp, rest, hf, hl, hm, ha⟩
    · exfalso
      apply hno
      rw [hp] at hhead
      exact List.mem_of_mem_head? hhead
    · match c, hhead, hchain with
      | [], hhead, _ => cases hhead
      | [x], hhead, _ =>
        simp only [List.head?_cons, Option.some.injEq] at hhead
        rw [ha, hhead]
      | x :: y :: rest2, hhead, hchain =>
        simp only [List.head?_cons, Option.some.injEq] at hhead
        have := ((parent_chain_cons ah x y rest2).1 hchain).1
        rw [hhead, hl] at this
        cases this
    · have hf2 : f = fuel := by omega
      subst hf2
      match c, hhead, hchain, hno with
      | [], hhead, _, _ => cases hhead
      | [x], hhead, _, _ =>
        simp only [List.head?_cons, Option.some.injEq] at hhead
        rw [ha, hhead]
        exact ⟨rest, rfl⟩
      | x :: y :: rest2, hhead, hchain, hno =>
        simp only [List.head?_cons, Option.some.injEq] at hhead
        obtain ⟨h0, h1⟩ := (parent_chain_cons ah x y rest2).1 hchain
        rw [hhead, hl] at h0
        have hy : pp = y := Option.some.inj h0
        have hpre := ih pp rc rest hm (y :: rest2) (by rw [hy]; rfl) h1
          (fun hmem => hno (List.mem_cons_of_mem _ hmem))
        rw [ha, hhead]
        exact (List.prefix_cons_inj p).2 hpre

/-- When the parent links from the pid run into a cycle that avoids PID 1,
`makeAncestry` returns for no number of iterations. -/
theorem makeAncestry_none_of_cycle (ah : AncestryHash) (p : Int) (c : List Int)
    (hc : ah.cyclic_chain p c) : ∀ fuel, ah.makeAncestry fuel p = none := by
  intro fuel
  obtain ⟨hhead, hchain, hno, hdup⟩ := hc
  cases hm : ah.makeAncestry fuel p with
  | none => rfl
  | some r =>
    obtain ⟨rc, a⟩ := r
    exfalso
    have hpre := chain_prefix_of_ancestry ah fuel p rc a hm c hhead hchain hno
    exact hdup (List.Nodup.sublist hpre.sublist (makeAncestry_nodup_rc ah fuel p rc a hm))

/-- When `makeAncestry` returns for no number of iterations, the parent links
from the pid run into a cycle that avoids PID 1, within `|S| + 1` links. -/
theorem cycle_of_makeAncestry_none (ah : AncestryHash) (p : Int)
    (h : ∀ fuel, ah.makeAncestry fuel p = none) :
    ∃ c, ah.cyclic_chain p c ∧ c.length = ah.size + 2 := by
  obtain ⟨c, hlen, hhead, hchain, hno⟩ := makeAncestry_none_chain ah (ah.size + 1) p (h _)
  exact ⟨c, ⟨hhead, hchain, hno, parent_chain_repeats ah c hchain (by omega)⟩, hlen⟩

/-- On parent links without such a cycle `makeAncestry` returns, within
`|S| + 1` iterations. -/
theorem makeAncestry_returns_of_acyclic (ah : AncestryHash) (p : Int)
    (h : ∀ c, ¬ ah.cyclic_chain p c) :
    ∃ rc a, ∀ extra, ah.makeAncestry (ah.size + 1 + extra) p = some (rc, a) := by
  rcases makeAncestry_bounded ah p with ⟨rc, a, hm⟩ | hnone
  · exact ⟨rc, a, fun extra => makeAncestry_mono ah _ p _ hm _ (Nat.le_add_right _ _)⟩
  · obtain ⟨c, hc, _⟩ := cycle_of_makeAncestry_none ah p hnone
    exact absurd hc (h c)

/-- C14 (amended): for every snapshot S and pid p, one of three things
happens. Either `makeAncestry` returns success within `|S| + 1` iterations,
with a chain without repetition that starts at p, follows the snapshot's
parent links, ends at PID 1 and has at most `|S| + 1` elements (at most `|S|`
steps); or it returns the broken-chain error within `|S| + 1` iterations, the
chain avoiding PID 1 and ending at a pid without parent entry; or the parent
links from p run into a cycle that avoids PID 1 (some walk of at most
`|S| + 1` links from p visits a pid twice) and the walk never returns.
Whenever the parent links from p run into such a cycle the walk never
returns: `makeAncestry` returns exactly on the pids whose parent links have
no such cycle. -/
theorem C14_makeAncestry_bounded_or_diverges (ah : AncestryHash) (p : Int) :
    ((∃ a, (∀ extra, ah.makeAncestry (ah.size + 1 + extra) p = some (0, a)) ∧
          a.head? = some p ∧ a.getLast? = some 1 ∧ ah.parent_chain a ∧ a.Nodup ∧
          a.length ≤ ah.size + 1) ∨
        (∃ a last, (∀ extra, ah.makeAncestry (ah.size + 1 + extra) p = some (1, a)) ∧
          a.head? = some p ∧ a.getLast? = some last ∧ ah.parent_chain a ∧ a.Nodup ∧
          1 ∉ a ∧ map_find ah.reverse_parentage_mapping last = none ∧
          a.length ≤ ah.size + 1) ∨
        ((∀ fuel, ah.makeAncestry fuel p = none) ∧ p ≠ 1 ∧
          map_find ah.reverse_parentage_mapping p ≠ none ∧
          ∃ c, ah.cyclic_chain p c ∧ c.length = ah.size + 2)) ∧
      (∀ c, ah.cyclic_chain p c → ∀ fuel, ah.makeAncestry fuel p = none) ∧
      ((∀ c, ¬ ah.cyclic_chain p c) →
        ∃ rc a, ∀ extra, ah.makeAncestry (ah.size + 1 + extra) p = some (rc, a)) := by
  refine ⟨?_, fun c hc => makeAncestry_none_of_cycle ah p c hc,
    makeAncestry_returns_of_acyclic ah p⟩
  rcases makeAncestry_bounded ah p with ⟨rc, a, h⟩ | hnone
  · have hall : ∀ extra, ah.makeAncestry (ah.size + 1 + extra) p = some (rc, a) :=
      fun extra => makeAncestry_mono ah _ p _ h _ (Nat.le_add_right _ _)
    have hlen := makeAncestry_length_le ah _ p rc a h
    have hnodup := makeAncestry_nodup_rc ah _ p rc a h
    obtain ⟨hhead, hchain, hlast, hkeys⟩ := makeAncestry_shape ah _ p rc a h
    rcases hlast with ⟨hrc, hl⟩ | ⟨hrc, last, hl, hl1, hnp⟩
    · subst hrc
      exact Or.inl ⟨a, hall, hhead, hl, hchain, hnodup, hlen⟩
    · subst hrc
      refine Or.inr (Or.inl ⟨a, last, hall, hhead, hl, hchain, hnodup, ?_, hnp, hlen⟩)
      intro hmem
      obtain ⟨ys, hys⟩ := List.getLast?_eq_some_iff.1 hl
      rw [hys] at hmem hkeys
      rcases List.mem_append.1 hmem with h1 | h1
      · have := (hkeys 1 (by simpa using h1)).1
        exact this rfl
      · simp only [List.mem_singleton] at h1
        exact hl1 h1.symm
  · refine Or.inr (Or.inr ⟨hnone, ?_, ?_, cycle_of_makeAncestry_none ah p hnone⟩)
    · intro hp
      have := hnone 0
      rw [hp, makeAncestry_one] at this
      cases this
    · intro hl
      have hp : p ≠ 1 := by
        intro hp
        have := hnone 0
        rw [hp, makeAncestry_one] at this
        cases this
      have := hnone 1
      rw [makeAncestry_succ ah 0 p hp, hl] at this
      cases this

/-- The stages of a successful `plugin_run` of the anonymous plugin after
`select_account`: the two registrations, `ftruncate`, `lseek` and the write
loop run with the locks that `select_account` left, and the run ends with
`close(new_fd)` and `close(dir_fd)`. -/
theorem Anonymous.plugin_run_success_stages (fuel : Nat) (e : Env) (s s1 : State)
    (hrun : Anonymous.plugin_run fuel e s = some (ModResult.LCMAPS_MOD_SUCCESS, s1)) :
    ∃ sel sm new_hash sw writes,
      Anonymous.select_account fuel e (open_lockdir e s).2 = some (some sel, sm) ∧
      sel.account_hash = some new_hash ∧
      e.ftruncate_ok sel.fd = true ∧
      Anonymous.write_loop sel.fd e.write_script new_hash
        (((((sm.addCredentialData CredKind.UID sel.account_uid).addCredentialData
          CredKind.PRI_GID sel.account_gid).log (Call.ftruncate sel.fd)).set_file sel.fd
          (some [])).log (Call.lseek sel.fd)) = some (true, sw) ∧
      sw.locks = sm.locks ∧
      sw.trace = sm.trace ++ [Call.addCredentialData CredKind.UID sel.account_uid,
        Call.addCredentialData CredKind.PRI_GID sel.account_gid, Call.ftruncate sel.fd,
        Call.lseek sel.fd] ++ writes ∧
      (∀ x ∈ writes, x = Call.write sel.fd) ∧
      s1 = (sw.close sel.fd).log Call.close_dir := by
  by_cases hdir : (open_lockdir e s).1 = -1
  · simp [Anonymous.plugin_run, hdir] at hrun
  · cases hsel : Anonymous.select_account fuel e (open_lockdir e s).2 with
    | none => simp [Anonymous.plugin_run, hdir, hsel] at hrun
    | some r =>
      obtain ⟨o, sm⟩ := r
      cases o with
      | none => simp [Anonymous.plugin_run, hdir, hsel] at hrun
      | some sel =>
        cases hh : sel.account_hash with
        | none =>
          by_cases htr : e.ftruncate_ok sel.fd = false
          · simp [Anonymous.plugin_run, hdir, hsel, htr] at hrun
          · simp [Anonymous.plugin_run, hdir, hsel, htr, hh] at hrun
        | some nh =>
          have hrun2 := Anonymous.plugin_run_selected fuel e s sel sm nh hdir hsel hh
          rw [hrun] at hrun2
          by_cases htr : e.ftruncate_ok sel.fd = false
          · simp [htr] at hrun2
          · have htr2 : e.ftruncate_ok sel.fd = true := by simpa using htr
            simp only [htr2, Bool.true_eq_false, if_false] at hrun2
            rcases write_loop_spec sel.fd e.write_script nh
                (((((sm.addCredentialData CredKind.UID sel.account_uid).addCredentialData
                  CredKind.PRI_GID sel.account_gid).log (Call.ftruncate sel.fd)).set_file
                  sel.fd (some [])).log (Call.lseek sel.fd)) with
              ⟨_, hw⟩ | ⟨ok, s2, _, hw, _, hlk2, _, _, _, t, ht, hwr⟩
            · rw [hw] at hrun2
              cases hrun2
            · rw [hw] at hrun2
              cases ok with
              | false => simp at hrun2
              | true =>
                simp only [Option.some.injEq, Prod.mk.injEq, true_and] at hrun2
                refine ⟨sel, sm, nh, s2, t, rfl, hh, htr2, hw, ?_, ?_, hwr, hrun2⟩
                · rw [hlk2]
                  simp
                · rw [ht]
                  simp

/-- A candidate is returned by the body of the loop of `select_account` right
after its lock file was locked with `flock`. -/
theorem Anonymous.select_body_flock_last (fuel : Nat) (e : Env) (s s1 : State) (uid : Int)
    (sel : Selection)
    (h : Anonymous.select_body fuel e s uid = some (Step.return_ (some sel), s1)) :
    ∃ t, s1.trace = t ++ [Call.flock sel.fd] := by
  unfold Anonymous.select_body at h
  cases hpw : e.getpwuid uid with
  | none => simp [hpw] at h
  | some account =>
    simp only [hpw] at h
    cases hop : open_lock_file e (s.log (Call.getpwuid uid)) account.pw_name with
    | mk b s2 =>
      cases b with
      | false => simp [hop] at h
      | true =>
        simp only [hop] at h
        cases hfl : e.flock_error account.pw_name with
        | some err => simp [hfl] at h
        | none =>
          simp only [hfl] at h
          split at h
          · cases h
          · rename_i v ah hck
            by_cases h1 : v = -1
            · simp [h1] at h
            · rw [if_neg h1] at h
              by_cases h2 : v = 1
              · simp [h2] at h
              · rw [if_neg h2] at h
                simp only [Option.some.injEq, Prod.mk.injEq, Step.return_.injEq] at h
                obtain ⟨hsel, hs⟩ := h
                rw [← hs, ← hsel]
                exact ⟨s2.trace, rfl⟩

/-- A candidate is returned by `select_account` right after its lock file was
locked with `flock`. -/
theorem Anonymous.select_loop_flock_last (fuel : Nat) (e : Env) :
    ∀ (n : Nat) (uid : Int) (s s1 : State) (sel : Selection),
      Anonymous.select_loop fuel e n uid s = some (some sel, s1) →
      ∃ t, s1.trace = t ++ [Call.flock sel.fd] := by
  intro n
  induction n with
  | zero =>
    intro uid s s1 sel h
    simp [Anonymous.select_loop] at h
  | succ n ih =>
    intro uid s s1 sel h
    unfold Anonymous.select_loop at h
    cases hb : Anonymous.select_body fuel e s uid with
    | none => simp [hb] at h
    | some r =>
      obtain ⟨st, s2⟩ := r
      cases st with
      | continue_ =>
        simp only [hb] at h
        by_cases hov : uid = INT_MAX
        · simp [hov] at h
        · rw [if_neg hov] at h
          exact ih _ _ _ _ h
      | return_ o =>
        simp only [hb, Option.some.injEq, Prod.mk.injEq] at h
        obtain ⟨ho, hs⟩ := h
        subst ho hs
        exact Anonymous.select_body_flock_last fuel e s s2 uid sel hb

/-- C6 (amended): in every successful `plugin_run` of the anonymous plugin the
chosen lock file is locked by the `flock` that ends `select_account`; the
calls issued from there on are the two registrations, `ftruncate`, `lseek`
and the `write` calls, all with the lock held (the held locks are those left
by `select_account` in every state up to the end of the write loop), and then
`close(new_fd)` and `close(dir_fd)`. The lock is released by that `close`, the
only `close` of the descriptor, before the return: on return the process
holds no lock on the file, whose content is the caller's fingerprint. -/
theorem C6_lock_held_until_final_close (fuel : Nat) (e : Env) (s : State)
    (hrun : (Anonymous.plugin_run fuel e s).map (fun r => r.1) =
      some ModResult.LCMAPS_MOD_SUCCESS) :
    ∃ sel sm new_hash sw writes t0 s1,
      Anonymous.plugin_run fuel e s = some (ModResult.LCMAPS_MOD_SUCCESS, s1) ∧
      Anonymous.select_account fuel e (open_lockdir e s).2 = some (some sel, sm) ∧
      sm.trace = t0 ++ [Call.flock sel.fd] ∧
      sel.fd ∈ sm.locks ∧
      Anonymous.write_loop sel.fd e.write_script new_hash
        (((((sm.addCredentialData CredKind.UID sel.account_uid).addCredentialData
          CredKind.PRI_GID sel.account_gid).log (Call.ftruncate sel.fd)).set_file sel.fd
          (some [])).log (Call.lseek sel.fd)) = some (true, sw) ∧
      sel.fd ∈ ((sm.addCredentialData CredKind.UID sel.account_uid).addCredentialData
          CredKind.PRI_GID sel.account_gid).locks ∧
      sel.fd ∈ (((((sm.addCredentialData CredKind.UID sel.account_uid).addCredentialData
          CredKind.PRI_GID sel.account_gid).log (Call.ftruncate sel.fd)).set_file sel.fd
          (some [])).log (Call.lseek sel.fd)).locks ∧
      sw.locks = sm.locks ∧ sel.fd ∈ sw.locks ∧
      s1 = (sw.close sel.fd).log Call.close_dir ∧
      s1.trace = t0 ++ [Call.flock sel.fd] ++
        ([Call.addCredentialData CredKind.UID sel.account_uid,
          Call.addCredentialData CredKind.PRI_GID sel.account_gid, Call.ftruncate sel.fd,
          Call.lseek sel.fd] ++ writes) ++ [Call.close sel.fd, Call.close_dir] ∧
      (∀ x ∈ writes, x = Call.write sel.fd) ∧
      Call.close sel.fd ∉ [Call.addCredentialData CredKind.UID sel.account_uid,
          Call.addCredentialData CredKind.PRI_GID sel.account_gid, Call.ftruncate sel.fd,
          Call.lseek sel.fd] ++ writes ∧
      s1.locks = sm.locks.filter (fun x => decide (x ≠ sel.fd)) ∧
      sel.fd ∉ s1.locks ∧ (∀ x ∈ s1.locks, x ∈ s.locks) ∧
      getHash fuel e e.getpid = some (some new_hash) ∧
      s1.files sel.fd = some new_hash := by
  cases hr : Anonymous.plugin_run fuel e s with
  | none => simp [hr] at hrun
  | some r =>
    obtain ⟨res, s1⟩ := r
    simp only [hr, Option.map_some', Option.some.injEq] at hrun
    subst hrun
    obtain ⟨u, account, nh, sm, _, _, _, _, hg, hsel, _, _, _, hin, hfilt, hnot, hsub, _, hfile,
      _, _, _⟩ := Anonymous.plugin_run_success_inv fuel e s s1 hr
    obtain ⟨sel2, sm2, nh2, sw, writes, hsel2, hh2, _, hw, hlk, htrace, hwrites, hs1⟩ :=
      Anonymous.plugin_run_success_stages fuel e s s1 hr
    rw [hsel] at hsel2
    simp only [Option.some.injEq, Prod.mk.injEq] at hsel2
    obtain ⟨hselx, hsmx⟩ := hsel2
    subst hselx hsmx
    simp only [Option.some.injEq] at hh2
    subst hh2
    obtain ⟨t0, ht0⟩ := Anonymous.select_loop_flock_last fuel e _ _ _ _ _ hsel
    refine ⟨_, sm, nh, sw, writes, t0, s1, rfl, hsel, ht0, hin, hw, ?_, ?_, hlk, ?_, hs1, ?_,
      hwrites, ?_, hfilt, hnot, hsub, hg, hfile⟩
    · simpa using hin
    · simpa using hin
    · rw [hlk]
      exact hin
    · rw [hs1]
      simp [htrace, ht0]
    · intro hmem
      rcases List.mem_append.1 hmem with h1 | h1
      · simp at h1
      · have := hwrites _ h1
        cases this

/-- C6 (amended) at the cold pool of the worked example. -/
theorem C6_lock_held_until_final_close_witness :
    (Anonymous.plugin_run 10 demo_env demo_empty).map (fun r => r.1) =
        some ModResult.LCMAPS_MOD_SUCCESS ∧
      ∃ sel sm new_hash sw writes t0 s1,
        Anonymous.plugin_run 10 demo_env demo_empty = some (ModResult.LCMAPS_MOD_SUCCESS, s1) ∧
        Anonymous.select_account 10 demo_env (open_lockdir demo_env demo_empty).2 =
          some (some sel, sm) ∧
        sm.trace = t0 ++ [Call.flock sel.fd] ∧
        sel.fd ∈ sm.locks ∧
        Anonymous.write_loop sel.fd demo_env.write_script new_hash
          (((((sm.addCredentialData CredKind.UID sel.account_uid).addCredentialData
            CredKind.PRI_GID sel.account_gid).log (Call.ftruncate sel.fd)).set_file sel.fd
            (some [])).log (Call.lseek sel.fd)) = some (true, sw) ∧
        sel.fd ∈ ((sm.addCredentialData CredKind.UID sel.account_uid).addCredentialData
            CredKind.PRI_GID sel.account_gid).locks ∧
        sel.fd ∈ (((((sm.addCredentialData CredKind.UID sel.account_uid).addCredentialData
            CredKind.PRI_GID sel.account_gid).log (Call.ftruncate sel.fd)).set_file sel.fd
            (some [])).log (Call.lseek sel.fd)).locks ∧
        sw.locks = sm.locks ∧ sel.fd ∈ sw.locks ∧
        s1 = (sw.close sel.fd).log Call.close_dir ∧
        s1.trace = t0 ++ [Call.flock sel.fd] ++
          ([Call.addCredentialData CredKind.UID sel.account_uid,
            Call.addCredentialData CredKind.PRI_GID sel.account_gid, Call.ftruncate sel.fd,
            Call.lseek sel.fd] ++ writes) ++ [Call.close sel.fd, Call.close_dir] ∧
        (∀ x ∈ writes, x = Call.write sel.fd) ∧
        Call.close sel.fd ∉ [Call.addCredentialData CredKind.UID sel.account_uid,
            Call.addCredentialData CredKind.PRI_GID sel.account_gid, Call.ftruncate sel.fd,
            Call.lseek sel.fd] ++ writes ∧
        s1.locks = sm.locks.filter (fun x => decide (x ≠ sel.fd)) ∧
        sel.fd ∉ s1.locks ∧ (∀ x ∈ s1.locks, x ∈ demo_empty.locks) ∧
        getHash 10 demo_env demo_env.getpid = some (some new_hash) ∧
        s1.files sel.fd = some new_hash :=
  ⟨by decide, C6_lock_held_until_final_close 10 demo_env demo_empty (by decide)⟩

end Lcmaps
